import Mathlib

/-!
The `mk` tool: Makefile target parser and menu navigation.

A shallow embedding of `internal/parser/makefile.go` and of the pure parts of
`internal/ui/menu.go`.

Go strings are modelled as lists of Unicode code points (`Str`): the text is
taken to be valid UTF-8, so that searching for an ASCII substring byte by byte
and rune by rune agree.  Go `int` values are modelled as `Int`.  In the key loop of
`Run` cursor, scroll and the indices into strings are bounded by the length of a list and
`maxVisible` is the constant 15, so no overflow arises there; where a function takes
`maxVisible` as a parameter (`moveDown`, `renderMenu`) the sum `scroll + maxVisible` can
overflow: `wrapInt` gives the value the 64-bit `int` then holds, and `moveUpWrap`,
`moveDownWrap` and `renderMenu` compute with it.  The scanner of the parser is
modelled with the limit of its token buffer.
-/

namespace Mk

/-- A Go string, as the list of its runes. -/
abbrev Str := List Char

/-! ## The pieces of Go's `strings`, `unicode` and `bufio` that the code uses -/

/-- Go `unicode.IsSpace`: the Latin-1 spaces `\t \n \v \f \r`, space, U+0085, U+00A0,
and the characters with the property White_Space beyond Latin-1. -/
def isSpace (c : Char) : Bool :=
  let n := c.toNat
  (9 ≤ n && n ≤ 13) || n == 32 || n == 0x85 || n == 0xA0 || n == 0x1680 ||
  (0x2000 ≤ n && n ≤ 0x200A) || n == 0x2028 || n == 0x2029 || n == 0x202F ||
  n == 0x205F || n == 0x3000

/-- Go `strings.TrimSpace`: drop leading and trailing white space. -/
def TrimSpace (s : Str) : Str :=
  (s.dropWhile isSpace).rdropWhile isSpace

/-- Go `strings.HasPrefix s p`. -/
def HasPrefix : Str → Str → Bool
  | _, [] => true
  | [], _ :: _ => false
  | c :: s, p :: ps => c == p && HasPrefix s ps

/-- Go `strings.TrimPrefix s p`: `s` without the leading `p`, or `s` itself. -/
def TrimPrefix (s p : Str) : Str :=
  if HasPrefix s p then s.drop p.length else s

/-- First position at or after offset `i` where `sub` occurs, `-1` if none:
the search loop of Go `strings.Index`, with `i` the offset of the text still to search. -/
def indexFrom (sub : Str) : Str → Nat → Int
  | [], i => if sub.isEmpty then (i : Int) else -1
  | c :: cs, i => if HasPrefix (c :: cs) sub then (i : Int) else indexFrom sub cs (i + 1)

/-- Go `strings.Index s sub`: index of the first occurrence of `sub` in `s`, or `-1`. -/
def Index (s sub : Str) : Int := indexFrom sub s 0

/-- Go `strings.Contains s sub`. -/
def Contains (s sub : Str) : Bool := decide (0 ≤ Index s sub)

/-- Go slice expression `s[i:]` for an index `i` in range. -/
def sliceFrom (s : Str) (i : Int) : Str := s.drop i.toNat

/-- Go slice expression `s[:i]` for an index `i` in range. -/
def sliceTo (s : Str) (i : Int) : Str := s.take i.toNat

/-- The `dropCR` of Go `bufio`: drop one trailing carriage return. -/
def dropCR (s : Str) : Str :=
  if s.getLast? = some '\r' then s.dropLast else s

/-- `len(s)` of a Go string: the number of bytes of its UTF-8 encoding. -/
def byteLen (s : Str) : Nat := (s.map Char.utf8Size).sum

/-- `bufio.MaxScanTokenSize`: the size up to which the buffer of the scanner that
`bufio.NewScanner` returns may grow. -/
def maxScanTokenSize : Nat := 64 * 1024

/-- The token loop of `bufio.Scanner` with `bufio.ScanLines` over the text of a file:
`cur` is the part of the current line read so far.  A line ends at `\n`; a last line
without `\n` is delivered when it is not empty.  The result is the list of the lines
delivered, each without its trailing carriage return, and whether the scan stopped on
`bufio.ErrTooLong`: when the bytes of a line before its `\n` (or before the end of the
text), a carriage return included, number `maxScanTokenSize` or more, the buffer is full
without holding a token, `Scan` returns false, and neither that line nor a later one is
delivered. -/
def scanFrom (cur : Str) : Str → List Str × Bool
  | [] =>
    if cur.isEmpty then ([], false)
    else if maxScanTokenSize ≤ byteLen cur then ([], true)
    else ([dropCR cur], false)
  | c :: rest =>
    if c = '\n' then
      if maxScanTokenSize ≤ byteLen cur then ([], true)
      else (dropCR cur :: (scanFrom [] rest).1, (scanFrom [] rest).2)
    else scanFrom (cur ++ [c]) rest

/-- The lines `scanner.Scan()` / `scanner.Text()` deliver for the text of a file. -/
def scanLines (text : Str) : List Str := (scanFrom [] text).1

/-- Whether `scanner.Err()` is `bufio.ErrTooLong` after the loop over the text of a file. -/
def scanTooLong (text : Str) : Bool := (scanFrom [] text).2

/-! ## `internal/parser/makefile.go` -/

/-- `parser.Target`. -/
structure Target where
  Name : Str
  Description : Str
  deriving DecidableEq, Repr

/-- `isTarget` of `makefile.go`. -/
def isTarget (line : Str) : Bool :=
  if line.length = 0 || line.head? = some ' ' || line.head? = some '\t' then false
  else
    let colonIdx := Index line [':']
    if colonIdx ≤ 0 then false
    else
      let rest := sliceFrom line colonIdx
      if HasPrefix rest [':', '='] || HasPrefix rest [':', ':', '='] then false
      else
        let before := sliceTo line colonIdx
        if Contains before ['='] then false
        else
          let name := TrimSpace before
          if Contains name [' '] || Contains name ['\t'] then false
          else true

/-- `extractTargetName` of `makefile.go`. -/
def extractTargetName (line : Str) : Str :=
  let colonIdx := Index line [':']
  if colonIdx ≤ 0 then [] else TrimSpace (sliceTo line colonIdx)

/-- The two variables the scanning loop of `ParseMakefile` updates. -/
structure ParseState where
  targets : List Target
  pendingDescription : Str
  deriving DecidableEq, Repr

/-- One iteration of the `for scanner.Scan()` loop of `ParseMakefile`, on the line
`scanner.Text()`. -/
def parseLine (st : ParseState) (line : Str) : ParseState :=
  if HasPrefix (TrimSpace line) ['#', '#'] then
    let desc := TrimSpace (TrimPrefix (TrimSpace line) ['#', '#'])
    { st with pendingDescription := desc }
  else if isTarget line then
    let name := extractTargetName line
    if name = [] || HasPrefix name ['.'] then
      { st with pendingDescription := [] }
    else
      let idx := Index line ['#', '#']
      let desc := if idx ≠ -1 then TrimSpace (sliceFrom line (idx + 2)) else st.pendingDescription
      { targets := st.targets ++ [{ Name := name, Description := desc }],
        pendingDescription := [] }
  else if !HasPrefix (TrimSpace line) ['#'] then
    { st with pendingDescription := [] }
  else st

/-- State of `ParseMakefile` before the first line: no target, no pending description. -/
def initState : ParseState := { targets := [], pendingDescription := [] }

/-- The whole scanning loop of `ParseMakefile`, over the lines the scanner delivers. -/
def parseLines (lines : List Str) : ParseState := lines.foldl parseLine initState

/-- The targets `ParseMakefile` returns for a file that opens and has the given text:
those of the lines the scanner delivers.  The error returned with them is given by
`ParseMakefileFrom`. -/
def ParseMakefile (text : Str) : List Target := (parseLines (scanLines text)).targets

/-! ## `internal/ui/menu.go`: filter and navigation -/

/-- Go `unicode.ToLower` on one rune.  On ASCII it maps `A`..`Z` to `a`..`z` and
leaves the rest alone; beyond ASCII it follows the Unicode case tables, which are
the parameter `tbl`. -/
def toLowerRune (tbl : Char → Char) (c : Char) : Char :=
  if c.toNat < 128 then c.toLower else tbl c

/-- Go `strings.ToLower`: every rune mapped by `unicode.ToLower`. -/
def ToLower (tbl : Char → Char) (s : Str) : Str := s.map (toLowerRune tbl)

/-- The test in the loop body of `applyFilter`, for the lower-cased query `f`. -/
def matchesFilter (tbl : Char → Char) (f : Str) (t : Target) : Bool :=
  Contains (ToLower tbl t.Name) f || Contains (ToLower tbl t.Description) f

/-- `applyFilter` of `menu.go`; the loop appends the matching targets to `result`. -/
def applyFilter (tbl : Char → Char) (targets : List Target) (filter : Str) : List Target :=
  if filter = [] then targets
  else
    let f := ToLower tbl filter
    targets.foldl (fun result t => if matchesFilter tbl f t then result ++ [t] else result) []

/-- `moveUp` of `menu.go`, returning the new `(cursor, scroll)`. -/
def moveUp (cursor scroll : Int) : Int × Int :=
  if cursor > 0 then
    let cursor := cursor - 1
    if cursor < scroll then (cursor, scroll - 1) else (cursor, scroll)
  else (cursor, scroll)

/-- `moveDown` of `menu.go`, returning the new `(cursor, scroll)`, for arguments whose
sum `scroll + maxVisible` is within the range of `int`, as it is in the key loop of
`Run`. -/
def moveDown (cursor scroll maxVisible total : Int) : Int × Int :=
  if cursor < total - 1 then
    let cursor := cursor + 1
    if cursor ≥ scroll + maxVisible then (cursor, scroll + 1) else (cursor, scroll)
  else (cursor, scroll)

/-- The value a Go `int` of 64 bits holds for the exact result `x` of an addition or a
subtraction: the result wraps around in two's complement. -/
def wrapInt (x : Int) : Int :=
  (x + 9223372036854775808) % 18446744073709551616 - 9223372036854775808

/-- `moveUp` of `menu.go` in the arithmetic of the 64-bit `int`. -/
def moveUpWrap (cursor scroll : Int) : Int × Int :=
  if cursor > 0 then
    let cursor := wrapInt (cursor - 1)
    if cursor < scroll then (cursor, wrapInt (scroll - 1)) else (cursor, scroll)
  else (cursor, scroll)

/-- `moveDown` of `menu.go` in the arithmetic of the 64-bit `int`, for every value of
its arguments. -/
def moveDownWrap (cursor scroll maxVisible total : Int) : Int × Int :=
  if cursor < wrapInt (total - 1) then
    let cursor := wrapInt (cursor + 1)
    if cursor ≥ wrapInt (scroll + maxVisible) then (cursor, wrapInt (scroll + 1))
    else (cursor, scroll)
  else (cursor, scroll)

/-- `config.KeyScheme`, a string type whose constants `KeySchemeArrows`,
`KeySchemeWASD` and `KeySchemeCustom` are declared outside the files at hand: `unset` is
the empty string and `other` any string that is none of these. -/
inductive KeyScheme where
  | arrows
  | wasd
  | custom
  | unset
  | other
  deriving DecidableEq, Repr

/-- `ui.Options`, without the colour palette, which only the renderer reads.  The keys
are bytes. -/
structure Options where
  KeyScheme : Mk.KeyScheme
  CustomUpKey : Nat
  CustomDownKey : Nat
  deriving DecidableEq, Repr

/-- `ui.SelectionResult`; a nil `Target` pointer is `none`. -/
structure SelectionResult where
  Target : Option Mk.Target
  Confirmed : Bool
  deriving DecidableEq, Repr

/-- `isLetter` of `menu.go`: `A`..`Z` is 65..90 and `a`..`z` is 97..122. -/
def isLetter (b : Nat) : Bool :=
  (65 ≤ b && b ≤ 90) || (97 ≤ b && b ≤ 122)

/-- `eqCaseInsensitive` of `menu.go`. -/
def eqCaseInsensitive (a b : Nat) : Bool :=
  if isLetter a && isLetter b then (a ||| 0x20) == (b ||| 0x20) else a == b

/-- `isQuitKey` of `menu.go`: 3 is Ctrl-C, 113 is `q`, 81 is `Q`. -/
def isQuitKey (b : Nat) (opts : Options) : Bool :=
  if b = 3 then true
  else if opts.KeyScheme = KeyScheme.custom &&
      (eqCaseInsensitive opts.CustomUpKey 113 || eqCaseInsensitive opts.CustomDownKey 113) then
    false
  else b == 113 || b == 81

/-- `isUpKey` of `menu.go`: 119 is `w`, 87 is `W`. -/
def isUpKey (b : Nat) (opts : Options) : Bool :=
  match opts.KeyScheme with
  | KeyScheme.wasd => b == 119 || b == 87
  | KeyScheme.custom => eqCaseInsensitive b opts.CustomUpKey
  | _ => false

/-- `isDownKey` of `menu.go`: 115 is `s`, 83 is `S`. -/
def isDownKey (b : Nat) (opts : Options) : Bool :=
  match opts.KeyScheme with
  | KeyScheme.wasd => b == 115 || b == 83
  | KeyScheme.custom => eqCaseInsensitive b opts.CustomDownKey
  | _ => false

/-- The local variables of `Run` that live across iterations of its key loop. -/
structure MenuState where
  cursor : Int
  scroll : Int
  filter : Str
  filtering : Bool
  deriving DecidableEq, Repr

/-- What one iteration of the key loop of `Run` ends in: the next iteration, the return
of a result, or the run-time panic of an index out of range. -/
inductive Outcome where
  | next (s : MenuState)
  | result (r : SelectionResult)
  | panic
  deriving DecidableEq, Repr

/-- The `maxVisible` of `Run`. -/
def maxVisible : Int := 15

/-- The state `Run` enters its loop with. -/
def initMenu : MenuState := { cursor := 0, scroll := 0, filter := [], filtering := false }

/-- The clamp of the cursor at the head of the loop of `Run`, for `n` visible targets. -/
def clampCursor (cursor n : Int) : Int :=
  if cursor ≥ n then (if n = 0 then 0 else n - 1) else cursor

/-- The `if filtering` block of `Run` for the first byte `k` of the key: 27 is Escape,
13 Enter, 127 and 8 delete a byte, 32..126 are appended.  The query only ever holds
bytes 32..126, so its last byte is its last rune. -/
def filterKey (s : MenuState) (k : Nat) : MenuState :=
  let s1 : MenuState :=
    if k = 27 then { s with filtering := false, filter := [] }
    else if k = 13 then { s with filtering := false }
    else if k = 127 || k = 8 then
      (if s.filter.length > 0 then { s with filter := s.filter.dropLast } else s)
    else if 32 ≤ k && k < 127 then { s with filter := s.filter ++ [Char.ofNat k] }
    else s
  { s1 with cursor := 0, scroll := 0 }

/-- The call `moveUp(&cursor, &scroll)` on the state. -/
def stepUp (s : MenuState) : MenuState :=
  { s with cursor := (moveUp s.cursor s.scroll).1, scroll := (moveUp s.cursor s.scroll).2 }

/-- The call `moveDown(&cursor, &scroll, maxVisible, len(filtered))` on the state. -/
def stepDown (filtered : List Target) (s : MenuState) : MenuState :=
  { s with cursor := (moveDown s.cursor s.scroll maxVisible filtered.length).1,
           scroll := (moveDown s.cursor s.scroll maxVisible filtered.length).2 }

/-- The `case key[0] == 13` of the last `switch` of `Run`: nothing when no target is
visible, else the return of `filtered[cursor]`, which panics out of range. -/
def confirmKey (filtered : List Target) (s : MenuState) : Outcome :=
  if filtered.length = 0 then Outcome.next s
  else if 0 ≤ s.cursor then
    match filtered.get? s.cursor.toNat with
    | some t => Outcome.result { Target := some t, Confirmed := true }
    | none => Outcome.panic
  else Outcome.panic

/-- The last `switch` of the loop of `Run`, taken when not filtering; `key` holds the
`n ≥ 1` bytes read and `filtered` the visible targets.  47 is `/`, 13 Enter, and
27, 91, 65 or 66 an arrow up or down. -/
def browseKey (opts : Options) (filtered : List Target) (s : MenuState) (key : List Nat) :
    Outcome :=
  let k0 := key.getD 0 0
  if isQuitKey k0 opts then Outcome.result { Target := none, Confirmed := false }
  else if k0 = 47 then Outcome.next { s with filtering := true, filter := [] }
  else if k0 = 13 then confirmKey filtered s
  else if key.length ≥ 3 && k0 = 27 && key.getD 1 0 = 91 then
    if key.getD 2 0 = 65 then Outcome.next (stepUp s)
    else if key.getD 2 0 = 66 then Outcome.next (stepDown filtered s)
    else Outcome.next s
  else if isUpKey k0 opts then Outcome.next (stepUp s)
  else if isDownKey k0 opts then Outcome.next (stepDown filtered s)
  else Outcome.next s

/-- One iteration of the `for` loop of `Run`: filter, clamp the cursor, render, read a
key and dispatch it.  The input is `none` when `os.Stdin.Read` fails and otherwise the
bytes read, none to four of them. -/
def loopBody (tbl : Char → Char) (opts : Options) (targets : List Target) (s : MenuState)
    (input : Option (List Nat)) : Outcome :=
  let filtered := applyFilter tbl targets s.filter
  let s1 : MenuState := { s with cursor := clampCursor s.cursor filtered.length }
  match input with
  | none => Outcome.result { Target := none, Confirmed := false }
  | some key =>
    if key.length = 0 then Outcome.next s1
    else if s1.filtering then Outcome.next (filterKey s1 (key.getD 0 0))
    else browseKey opts filtered s1 key

/-- The loop of `Run` over the given inputs, from the state `s`: it stops at the first
iteration that returns or panics; when the inputs run out it waits in a state. -/
def runLoop (tbl : Char → Char) (opts : Options) (targets : List Target) :
    MenuState → List (Option (List Nat)) → Outcome
  | s, [] => Outcome.next s
  | s, i :: rest =>
    match loopBody tbl opts targets s i with
    | Outcome.next s1 => runLoop tbl opts targets s1 rest
    | o => o

/-! ## `ParseMakefile` on a file, `runFallbackMenu`, `Run`, `renderMenu`, `helpLine` -/

/-- The error `ParseMakefile` returns: the one of `os.Open`, or what `scanner.Err()`
gives, which is `bufio.ErrTooLong` or the error of a failed read. -/
inductive ParseError where
  | open
  | tooLong
  | read
  deriving DecidableEq, Repr

/-- What `ParseMakefile` meets at a path.  Either `os.Open` fails, or the file opens and
`text` is what its reads deliver: the whole file (`readFails = false`), or the part of it
before a read that fails and delivers no byte (`readFails = true`). -/
inductive Source where
  | unopenable
  | readable (text : Str) (readFails : Bool)
  deriving DecidableEq, Repr

/-- `ParseMakefile` of `makefile.go` with both of its results: `return nil, err` when the
file does not open, `return targets, scanner.Err()` after the loop.  The scanner keeps
the first error it meets and, after a failed read, still delivers the lines of the
bytes it holds. -/
def ParseMakefileFrom : Source → List Target × Option ParseError
  | Source.unopenable => ([], some ParseError.open)
  | Source.readable text readFails =>
    (ParseMakefile text,
      if scanTooLong text then some ParseError.tooLong
      else if readFails then some ParseError.read
      else none)

/-- An ASCII decimal digit. -/
def isDigit (c : Char) : Bool := 48 ≤ c.toNat && c.toNat ≤ 57

/-- The value of a run of decimal digits, as `strconv.ParseInt` accumulates it. -/
def decimalValue (ds : Str) : Int :=
  ds.foldl (fun acc c => acc * 10 + ((c.toNat - 48 : Nat) : Int)) 0

/-- The `s.accept(sign)` of the integer scan of `fmt`: one leading `+` or `-` is taken;
the result tells whether it was `-` and gives the input left. -/
def splitSign : Str → Bool × Str
  | [] => (false, [])
  | c :: r => if c = '+' then (false, r) else if c = '-' then (true, r) else (false, c :: r)

/-- The call `fmt.Sscanf(input, "%d", &idx)` on an input without leading white space, as
the trimmed line is: `some idx` when `err == nil`.  The scan accepts one sign, then reads
decimal digits as long as they come, at least one (`scanNumber` with the digits
`0123456789` of the verb `%d`), and leaves the rest of the input unread;
`strconv.ParseInt` in base 10 then rejects a value outside 64 bits. -/
def sscanInt (input : Str) : Option Int :=
  let signed := splitSign input
  let tok := signed.2.takeWhile isDigit
  if tok = [] then none
  else
    let v : Int := if signed.1 then - decimalValue tok else decimalValue tok
    if -9223372036854775808 ≤ v ∧ v ≤ 9223372036854775807 then some v else none

/-- One iteration of the `for` loop of `runFallbackMenu` on the string that
`reader.ReadString` returned (its error is dropped): the result returned, or `none` when
the loop prints the invalid-choice message and goes on. -/
def fallbackStep (targets : List Target) (input : Str) : Option SelectionResult :=
  let input := TrimSpace input
  if input = ['q'] then some { Target := none, Confirmed := false }
  else
    match sscanInt input with
    | some idx =>
      if idx ≥ 1 ∧ idx ≤ targets.length then
        match targets.get? (idx - 1).toNat with
        | some t => some { Target := some t, Confirmed := true }
        | none => none
      else none
    | none => none

/-- The loop of `runFallbackMenu` over the strings read: the first result returned, `none`
while it is still reading. -/
def runFallbackMenu (targets : List Target) : List Str → Option SelectionResult
  | [] => none
  | l :: rest =>
    match fallbackStep targets l with
    | some r => some r
    | none => runFallbackMenu targets rest

/-- How a call of `Run` stands after the inputs given: still waiting for input, returned,
or stopped by a run-time panic. -/
inductive RunOutcome where
  | waiting
  | returned (r : SelectionResult)
  | panicked
  deriving DecidableEq, Repr

/-- The start of `Run`: an unset key scheme becomes the arrows scheme. -/
def defaultScheme (opts : Options) : Options :=
  if opts.KeyScheme = KeyScheme.unset then { opts with KeyScheme := KeyScheme.arrows } else opts

/-- `Run` of `menu.go`: `rawOK` tells whether `makeRaw` succeeds, `keys` are the reads of
the key loop and `lines` the strings read by the fallback prompt. -/
def Run (tbl : Char → Char) (targets : List Target) (opts : Options) (rawOK : Bool)
    (keys : List (Option (List Nat))) (lines : List Str) : RunOutcome :=
  if targets.length = 0 then RunOutcome.returned { Target := none, Confirmed := false }
  else if rawOK then
    match runLoop tbl (defaultScheme opts) targets initMenu keys with
    | Outcome.next _ => RunOutcome.waiting
    | Outcome.result r => RunOutcome.returned r
    | Outcome.panic => RunOutcome.panicked
  else
    match runFallbackMenu targets lines with
    | some r => RunOutcome.returned r
    | none => RunOutcome.waiting

/-- A line `renderMenu` prints, without its colours: the title, the second line (filter
being typed, filter committed, or help), the blank line, the empty-state message, a row
with its index, whether it is the cursor row, and its target, and the position
indicator with its two numbers. -/
inductive FrameLine where
  | title
  | filterInput (query : Str)
  | filterShown (query : Str)
  | help (opts : Options)
  | blank
  | noMatch
  | row (index : Int) (selected : Bool) (t : Target)
  | position (current total : Int)
  deriving DecidableEq, Repr

/-- The closure `printLine` of `renderMenu`: print the line and count it. -/
def printLine (st : List FrameLine × Int) (l : FrameLine) : List FrameLine × Int :=
  (st.1 ++ [l], st.2 + 1)

/-- The loop `for i := scroll; i < end; i++` of `renderMenu`, with the number of
iterations left; `targets[i]` out of range is a panic, `none`. -/
def renderRows (targets : List Target) (cursor : Int) :
    Nat → Int → List FrameLine × Int → Option (List FrameLine × Int)
  | 0, _, st => some st
  | n + 1, i, st =>
    if 0 ≤ i then
      match targets.get? i.toNat with
      | some t => renderRows targets cursor n (i + 1) (printLine st (FrameLine.row i (i == cursor) t))
      | none => none
    else none

set_option linter.unusedVariables false in
/-- `renderMenu` of `menu.go`: the lines printed and the count returned, `none` for a
panic.  The erasing of the `prevLines` previous lines prints no line.  The sums
`scroll + maxVisible` and `cursor + 1` are taken in the 64-bit `int`; the loop variable
stays below `len(targets)`. -/
def renderMenu (targets : List Target) (cursor scroll maxVisible : Int) (filter : Str)
    (filtering : Bool) (prevLines : Int) (opts : Options) : Option (List FrameLine × Int) :=
  let st0 : List FrameLine × Int := ([], 0)
  let st1 := printLine st0 FrameLine.title
  let st2 :=
    if filtering then printLine st1 (FrameLine.filterInput filter)
    else if filter ≠ [] then printLine st1 (FrameLine.filterShown filter)
    else printLine st1 (FrameLine.help opts)
  let st3 := printLine st2 FrameLine.blank
  if targets.length = 0 then some (printLine st3 FrameLine.noMatch)
  else
    let end0 := wrapInt (scroll + maxVisible)
    let end1 : Int := if end0 > targets.length then targets.length else end0
    match renderRows targets cursor (end1 - scroll).toNat scroll st3 with
    | some st4 =>
      if (targets.length : Int) > maxVisible then
        some (printLine st4 (FrameLine.position (wrapInt (cursor + 1)) targets.length))
      else some st4
    | none => none

/-- The `quitHint` of the custom case of `helpLine`: `Ctrl+C quit` when a custom key is
`q` (113), else `q quit`. -/
def quitHint (opts : Options) : Str :=
  if opts.CustomUpKey = 113 || opts.CustomDownKey = 113 then
    ['C', 't', 'r', 'l', '+', 'C', ' ', 'q', 'u', 'i', 't']
  else ['q', ' ', 'q', 'u', 'i', 't']

/-- What `helpLine` of `menu.go` puts in its line: the WASD text, the custom text with the
two keys and the quit hint, or the arrows text. -/
inductive HelpText where
  | wasd
  | custom (up down : Nat) (hint : Str)
  | arrows
  deriving DecidableEq, Repr

/-- `helpLine` of `menu.go`, without the message catalogue and the colours. -/
def helpLine (opts : Options) : HelpText :=
  match opts.KeyScheme with
  | KeyScheme.wasd => HelpText.wasd
  | KeyScheme.custom => HelpText.custom opts.CustomUpKey opts.CustomDownKey (quitHint opts)
  | _ => HelpText.arrows

/-! ## Vocabulary of the specification -/

/-- A target name as the specification's examples use it: not empty, free of white
space, of `:`, `=` and `#`, and not starting with a dot. -/
def IsPlainName (n : Str) : Prop :=
  n ≠ [] ∧ (∀ c ∈ n, isSpace c = false ∧ c ≠ ':' ∧ c ≠ '=' ∧ c ≠ '#') ∧ n.head? ≠ some '.'

instance (n : Str) : Decidable (IsPlainName n) := by
  unfold IsPlainName; infer_instance

/-- A text made of the given lines, each but the last followed by a newline. -/
def joinLines : List Str → Str
  | [] => []
  | [l] => l
  | l :: l2 :: ls => l ++ '\n' :: joinLines (l2 :: ls)

/-- The pieces of a text between its newlines, one more than it has newlines: a
character that is not a newline joins the first piece of what follows it. -/
def splitNL : Str → List Str
  | [] => [[]]
  | c :: cs =>
    if c = '\n' then [] :: splitNL cs
    else (c :: (splitNL cs).headD []) :: (splitNL cs).tail

/-- The pieces of a text that are lines: all of them, but for an empty piece after the
last newline. -/
def dropFinalEmpty (ps : List Str) : List Str :=
  if ps.getLast? = some [] then ps.dropLast else ps

/-- The lines of a text: its pieces between newlines that are lines, each without the
carriage return that may end it. -/
def textLines (text : Str) : List Str := (dropFinalEmpty (splitNL text)).map dropCR

/-- A text with a line too long for the scanner: the line `build:`, a line of `n`
letters `x`, the line `later:`. -/
def longLineText (n : Nat) : Str :=
  ['b', 'u', 'i', 'l', 'd', ':'] ++ '\n' ::
    (List.replicate n 'x' ++ '\n' :: ['l', 'a', 't', 'e', 'r', ':', '\n'])

/-- A `##` line: its trimmed form starts with `##`. -/
def isDocLine (line : Str) : Bool := HasPrefix (TrimSpace line) ['#', '#']

/-- A line for which the specification has the parser emit a target: not a `##`
line, a target line, with a name that is neither empty nor starts with a dot. -/
def emitsTarget (line : Str) : Bool :=
  !isDocLine line && isTarget line &&
    !(extractTargetName line = [] || HasPrefix (extractTargetName line) ['.'])

/-- The assignment operators of a Makefile: `=`, `:=`, `::=`, `?=`, `+=`, `!=`. -/
def assignmentOps : List Str :=
  [['='], [':', '='], [':', ':', '='], ['?', '='], ['+', '='], ['!', '=']]

/-- The filter rule in the specification's words: the lower-cased query occurs as a
substring of the lower-cased name or of the lower-cased description. -/
def MatchesQuery (tbl : Char → Char) (q : Str) (t : Target) : Prop :=
  ToLower tbl q <:+: ToLower tbl t.Name ∨ ToLower tbl q <:+: ToLower tbl t.Description

instance (tbl : Char → Char) (q : Str) (t : Target) : Decidable (MatchesQuery tbl q t) := by
  unfold MatchesQuery; infer_instance

/-- The target list of the specification's end-to-end examples: `build`, `test`, `lint`. -/
def exampleTargets : List Target :=
  [{ Name := ['b', 'u', 'i', 'l', 'd'], Description := ['B', 'u', 'i', 'l', 'd'] },
   { Name := ['t', 'e', 's', 't'], Description := [] },
   { Name := ['l', 'i', 'n', 't'], Description := [] }]

/-- The two navigation events. -/
inductive NavEvent where
  | up
  | down
  deriving DecidableEq, Repr

/-- One navigation event applied to `(cursor, scroll)`, as the key loop of `Run` does. -/
def navStep (maxVisible total : Int) (s : Int × Int) : NavEvent → Int × Int
  | .up => moveUp s.1 s.2
  | .down => moveDown s.1 s.2 maxVisible total

/-- A sequence of navigation events applied in order. -/
def navigate (maxVisible total : Int) (s : Int × Int) (evs : List NavEvent) : Int × Int :=
  evs.foldl (navStep maxVisible total) s

/-- One navigation event applied to `(cursor, scroll)` in the arithmetic of the 64-bit
`int`. -/
def navStepWrap (maxVisible total : Int) (s : Int × Int) : NavEvent → Int × Int
  | .up => moveUpWrap s.1 s.2
  | .down => moveDownWrap s.1 s.2 maxVisible total

/-- A sequence of navigation events applied in order, in the arithmetic of the 64-bit
`int`. -/
def navigateWrap (maxVisible total : Int) (s : Int × Int) (evs : List NavEvent) : Int × Int :=
  evs.foldl (navStepWrap maxVisible total) s

/-- The navigation invariant of the specification for a visible list of length `total`. -/
def NavInv (maxVisible total : Int) (s : Int × Int) : Prop :=
  0 ≤ s.1 ∧ s.1 < total ∧ s.2 ≤ s.1 ∧ s.1 < s.2 + maxVisible

/-- The key event of an arrow key: Escape, `[`, then `A` for up and `B` for down. -/
def arrowKey : NavEvent → List Nat
  | NavEvent.up => [27, 91, 65]
  | NavEvent.down => [27, 91, 66]

/-- The key events of a text typed one byte per event. -/
def typedKeys (bytes : List Nat) : List (Option (List Nat)) :=
  bytes.map (fun b => some [b])

/-- The query a typed text leaves: each byte as the rune `string(byte)` gives. -/
def queryOf (bytes : List Nat) : Str := bytes.map Char.ofNat

/-- The visible set of a state: the targets that pass its query. -/
def visibleOf (tbl : Char → Char) (targets : List Target) (s : MenuState) : List Target :=
  applyFilter tbl targets s.filter

/-- The state as `renderMenu` is called with it: the cursor clamped to the visible set. -/
def renderView (tbl : Char → Char) (targets : List Target) (s : MenuState) : MenuState :=
  { s with cursor := clampCursor s.cursor (visibleOf tbl targets s).length }

/-- The invariants of the specification on a menu state: `0 ≤ cursor < len(visible)`
when the visible set is not empty and `cursor = 0` otherwise, and
`0 ≤ scroll ≤ cursor < scroll + maxVisible`. -/
def MenuInv (tbl : Char → Char) (targets : List Target) (s : MenuState) : Prop :=
  ((visibleOf tbl targets s) ≠ [] → 0 ≤ s.cursor ∧ s.cursor < (visibleOf tbl targets s).length) ∧
  ((visibleOf tbl targets s) = [] → s.cursor = 0) ∧
  0 ≤ s.scroll ∧ s.scroll ≤ s.cursor ∧ s.cursor < s.scroll + maxVisible

/-- A state the loop of `Run` can be in after some inputs from the initial state. -/
def Reachable (tbl : Char → Char) (opts : Options) (targets : List Target) (s : MenuState) :
    Prop :=
  ∃ inputs, runLoop tbl opts targets initMenu inputs = Outcome.next s

/-- Lower case of an ASCII byte: `A`..`Z` moved to `a`..`z`. -/
def lowerByte (b : Nat) : Nat := if 65 ≤ b ∧ b ≤ 90 then b + 32 else b

/-- The five conditions of the specification for a target line, with white space read
as the code reads it, a space or a tab: the line does not start with white space; it
contains a colon; the part from the first colon does not begin with `:=` or `::=`; the
part before the first colon contains no `=`; the trimmed part before the first colon
contains no white space. -/
def FiveConditions (line : Str) : Prop :=
  (line.head? ≠ some ' ' ∧ line.head? ≠ some '\t') ∧
  ':' ∈ line ∧
  (¬ [':', '='] <+: line.dropWhile (fun c => c != ':') ∧
    ¬ [':', ':', '='] <+: line.dropWhile (fun c => c != ':')) ∧
  '=' ∉ line.takeWhile (fun c => c != ':') ∧
  (∀ c ∈ TrimSpace (line.takeWhile (fun c => c != ':')), c ≠ ' ' ∧ c ≠ '\t')

instance (line : Str) : Decidable (FiveConditions line) := by
  unfold FiveConditions; infer_instance

/-- The input starts with an integer `k`: an optional sign, then decimal digits that are
not followed by a further digit, the value within 64 bits; what comes after the digits
is free. -/
def StartsWithInteger (s : Str) (k : Int) : Prop :=
  ∃ sign ds rest, s = sign ++ ds ++ rest ∧
    (sign = [] ∨ sign = ['+'] ∨ sign = ['-']) ∧
    ds ≠ [] ∧ (∀ c ∈ ds, isDigit c = true) ∧
    (∀ c, rest.head? = some c → isDigit c = false) ∧
    k = (if sign = ['-'] then - decimalValue ds else decimalValue ds) ∧
    -9223372036854775808 ≤ k ∧ k ≤ 9223372036854775807

/-- The whole input is an integer `k`: an optional sign and decimal digits, nothing else. -/
def IsInteger (s : Str) (k : Int) : Prop :=
  ∃ sign ds, s = sign ++ ds ∧
    (sign = [] ∨ sign = ['+'] ∨ sign = ['-']) ∧
    ds ≠ [] ∧ (∀ c ∈ ds, isDigit c = true) ∧
    k = (if sign = ['-'] then - decimalValue ds else decimalValue ds)

/-! ## Lemmas on the string primitives -/

theorem hasPrefix_iff (s p : Str) : HasPrefix s p = true ↔ p <+: s := by
  induction p generalizing s with
  | nil => simp [HasPrefix]
  | cons a p ih =>
    cases s with
    | nil => simp [HasPrefix]
    | cons c s =>
      simp only [HasPrefix, Bool.and_eq_true, beq_iff_eq, ih, List.cons_prefix_cons]
      constructor
      · rintro ⟨h, h2⟩; exact ⟨h.symm, h2⟩
      · rintro ⟨h, h2⟩; exact ⟨h.symm, h2⟩

theorem hasPrefix_cons_ne (c a : Char) (s p : Str) (h : c ≠ a) :
    HasPrefix (c :: s) (a :: p) = false := by
  simp [HasPrefix, h]

theorem indexFrom_eq_neg_one_iff (sub s : Str) (i : Nat) :
    indexFrom sub s i = -1 ↔ ¬ sub <:+: s := by
  induction s generalizing i with
  | nil =>
    cases sub with
    | nil => simp [indexFrom]
    | cons a sub => simp [indexFrom]
  | cons c cs ih =>
    unfold indexFrom
    by_cases h : HasPrefix (c :: cs) sub = true
    · simp only [h, if_true]
      have : sub <:+: c :: cs := ((hasPrefix_iff _ _).1 h).isInfix
      simp only [this, not_true_eq_false, iff_false]
      omega
    · simp only [h, if_false, Bool.false_eq_true, ih, List.infix_cons_iff]
      rw [hasPrefix_iff] at h
      tauto

theorem indexFrom_nonneg_iff (sub s : Str) (i : Nat) :
    0 ≤ indexFrom sub s i ↔ sub <:+: s := by
  induction s generalizing i with
  | nil =>
    cases sub with
    | nil => simp [indexFrom]
    | cons a sub => simp [indexFrom]
  | cons c cs ih =>
    unfold indexFrom
    by_cases h : HasPrefix (c :: cs) sub = true
    · simp only [h, if_true]
      have : sub <:+: c :: cs := ((hasPrefix_iff _ _).1 h).isInfix
      simp only [this, iff_true]
      omega
    · simp only [h, if_false, Bool.false_eq_true, ih, List.infix_cons_iff]
      rw [hasPrefix_iff] at h
      tauto

theorem contains_iff (s sub : Str) : Contains s sub = true ↔ sub <:+: s := by
  simp [Contains, Index, indexFrom_nonneg_iff]

theorem index_eq_neg_one_iff (s sub : Str) : Index s sub = -1 ↔ ¬ sub <:+: s :=
  indexFrom_eq_neg_one_iff sub s 0

theorem indexFrom_first (x : Char) (xs a b : Str) (i : Nat) (h : x ∉ a) :
    indexFrom (x :: xs) (a ++ x :: (xs ++ b)) i = ((i + a.length : Nat) : Int) := by
  induction a generalizing i with
  | nil =>
    have : HasPrefix (x :: (xs ++ b)) (x :: xs) = true := by
      rw [hasPrefix_iff]; exact ⟨b, rfl⟩
    simp [indexFrom, this]
  | cons c a ih =>
    have hc : c ≠ x := fun e => h (by simp [e])
    have ha : x ∉ a := fun e => h (by simp [e])
    have := ih (i + 1) ha
    simp only [List.cons_append, indexFrom, hasPrefix_cons_ne c x _ _ hc]
    simp only [Bool.false_eq_true, if_false, List.append_eq]
    rw [this]; simp; omega

theorem index_first (x : Char) (xs a b : Str) (h : x ∉ a) :
    Index (a ++ x :: (xs ++ b)) (x :: xs) = (a.length : Int) := by
  have := indexFrom_first x xs a b 0 h
  simpa [Index] using this

theorem index_absent (x : Char) (xs s : Str) (h : x ∉ s) : Index s (x :: xs) = -1 := by
  rw [index_eq_neg_one_iff]
  rintro ⟨a, b, e⟩
  apply h
  rw [← e]; simp

theorem isSpace_space : isSpace ' ' = true := by decide

theorem isSpace_tab : isSpace '\t' = true := by decide

theorem isSpace_cr : isSpace '\r' = true := by decide

theorem trimSpace_cons_space (c : Char) (s : Str) (h : isSpace c = true) :
    TrimSpace (c :: s) = TrimSpace s := by
  simp [TrimSpace, h]

theorem rdropWhile_cons (p : Char → Bool) (a : Char) (l : Str) :
    List.rdropWhile p (a :: l) =
      if List.rdropWhile p l = [] then (if p a then [] else [a]) else a :: List.rdropWhile p l := by
  induction l using List.reverseRecOn generalizing a with
  | nil => simp [List.rdropWhile_singleton]
  | append_singleton l x ih =>
    by_cases hx : p x = true
    · rw [← List.cons_append, List.rdropWhile_concat_pos _ _ _ hx,
        List.rdropWhile_concat_pos _ _ _ hx]
      exact ih a
    · rw [← List.cons_append, List.rdropWhile_concat_neg _ _ _ hx,
        List.rdropWhile_concat_neg _ _ _ hx]
      simp

theorem rdropWhile_cons_of_neg (p : Char → Bool) (a : Char) (l : Str) (h : p a = false) :
    List.rdropWhile p (a :: l) = a :: List.rdropWhile p l := by
  rw [rdropWhile_cons]
  by_cases e : List.rdropWhile p l = []
  · simp [e, h]
  · simp [e]

theorem dropWhile_rdropWhile_comm (p : Char → Bool) (l : Str) :
    List.dropWhile p (List.rdropWhile p l) = List.rdropWhile p (List.dropWhile p l) := by
  induction l with
  | nil => simp
  | cons a l ih =>
    by_cases h : p a = true
    · rw [List.dropWhile_cons_of_pos h, rdropWhile_cons]
      by_cases e : List.rdropWhile p l = []
      · rw [← ih]; simp [e, h]
      · simp only [e, if_false]; rw [List.dropWhile_cons_of_pos h]; exact ih
    · have h2 : p a = false := by simpa using h
      rw [List.dropWhile_cons_of_neg h, rdropWhile_cons_of_neg p a l h2,
        List.dropWhile_cons_of_neg h]

theorem trimSpace_comm (s : Str) :
    TrimSpace s = List.dropWhile isSpace (List.rdropWhile isSpace s) := by
  rw [TrimSpace, dropWhile_rdropWhile_comm]

theorem trimSpace_cons_of_not_space (c : Char) (s : Str) (h : isSpace c = false) :
    TrimSpace (c :: s) = c :: List.rdropWhile isSpace s := by
  have h1 : ¬ (isSpace c = true) := by simp [h]
  rw [TrimSpace, List.dropWhile_cons_of_neg h1, rdropWhile_cons_of_neg _ _ _ h]

theorem trimSpace_eq_self (s : Str) (h : ∀ c ∈ s, isSpace c = false) : TrimSpace s = s := by
  cases s with
  | nil => simp [TrimSpace]
  | cons a l =>
    rw [trimSpace_cons_of_not_space a l (h a (by simp))]
    congr 1
    rw [List.rdropWhile_eq_self_iff]
    intro hl
    have := h _ (List.mem_cons_of_mem a (List.getLast_mem hl))
    simp [this]

theorem trimSpace_rdropWhile (s : Str) : TrimSpace (List.rdropWhile isSpace s) = TrimSpace s := by
  rw [trimSpace_comm, trimSpace_comm, List.rdropWhile_idempotent]

theorem trimSpace_concat_space (s : Str) (c : Char) (h : isSpace c = true) :
    TrimSpace (s ++ [c]) = TrimSpace s := by
  rw [trimSpace_comm, trimSpace_comm, List.rdropWhile_concat_pos _ _ _ h]

theorem dropCR_eq (s : Str) : dropCR s = s ∨ (s = dropCR s ++ ['\r']) := by
  unfold dropCR
  by_cases h : s.getLast? = some '\r'
  · right
    simp only [h, if_true]
    exact (List.dropLast_append_getLast? _ (by simp [h])).symm
  · left; simp [h]

theorem trimSpace_dropCR (s : Str) : TrimSpace (dropCR s) = TrimSpace s := by
  rcases dropCR_eq s with h | h
  · rw [h]
  · conv_rhs => rw [h]
    rw [trimSpace_concat_space _ _ isSpace_cr]

theorem trimSpace_within (s : Str) : TrimSpace s <:+: s :=
  (List.rdropWhile_prefix isSpace _).isInfix.trans (List.dropWhile_suffix isSpace).isInfix

/-- A line whose trimmed form starts with `##` contains `##`. -/
theorem docLine_has_hashes (line : Str) (h : isDocLine line = true) : ['#', '#'] <:+: line :=
  (((hasPrefix_iff _ _).1 h).isInfix).trans (trimSpace_within line)

theorem isDocLine_cons_of_ne (c : Char) (s : Str) (hs : isSpace c = false) (hc : c ≠ '#') :
    isDocLine (c :: s) = false := by
  rw [isDocLine, trimSpace_cons_of_not_space c s hs]
  exact hasPrefix_cons_ne _ _ _ _ hc

/-- A name free of white space, `:` and `=`, followed by a colon that no `=` follows,
is a target line, and the name is what `extractTargetName` returns. -/
theorem isTarget_name_colon (n rest : Str) (hne : n ≠ [])
    (hn : ∀ c ∈ n, isSpace c = false ∧ c ≠ ':' ∧ c ≠ '=')
    (h1 : HasPrefix rest ['='] = false) (h2 : HasPrefix rest [':', '='] = false) :
    isTarget (n ++ ':' :: rest) = true ∧ extractTargetName (n ++ ':' :: rest) = n := by
  have hidx : Index (n ++ ':' :: rest) [':'] = (n.length : Int) := by
    have := index_first ':' [] n rest (fun hm => (hn _ hm).2.1 rfl)
    simpa using this
  have hlen : 0 < n.length := List.length_pos.2 hne
  have htrim : TrimSpace n = n := trimSpace_eq_self n (fun c hc => (hn c hc).1)
  have hto : sliceTo (n ++ ':' :: rest) (n.length : Int) = n := by
    simp [sliceTo]
  have hfrom : sliceFrom (n ++ ':' :: rest) (n.length : Int) = ':' :: rest := by
    simp [sliceFrom]
  have heq : Contains n ['='] = false := by
    have := index_absent '=' [] n (fun hm => (hn _ hm).2.2 rfl)
    simp [Contains, this]
  have hsp : Contains n [' '] = false := by
    have := index_absent ' ' [] n (fun hm => by have := (hn _ hm).1; simp [isSpace_space] at this)
    simp [Contains, this]
  have htb : Contains n ['\t'] = false := by
    have := index_absent '\t' [] n (fun hm => by have := (hn _ hm).1; simp [isSpace_tab] at this)
    simp [Contains, this]
  have hhead : ¬ n.head? = some ' ' ∧ ¬ n.head? = some '\t' := by
    cases n with
    | nil => exact absurd rfl hne
    | cons a l =>
      have ha := (hn a (by simp)).1
      constructor
      · intro e; simp at e; rw [e, isSpace_space] at ha; exact absurd ha (by decide)
      · intro e; simp at e; rw [e, isSpace_tab] at ha; exact absurd ha (by decide)
  have hp1 : HasPrefix (':' :: rest) [':', '='] = false := by
    simpa [HasPrefix] using h1
  have hp2 : HasPrefix (':' :: rest) [':', ':', '='] = false := by
    simpa [HasPrefix] using h2
  constructor
  · unfold isTarget
    simp only [hidx, hto, hfrom, htrim, heq, hsp, htb, hp1, hp2]
    have : ¬ ((n.length : Int) ≤ 0) := by omega
    simp [this]
    exact hhead
  · unfold extractTargetName
    have : ¬ ((n.length : Int) ≤ 0) := by omega
    simp only [hidx, hto, htrim, this, if_false]

/-! ## Lemmas on one step of the scanning loop -/

theorem parseLine_doc (st : ParseState) (line : Str) (h : isDocLine line = true) :
    parseLine st line =
      { st with pendingDescription := TrimSpace (TrimPrefix (TrimSpace line) ['#', '#']) } := by
  unfold isDocLine at h
  simp [parseLine, h]

theorem parseLine_not_target (st : ParseState) (line : Str) (h : isTarget line = false) :
    (parseLine st line).targets = st.targets := by
  unfold parseLine
  split
  · rfl
  · simp only [h, Bool.false_eq_true, if_false]
    split <;> rfl

theorem parseLine_emits (st : ParseState) (line : Str) (h : emitsTarget line = true) :
    parseLine st line =
      { targets := st.targets ++ [{
          Name := extractTargetName line,
          Description :=
            if Index line ['#', '#'] ≠ -1
            then TrimSpace (sliceFrom line (Index line ['#', '#'] + 2))
            else st.pendingDescription }],
        pendingDescription := [] } := by
  simp only [emitsTarget, isDocLine, Bool.and_eq_true, Bool.not_eq_true'] at h
  obtain ⟨⟨h1, h2⟩, h3⟩ := h
  unfold parseLine
  simp only [h1, h2, h3, Bool.false_eq_true, if_false, if_true]

theorem parseLine_not_emits (st : ParseState) (line : Str) (h : emitsTarget line = false) :
    (parseLine st line).targets = st.targets := by
  by_cases hd : isDocLine line = true
  · rw [parseLine_doc st line hd]
  · by_cases ht : isTarget line = true
    · have hn : (extractTargetName line = [] || HasPrefix (extractTargetName line) ['.']) = true := by
        simp only [emitsTarget, ht, Bool.not_eq_true] at h hd
        simp [hd] at h ⊢
        tauto
      unfold isDocLine at hd
      unfold parseLine
      simp only [hd, ht, hn, Bool.false_eq_true, if_false, if_true]
    · exact parseLine_not_target st line (by simpa using ht)

theorem emitsTarget_name (line : Str) (h : emitsTarget line = true) :
    extractTargetName line ≠ [] ∧ (extractTargetName line).head? ≠ some '.' := by
  simp only [emitsTarget, Bool.and_eq_true, Bool.not_eq_true', Bool.or_eq_false_iff,
    decide_eq_false_iff_not] at h
  obtain ⟨_, h3, h4⟩ := h
  refine ⟨h3, ?_⟩
  intro e
  cases hn : extractTargetName line with
  | nil => exact h3 hn
  | cons a l =>
    rw [hn] at e h4
    simp at e
    simp [HasPrefix, e] at h4

/-- The names of the targets after the loop has run over `lines` from the state `st`. -/
theorem foldl_parseLine_names (lines : List Str) (st : ParseState) :
    (lines.foldl parseLine st).targets.map Target.Name =
      st.targets.map Target.Name ++ (lines.filter emitsTarget).map extractTargetName := by
  induction lines generalizing st with
  | nil => simp
  | cons l ls ih =>
    rw [List.foldl_cons, ih]
    by_cases h : emitsTarget l = true
    · rw [parseLine_emits st l h]
      simp [List.filter_cons, h]
    · have h2 : emitsTarget l = false := by simpa using h
      rw [parseLine_not_emits st l h2]
      simp [List.filter_cons, h2]

/-- Every target the loop adds has a name that is neither empty nor starts with a dot. -/
theorem foldl_parseLine_inv (lines : List Str) (st : ParseState)
    (hst : ∀ t ∈ st.targets, t.Name ≠ [] ∧ t.Name.head? ≠ some '.') :
    ∀ t ∈ (lines.foldl parseLine st).targets, t.Name ≠ [] ∧ t.Name.head? ≠ some '.' := by
  induction lines generalizing st with
  | nil => simpa using hst
  | cons l ls ih =>
    rw [List.foldl_cons]
    apply ih
    by_cases h : emitsTarget l = true
    · rw [parseLine_emits st l h]
      intro t ht
      simp only [List.mem_append, List.mem_singleton] at ht
      rcases ht with ht | ht
      · exact hst t ht
      · rw [ht]; exact emitsTarget_name l h
    · have h2 : emitsTarget l = false := by simpa using h
      rw [parseLine_not_emits st l h2]
      exact hst

/-! ## Lemmas on `isTarget` -/

theorem indexFrom_ge (sub s : Str) (i : Nat) :
    indexFrom sub s i = -1 ∨ (i : Int) ≤ indexFrom sub s i := by
  induction s generalizing i with
  | nil => unfold indexFrom; split <;> simp
  | cons c cs ih =>
    unfold indexFrom
    split
    · right; exact le_refl _
    · rcases ih (i + 1) with h | h
      · left; exact h
      · right; push_cast at h; omega

theorem indexFrom_skip (x : Char) (xs q r : Str) (i : Nat) (h : x ∉ q) :
    indexFrom (x :: xs) (q ++ r) i = indexFrom (x :: xs) r (i + q.length) := by
  induction q generalizing i with
  | nil => simp
  | cons c q ih =>
    have hc : c ≠ x := fun e => h (by simp [e])
    have hq : x ∉ q := fun e => h (by simp [e])
    simp only [List.cons_append, indexFrom, hasPrefix_cons_ne c x _ _ hc, Bool.false_eq_true,
      if_false, List.append_eq]
    rw [ih (i + 1) hq]
    congr 1
    simp; omega

/-- The first colon of `q ++ r`, when `q` has none, lies beyond `q`. -/
theorem index_colon_skip (q r : Str) (h : ':' ∉ q) :
    Index (q ++ r) [':'] = -1 ∨ (q.length : Int) ≤ Index (q ++ r) [':'] := by
  unfold Index
  rw [indexFrom_skip ':' [] q r 0 h]
  rcases indexFrom_ge [':'] r (0 + q.length) with e | e
  · left; exact e
  · right; simpa using e

theorem take_append_of_ge (a b : Str) (n : Nat) (h : a.length ≤ n) :
    (a ++ b).take n = a ++ b.take (n - a.length) := by
  rw [List.take_append_eq_append_take, List.take_of_length_le h]

theorem isTarget_of_contains_eq (line : Str)
    (h : Contains (sliceTo line (Index line [':'])) ['='] = true) : isTarget line = false := by
  unfold isTarget
  simp only [h, if_true]
  split
  · rfl
  · split
    · rfl
    · split <;> rfl

/-- An `=` before the first colon: not a target line. -/
theorem isTarget_eq_before_colon (q value : Str) (hq : ':' ∉ q) :
    isTarget (q ++ '=' :: value) = false := by
  have hq2 : ':' ∉ q ++ ['='] := by
    simp only [List.mem_append, List.mem_singleton, not_or]
    exact ⟨hq, by decide⟩
  have hline : q ++ '=' :: value = (q ++ ['=']) ++ value := by simp
  rcases index_colon_skip (q ++ ['=']) value hq2 with e | e
  · unfold isTarget
    rw [hline, e]
    simp
  · apply isTarget_of_contains_eq
    rw [contains_iff, hline, sliceTo]
    have hlen : (q ++ ['=']).length ≤ (Index (q ++ ['='] ++ value) [':']).toNat := by
      have : ((q ++ ['=']).length : Int) ≤ Index (q ++ ['='] ++ value) [':'] := e
      omega
    rw [take_append_of_ge _ _ _ hlen]
    exact (List.suffix_append q ['=']).isInfix.trans (List.prefix_append _ _).isInfix

/-- A colon that starts `:=` or `::=`: not a target line. -/
theorem isTarget_colon_assign (pre rest : Str) (hpre : ':' ∉ pre)
    (h : HasPrefix rest ['='] = true ∨ HasPrefix rest [':', '='] = true) :
    isTarget (pre ++ ':' :: rest) = false := by
  have hidx : Index (pre ++ ':' :: rest) [':'] = (pre.length : Int) := by
    have := index_first ':' [] pre rest hpre
    simpa using this
  have hfrom : sliceFrom (pre ++ ':' :: rest) (pre.length : Int) = ':' :: rest := by
    simp [sliceFrom]
  have hp : (HasPrefix (':' :: rest) [':', '='] || HasPrefix (':' :: rest) [':', ':', '=']) = true := by
    rcases h with h | h
    · simp [HasPrefix] at h ⊢; left; simpa [HasPrefix] using h
    · simp [HasPrefix] at h ⊢; right; simpa [HasPrefix] using h
  unfold isTarget
  simp only [hidx, hfrom, hp, if_true]
  split
  · rfl
  · split <;> rfl

theorem isTarget_of_head_tab (l : Str) (h : l = [] ∨ l.head? = some '\t') :
    isTarget l = false := by
  unfold isTarget
  rcases h with h | h
  · simp [h]
  · simp [h]

theorem trimSpace_append_spaces (ws s : Str) (h : ∀ c ∈ ws, isSpace c = true) :
    TrimSpace (ws ++ s) = TrimSpace s := by
  induction ws with
  | nil => rfl
  | cons c ws ih =>
    rw [List.cons_append, trimSpace_cons_space _ _ (h c (by simp))]
    exact ih (fun c hc => h c (List.mem_cons_of_mem _ hc))

theorem trimSpace_hash_hash (t : Str) :
    TrimSpace ('#' :: '#' :: t) = '#' :: '#' :: List.rdropWhile isSpace t := by
  rw [trimSpace_cons_of_not_space _ _ (by decide), rdropWhile_cons_of_neg _ _ _ (by decide)]

/-- A `##` line is white space followed by `##`. -/
theorem docLine_shape (line : Str) (h : isDocLine line = true) :
    ∃ ws t, line = ws ++ '#' :: '#' :: t ∧ ∀ c ∈ ws, isSpace c = true := by
  unfold isDocLine TrimSpace at h
  rw [hasPrefix_iff] at h
  have h2 : ['#', '#'] <+: List.dropWhile isSpace line :=
    h.trans (List.rdropWhile_prefix isSpace _)
  obtain ⟨t, ht⟩ := h2
  refine ⟨List.takeWhile isSpace line, t, ?_, ?_⟩
  · have := List.takeWhile_append_dropWhile isSpace line
    rw [← ht] at this
    simpa using this.symm
  · intro c hc
    exact List.mem_takeWhile_imp hc

/-- On a `##` line that has a colon, the extracted name starts with `##`. -/
theorem docLine_name (line : Str) (h : isDocLine line = true) (hk : 0 < Index line [':']) :
    HasPrefix (extractTargetName line) ['#', '#'] = true := by
  obtain ⟨ws, t, rfl, hws⟩ := docLine_shape line h
  have hno : ':' ∉ ws ++ ['#', '#'] := by
    intro hm
    simp only [List.mem_append, List.mem_cons, List.mem_singleton, List.not_mem_nil,
      or_false] at hm
    rcases hm with hm | hm | hm
    · have := hws _ hm; exact absurd this (by decide)
    · exact absurd hm (by decide)
    · exact absurd hm (by decide)
  have hline : ws ++ '#' :: '#' :: t = (ws ++ ['#', '#']) ++ t := by simp
  have hlen : (ws ++ ['#', '#']).length ≤ (Index (ws ++ ['#', '#'] ++ t) [':']).toNat := by
    rw [hline] at hk
    rcases index_colon_skip (ws ++ ['#', '#']) t hno with e | e
    · rw [e] at hk; exact absurd hk (by decide)
    · omega
  unfold extractTargetName
  rw [hline] at hk ⊢
  have hk2 : ¬ Index (ws ++ ['#', '#'] ++ t) [':'] ≤ 0 := by omega
  simp only [hk2, if_false, sliceTo]
  rw [take_append_of_ge _ _ _ hlen, List.append_assoc, trimSpace_append_spaces _ _ hws]
  simp only [List.cons_append, List.nil_append]
  rw [trimSpace_hash_hash]
  simp [HasPrefix]

theorem isTarget_index_pos (line : Str) (h : isTarget line = true) : 0 < Index line [':'] := by
  unfold isTarget at h
  by_contra hc
  have : Index line [':'] ≤ 0 := by omega
  simp [this] at h

/-- A target line with an empty or dot name is not a `##` line. -/
theorem hidden_not_docLine (line : Str) (ht : isTarget line = true)
    (hname : extractTargetName line = [] ∨ HasPrefix (extractTargetName line) ['.'] = true) :
    isDocLine line = false := by
  by_contra hd
  have hd2 : isDocLine line = true := by simpa using hd
  have := docLine_name line hd2 (isTarget_index_pos line ht)
  rcases hname with e | e
  · rw [e] at this; simp [HasPrefix] at this
  · cases hn : extractTargetName line with
    | nil => rw [hn] at this; simp [HasPrefix] at this
    | cons a l =>
      rw [hn] at this e
      simp [HasPrefix] at this e
      rw [e] at this
      exact absurd this.1 (by decide)

/-! ## Lemmas on the line scanner -/

theorem byteLen_nil : byteLen [] = 0 := rfl

theorem byteLen_append (a b : Str) : byteLen (a ++ b) = byteLen a + byteLen b := by
  simp [byteLen, List.map_append, List.sum_append]

theorem byteLen_replicate_x (n : Nat) : byteLen (List.replicate n 'x') = n := by
  induction n with
  | zero => rfl
  | succ n ih =>
    have e : byteLen (List.replicate (n + 1) 'x') = 1 + byteLen (List.replicate n 'x') := by
      rw [List.replicate_succ]
      simp only [byteLen, List.map_cons, List.sum_cons]
      rfl
    rw [e, ih]; omega

theorem scanFrom_line (cur l rest : Str) (h : '\n' ∉ l) :
    scanFrom cur (l ++ '\n' :: rest) =
      if maxScanTokenSize ≤ byteLen (cur ++ l) then ([], true)
      else (dropCR (cur ++ l) :: (scanFrom [] rest).1, (scanFrom [] rest).2) := by
  induction l generalizing cur with
  | nil => simp [scanFrom]
  | cons c l ih =>
    have hc : c ≠ '\n' := fun e => h (by simp [e])
    have hl : '\n' ∉ l := fun e => h (by simp [e])
    simp only [List.cons_append, scanFrom, hc, if_false, List.append_eq]
    rw [ih (cur ++ [c]) hl]
    simp

theorem scanFrom_last (cur l : Str) (h : '\n' ∉ l) (hne : cur ++ l ≠ []) :
    scanFrom cur l =
      if maxScanTokenSize ≤ byteLen (cur ++ l) then ([], true)
      else ([dropCR (cur ++ l)], false) := by
  induction l generalizing cur with
  | nil =>
    have : cur ≠ [] := by simpa using hne
    simp [scanFrom, this]
  | cons c l ih =>
    have hc : c ≠ '\n' := fun e => h (by simp [e])
    have hl : '\n' ∉ l := fun e => h (by simp [e])
    simp only [scanFrom, hc, if_false]
    rw [ih (cur ++ [c]) hl (by simp)]
    simp

/-- The scan of a text made of lines that fit the buffer, when the text does not end in a
newline and its last line is not empty: every line is delivered, without its trailing
carriage return, and there is no error. -/
theorem scanFrom_joinLines (ls : List Str) (h : ∀ l ∈ ls, '\n' ∉ l)
    (hfit : ∀ l ∈ ls, byteLen l < maxScanTokenSize)
    (hlast : ∀ l, ls.getLast? = some l → l ≠ []) :
    scanFrom [] (joinLines ls) = (ls.map dropCR, false) := by
  induction ls with
  | nil => simp [joinLines, scanFrom]
  | cons l ls ih =>
    have hf : ¬ maxScanTokenSize ≤ byteLen ([] ++ l) := by
      have := hfit l (by simp)
      simp only [List.nil_append]; omega
    cases ls with
    | nil =>
      have hl : l ≠ [] := hlast l (by simp)
      simp only [joinLines, List.map_cons, List.map_nil]
      rw [scanFrom_last [] l (h l (by simp)) (by simpa using hl), if_neg hf]
      simp
    | cons l2 ls =>
      simp only [joinLines, List.map_cons]
      rw [scanFrom_line [] l _ (h l (by simp)), if_neg hf]
      have := ih (fun x hx => h x (List.mem_cons_of_mem _ hx))
        (fun x hx => hfit x (List.mem_cons_of_mem _ hx))
        (fun x hx => hlast x (by rw [List.getLast?_cons_cons]; exact hx))
      simp only [List.map_cons] at this
      rw [this]
      simp

/-- The same for a text that ends in a newline. -/
theorem scanFrom_joinLines_newline (ls : List Str) (h : ∀ l ∈ ls, '\n' ∉ l)
    (hfit : ∀ l ∈ ls, byteLen l < maxScanTokenSize) (hne : ls ≠ []) :
    scanFrom [] (joinLines ls ++ ['\n']) = (ls.map dropCR, false) := by
  induction ls with
  | nil => exact absurd rfl hne
  | cons l ls ih =>
    have hf : ¬ maxScanTokenSize ≤ byteLen ([] ++ l) := by
      have := hfit l (by simp)
      simp only [List.nil_append]; omega
    cases ls with
    | nil =>
      simp only [joinLines, List.map_cons, List.map_nil]
      rw [scanFrom_line [] l [] (h l (by simp)), if_neg hf]
      simp [scanFrom]
    | cons l2 ls =>
      simp only [joinLines, List.map_cons, List.cons_append, List.append_assoc]
      rw [scanFrom_line [] l _ (h l (by simp)), if_neg hf]
      have := ih (fun x hx => h x (List.mem_cons_of_mem _ hx))
        (fun x hx => hfit x (List.mem_cons_of_mem _ hx)) (by simp)
      simp only [List.map_cons] at this
      rw [this]
      simp

theorem splitNL_ne_nil (text : Str) : splitNL text ≠ [] := by
  cases text with
  | nil => simp [splitNL]
  | cons c cs =>
    by_cases hc : c = '\n' <;> simp [splitNL, hc]

theorem headD_cons_tail (ps : List Str) (h : ps ≠ []) : ps.headD [] :: ps.tail = ps := by
  cases ps with
  | nil => exact absurd rfl h
  | cons a l => rfl

theorem dropFinalEmpty_cons (a : Str) (ps : List Str) (h : ps ≠ []) :
    dropFinalEmpty (a :: ps) = a :: dropFinalEmpty ps := by
  cases ps with
  | nil => exact absurd rfl h
  | cons b l =>
    unfold dropFinalEmpty
    rw [List.getLast?_cons_cons]
    by_cases hl : (b :: l).getLast? = some []
    · simp [hl]
    · simp [hl]

/-- The scanner delivers the lines of a text whose pieces all fit the buffer: `cur` is
the part of the first piece read before. -/
theorem scanFrom_splitNL (text cur : Str)
    (hfit : ∀ p ∈ (cur ++ (splitNL text).headD []) :: (splitNL text).tail,
      byteLen p < maxScanTokenSize) :
    scanFrom cur text =
      ((dropFinalEmpty ((cur ++ (splitNL text).headD []) :: (splitNL text).tail)).map dropCR,
        false) := by
  induction text generalizing cur with
  | nil =>
    have hf := hfit cur (by simp [splitNL])
    by_cases hc : cur = []
    · simp [scanFrom, splitNL, dropFinalEmpty, hc]
    · have hf2 : ¬ maxScanTokenSize ≤ byteLen cur := by omega
      simp [scanFrom, splitNL, dropFinalEmpty, hc, hf2]
  | cons c cs ih =>
    by_cases hc : c = '\n'
    · have hf := hfit cur (by simp [splitNL, hc])
      have hf2 : ¬ maxScanTokenSize ≤ byteLen cur := by omega
      have hrest : ∀ p ∈ ([] ++ (splitNL cs).headD []) :: (splitNL cs).tail,
          byteLen p < maxScanTokenSize := by
        intro p hp
        rw [List.nil_append, headD_cons_tail _ (splitNL_ne_nil cs)] at hp
        exact hfit p (by simp [splitNL, hc, hp])
      have e := ih [] hrest
      rw [List.nil_append, headD_cons_tail _ (splitNL_ne_nil cs)] at e
      simp only [scanFrom, hc, if_true, hf2, if_false, e, splitNL, List.headD_cons,
        List.tail_cons, List.append_nil]
      rw [dropFinalEmpty_cons _ _ (splitNL_ne_nil cs)]
      simp
    · have e : (cur ++ (splitNL (c :: cs)).headD []) :: (splitNL (c :: cs)).tail =
          ((cur ++ [c]) ++ (splitNL cs).headD []) :: (splitNL cs).tail := by
        simp [splitNL, hc]
      rw [e] at hfit ⊢
      simp only [scanFrom, hc, if_false]
      exact ih (cur ++ [c]) hfit

/-- For a text whose pieces between newlines all fit the buffer the scanner delivers
the lines of the text and reports no error. -/
theorem scanFrom_textLines (text : Str)
    (hfit : ∀ l ∈ splitNL text, byteLen l < maxScanTokenSize) :
    scanFrom [] text = (textLines text, false) := by
  have e : ([] ++ (splitNL text).headD []) :: (splitNL text).tail = splitNL text := by
    rw [List.nil_append, headD_cons_tail _ (splitNL_ne_nil text)]
  have := scanFrom_splitNL text [] (by rw [e]; exact hfit)
  rw [e] at this
  exact this

theorem splitNL_line (l rest : Str) (h : '\n' ∉ l) :
    splitNL (l ++ '\n' :: rest) = l :: splitNL rest := by
  induction l with
  | nil => simp [splitNL]
  | cons c l ih =>
    have hc : c ≠ '\n' := fun e => h (by simp [e])
    have hl : '\n' ∉ l := fun e => h (by simp [e])
    simp only [List.cons_append, splitNL, hc, if_false, List.append_eq]
    rw [ih hl]
    simp

theorem not_newline_mem_replicate_x (n : Nat) : '\n' ∉ List.replicate n 'x' := by
  intro h
  have := (List.mem_replicate.1 h).2
  exact absurd this (by decide)

theorem foldl_parseLine_no_target (ls : List Str) (st : ParseState)
    (h : ∀ l ∈ ls, isTarget l = false) : (ls.foldl parseLine st).targets = st.targets := by
  induction ls generalizing st with
  | nil => rfl
  | cons l ls ih =>
    rw [List.foldl_cons, ih _ (fun x hx => h x (List.mem_cons_of_mem _ hx)),
      parseLine_not_target st l (h l (by simp))]

theorem dropCR_head_tab (r : Str) (h : r.head? = some '\t') :
    dropCR r = [] ∨ (dropCR r).head? = some '\t' := by
  rcases dropCR_eq r with e | e
  · right; rw [e]; exact h
  · cases hd : dropCR r with
    | nil => left; rfl
    | cons a l =>
      right
      rw [e, hd] at h
      simpa using h

theorem dropCR_concat (s : Str) (c : Char) (h : c ≠ '\r') : dropCR (s ++ [c]) = s ++ [c] := by
  unfold dropCR
  simp [h]

theorem plainName_emits (n rest : Str) (hn : IsPlainName n)
    (h1 : HasPrefix rest ['='] = false) (h2 : HasPrefix rest [':', '='] = false) :
    emitsTarget (n ++ ':' :: rest) = true ∧ extractTargetName (n ++ ':' :: rest) = n := by
  obtain ⟨hne, hall, hdot⟩ := hn
  obtain ⟨ht, hx⟩ := isTarget_name_colon n rest hne
    (fun c hc => ⟨(hall c hc).1, (hall c hc).2.1, (hall c hc).2.2.1⟩) h1 h2
  refine ⟨?_, hx⟩
  have hdoc : isDocLine (n ++ ':' :: rest) = false := by
    cases n with
    | nil => exact absurd rfl hne
    | cons a l =>
      exact isDocLine_cons_of_ne a _ (hall a (by simp)).1 (hall a (by simp)).2.2.2
  have hd2 : HasPrefix n ['.'] = false := by
    cases n with
    | nil => exact absurd rfl hne
    | cons a l =>
      have : a ≠ '.' := fun e => hdot (by simp [e])
      simp [HasPrefix, this]
  simp [emitsTarget, hdoc, ht, hx, hne, hd2]

theorem joinLines_pair (a b : Str) : joinLines [a, b] = a ++ '\n' :: b := rfl

/-- The results of the parser in terms of what the scanner delivers. -/
theorem parse_of_scan (text : Str) (ls : List Str) (b : Bool) (h : scanFrom [] text = (ls, b)) :
    ParseMakefile text = (parseLines ls).targets ∧ scanTooLong text = b := by
  unfold ParseMakefile scanLines scanTooLong
  rw [h]
  exact ⟨rfl, rfl⟩

theorem parseFrom_of_scan (text : Str) (ls : List Str) (b readFails : Bool)
    (h : scanFrom [] text = (ls, b)) :
    ParseMakefileFrom (Source.readable text readFails) =
      ((parseLines ls).targets,
        if b then some ParseError.tooLong
        else if readFails then some ParseError.read else none) := by
  have h1 := (parse_of_scan text ls b h).1
  have h2 := (parse_of_scan text ls b h).2
  simp only [ParseMakefileFrom, h1, h2]

theorem scanFrom_long_doc (n : Nat) (rest : Str) (h : maxScanTokenSize ≤ n) :
    scanFrom [] (('#' :: '#' :: ' ' :: List.replicate n 'x') ++ '\n' :: rest) = ([], true) := by
  have hnl : '\n' ∉ '#' :: '#' :: ' ' :: List.replicate n 'x' := by
    intro hm
    simp only [List.mem_cons] at hm
    rcases hm with e | e | e | e
    · exact absurd e (by decide)
    · exact absurd e (by decide)
    · exact absurd e (by decide)
    · exact not_newline_mem_replicate_x n e
  have hlen : byteLen ([] ++ '#' :: '#' :: ' ' :: List.replicate n 'x') = 3 + n := by
    have e : ([] ++ '#' :: '#' :: ' ' :: List.replicate n 'x' : Str) =
        ['#', '#', ' '] ++ List.replicate n 'x' := rfl
    rw [e, byteLen_append, byteLen_replicate_x]
    rfl
  rw [scanFrom_line [] _ rest hnl, if_pos (by rw [hlen]; omega)]

theorem scanFrom_longLineText (n : Nat) (h : maxScanTokenSize ≤ n) :
    scanFrom [] (longLineText n) = ([['b', 'u', 'i', 'l', 'd', ':']], true) := by
  unfold longLineText
  rw [scanFrom_line [] ['b', 'u', 'i', 'l', 'd', ':'] _ (by decide), if_neg (by decide),
    scanFrom_line [] (List.replicate n 'x') _ (not_newline_mem_replicate_x n),
    if_pos (by rw [List.nil_append, byteLen_replicate_x]; exact h)]
  rfl

theorem emitsTarget_of_no_colon (s : Str) (h : ':' ∉ s) : emitsTarget s = false := by
  have ht : isTarget s = false := by
    rw [Bool.eq_false_iff]
    intro hcon
    have := isTarget_index_pos s hcon
    rw [index_absent ':' [] s h] at this
    omega
  simp [emitsTarget, ht]

theorem mem_of_mem_dropCR (s : Str) (c : Char) (h : c ∈ dropCR s) : c ∈ s := by
  rcases dropCR_eq s with e | e
  · rw [e] at h; exact h
  · rw [e]; exact List.mem_append_left _ h

theorem textLines_longLineText (n : Nat) :
    textLines (longLineText n) =
      [['b', 'u', 'i', 'l', 'd', ':'], dropCR (List.replicate n 'x'),
        ['l', 'a', 't', 'e', 'r', ':']] := by
  have e3 : splitNL ['l', 'a', 't', 'e', 'r', ':', '\n'] = [['l', 'a', 't', 'e', 'r', ':'], []] := by
    decide
  unfold textLines longLineText
  rw [splitNL_line _ _ (by decide), splitNL_line _ _ (not_newline_mem_replicate_x n), e3,
    dropFinalEmpty_cons _ _ (by simp), dropFinalEmpty_cons _ _ (by simp)]
  have e4 : dropFinalEmpty [['l', 'a', 't', 'e', 'r', ':'], []] = [['l', 'a', 't', 'e', 'r', ':']] := by
    decide
  rw [e4]
  rfl

/-! ## Parser properties -/

/-- The line `## d` with a text `d` of 70000 letters is too long for the scanner, which
stops on it: the text made of that line and of the line `build:` parses to no target,
with the error `bufio.ErrTooLong`, where the claim has the one target `build`. -/
theorem long_description_line_lost :
    '\n' ∉ List.replicate 70000 'x' ∧ IsPlainName ['b', 'u', 'i', 'l', 'd'] ∧
    ParseMakefile (joinLines [('#' :: '#' :: ' ' :: List.replicate 70000 'x'),
        ['b', 'u', 'i', 'l', 'd'] ++ [':']]) = [] ∧
    scanTooLong (joinLines [('#' :: '#' :: ' ' :: List.replicate 70000 'x'),
        ['b', 'u', 'i', 'l', 'd'] ++ [':']]) = true ∧
    ParseMakefile (joinLines [('#' :: '#' :: ' ' :: List.replicate 70000 'x'),
        ['b', 'u', 'i', 'l', 'd'] ++ [':']]) ≠
      [{ Name := ['b', 'u', 'i', 'l', 'd'], Description := TrimSpace (List.replicate 70000 'x') }] := by
  have e : scanFrom [] (joinLines [('#' :: '#' :: ' ' :: List.replicate 70000 'x'),
      ['b', 'u', 'i', 'l', 'd'] ++ [':']]) = ([], true) := by
    rw [joinLines_pair]
    exact scanFrom_long_doc 70000 (['b', 'u', 'i', 'l', 'd'] ++ [':']) (by decide)
  have e1 : ParseMakefile (joinLines [('#' :: '#' :: ' ' :: List.replicate 70000 'x'),
      ['b', 'u', 'i', 'l', 'd'] ++ [':']]) = [] := (parse_of_scan _ _ _ e).1
  refine ⟨not_newline_mem_replicate_x 70000, by decide, e1, (parse_of_scan _ _ _ e).2, ?_⟩
  rw [e1]
  exact fun h => List.noConfusion h

/-- C1, as amended: for a description text `d` without newline and a plain target name
`n`, the text made of the line `## d`, the line `n:` and any number of tab-indented
recipe lines (with or without a final newline), every line of it shorter than the 65536
bytes of the scanner's buffer, parses without error to exactly one target, named `n`,
whose description is `d` trimmed. -/
theorem block_comment_description (d n : Str) (recipes : List Str)
    (hd : '\n' ∉ d) (hn : IsPlainName n)
    (hr : ∀ r ∈ recipes, r.head? = some '\t' ∧ '\n' ∉ r)
    (hdfit : byteLen ('#' :: '#' :: ' ' :: d) < maxScanTokenSize)
    (hnfit : byteLen (n ++ [':']) < maxScanTokenSize)
    (hrfit : ∀ r ∈ recipes, byteLen r < maxScanTokenSize) :
    ParseMakefile (joinLines (('#' :: '#' :: ' ' :: d) :: (n ++ [':']) :: recipes)) =
        [{ Name := n, Description := TrimSpace d }] ∧
    scanTooLong (joinLines (('#' :: '#' :: ' ' :: d) :: (n ++ [':']) :: recipes)) = false ∧
    ParseMakefile (joinLines (('#' :: '#' :: ' ' :: d) :: (n ++ [':']) :: recipes) ++ ['\n']) =
        [{ Name := n, Description := TrimSpace d }] ∧
    scanTooLong (joinLines (('#' :: '#' :: ' ' :: d) :: (n ++ [':']) :: recipes) ++ ['\n']) =
        false := by
  have hnl : '\n' ∉ n := fun hm => by
    have := (hn.2.1 _ hm).1
    exact absurd this (by decide)
  have hlines : ∀ l ∈ ('#' :: '#' :: ' ' :: d) :: (n ++ [':']) :: recipes, '\n' ∉ l := by
    intro l hl
    simp only [List.mem_cons] at hl
    rcases hl with rfl | rfl | hl
    · intro hm
      simp only [List.mem_cons] at hm
      rcases hm with e | e | e | e
      · exact absurd e (by decide)
      · exact absurd e (by decide)
      · exact absurd e (by decide)
      · exact hd e
    · intro hm
      simp only [List.mem_append, List.mem_singleton] at hm
      rcases hm with e | e
      · exact hnl e
      · exact absurd e (by decide)
    · exact (hr l hl).2
  have hlast : ∀ l, (('#' :: '#' :: ' ' :: d) :: (n ++ [':']) :: recipes).getLast? = some l →
      l ≠ [] := by
    intro l hl
    have hmem := List.mem_of_getLast?_eq_some hl
    simp only [List.mem_cons] at hmem
    rcases hmem with rfl | rfl | hm
    · simp
    · simp
    · intro e
      have := (hr l hm).1
      rw [e] at this
      simp at this
  -- the loop over the three groups of lines
  have hloop : (parseLines ((('#' :: '#' :: ' ' :: d) :: (n ++ [':']) :: recipes).map dropCR)).targets
      = [{ Name := n, Description := TrimSpace d }] := by
    have hdoc : isDocLine (dropCR ('#' :: '#' :: ' ' :: d)) = true := by
      rw [isDocLine, trimSpace_dropCR, trimSpace_hash_hash]
      simp [HasPrefix]
    have hpend : TrimSpace (TrimPrefix (TrimSpace (dropCR ('#' :: '#' :: ' ' :: d))) ['#', '#'])
        = TrimSpace d := by
      rw [trimSpace_dropCR, trimSpace_hash_hash]
      simp only [TrimPrefix, HasPrefix, beq_self_eq_true, Bool.and_self, if_true,
        List.length_cons, List.length_nil, List.drop_succ_cons, List.drop_zero]
      rw [trimSpace_rdropWhile, trimSpace_cons_space _ _ isSpace_space]
    obtain ⟨hem, hname⟩ := plainName_emits n [] hn (by simp [HasPrefix]) (by simp [HasPrefix])
    have hidx : Index (n ++ [':']) ['#', '#'] = -1 := by
      apply index_absent
      intro hm
      simp only [List.mem_append, List.mem_singleton] at hm
      rcases hm with e | e
      · exact (hn.2.1 _ e).2.2.2 rfl
      · exact absurd e (by decide)
    have hrec : ∀ l ∈ recipes.map dropCR, isTarget l = false := by
      intro l hl
      obtain ⟨r, hrm, rfl⟩ := List.mem_map.1 hl
      exact isTarget_of_head_tab _ (dropCR_head_tab r (hr r hrm).1)
    simp only [parseLines, List.map_cons, List.foldl_cons]
    rw [foldl_parseLine_no_target _ _ hrec, parseLine_doc _ _ hdoc, hpend,
      dropCR_concat n ':' (by decide), parseLine_emits _ _ hem, hname, hidx]
    simp [initState]
  have hfit : ∀ l ∈ ('#' :: '#' :: ' ' :: d) :: (n ++ [':']) :: recipes,
      byteLen l < maxScanTokenSize := by
    intro l hl
    simp only [List.mem_cons] at hl
    rcases hl with rfl | rfl | hl
    · exact hdfit
    · exact hnfit
    · exact hrfit l hl
  have e1 := scanFrom_joinLines _ hlines hfit hlast
  have e2 := scanFrom_joinLines_newline _ hlines hfit (by simp)
  refine ⟨?_, ?_, ?_, ?_⟩
  · rw [ParseMakefile, scanLines, e1]
    exact hloop
  · rw [scanTooLong, e1]
  · rw [ParseMakefile, scanLines, e2]
    exact hloop
  · rw [scanTooLong, e2]

theorem block_comment_description_witness :
    ParseMakefile (joinLines [['#', '#', ' ', 'B', 'u', 'i', 'l', 'd'], ['b', 'u', 'i', 'l', 'd'] ++ [':'],
        ['\t', 'c', 'm', 'd']]) =
        [{ Name := ['b', 'u', 'i', 'l', 'd'], Description := TrimSpace ['B', 'u', 'i', 'l', 'd'] }] ∧
    scanTooLong (joinLines [['#', '#', ' ', 'B', 'u', 'i', 'l', 'd'], ['b', 'u', 'i', 'l', 'd'] ++ [':'],
        ['\t', 'c', 'm', 'd']]) = false ∧
    ParseMakefile (joinLines [['#', '#', ' ', 'B', 'u', 'i', 'l', 'd'], ['b', 'u', 'i', 'l', 'd'] ++ [':'],
        ['\t', 'c', 'm', 'd']] ++ ['\n']) =
        [{ Name := ['b', 'u', 'i', 'l', 'd'], Description := TrimSpace ['B', 'u', 'i', 'l', 'd'] }] ∧
    scanTooLong (joinLines [['#', '#', ' ', 'B', 'u', 'i', 'l', 'd'], ['b', 'u', 'i', 'l', 'd'] ++ [':'],
        ['\t', 'c', 'm', 'd']] ++ ['\n']) = false :=
  block_comment_description ['B', 'u', 'i', 'l', 'd'] ['b', 'u', 'i', 'l', 'd'] [['\t', 'c', 'm', 'd']]
    (by decide) (by decide) (by decide) (by decide) (by decide) (by decide)

/-- C2: for a plain target name `n` and any text `d`, the line `n: ## d` adds the target
with name `n` and description `d` trimmed, whatever description was pending. -/
theorem inline_description (st : ParseState) (n d : Str) (hn : IsPlainName n) :
    parseLine st (n ++ [':', ' ', '#', '#', ' '] ++ d) =
      { targets := st.targets ++ [{ Name := n, Description := TrimSpace d }],
        pendingDescription := [] } := by
  have hline : n ++ [':', ' ', '#', '#', ' '] ++ d = n ++ ':' :: (' ' :: '#' :: '#' :: ' ' :: d) := by
    simp
  obtain ⟨hem, hname⟩ := plainName_emits n (' ' :: '#' :: '#' :: ' ' :: d) hn
    (by simp [HasPrefix]) (by simp [HasPrefix])
  have hidx : Index (n ++ ':' :: (' ' :: '#' :: '#' :: ' ' :: d)) ['#', '#']
      = ((n.length + 2 : Nat) : Int) := by
    have hno : '#' ∉ n ++ [':', ' '] := by
      intro hm
      simp only [List.mem_append, List.mem_cons, List.mem_singleton, List.not_mem_nil,
        or_false] at hm
      rcases hm with e | e | e
      · exact (hn.2.1 _ e).2.2.2 rfl
      · exact absurd e (by decide)
      · exact absurd e (by decide)
    have := index_first '#' ['#'] (n ++ [':', ' ']) (' ' :: d) hno
    simpa using this
  rw [hline, parseLine_emits _ _ hem, hname, hidx]
  have hne : ¬ (((n.length + 2 : Nat) : Int) = -1) := by omega
  have hdrop : sliceFrom (n ++ ':' :: (' ' :: '#' :: '#' :: ' ' :: d)) (((n.length + 2 : Nat) : Int) + 2)
      = ' ' :: d := by
    have e : (((n.length + 2 : Nat) : Int) + 2).toNat = n.length + 4 := by omega
    rw [sliceFrom, e]
    have : n ++ ':' :: (' ' :: '#' :: '#' :: ' ' :: d) = (n ++ [':', ' ', '#', '#']) ++ (' ' :: d) := by
      simp
    rw [this]
    exact List.drop_left' (by simp)
  simp only [ne_eq, hne, not_false_eq_true, if_true, hdrop]
  rw [trimSpace_cons_space _ _ isSpace_space]

theorem inline_description_witness :
    parseLine { targets := [], pendingDescription := ['o', 'l', 'd'] }
        (['t', 'e', 's', 't'] ++ [':', ' ', '#', '#', ' '] ++ ['R', 'u', 'n', ' ']) =
      { targets := [] ++ [{ Name := ['t', 'e', 's', 't'], Description := TrimSpace ['R', 'u', 'n', ' '] }],
        pendingDescription := [] } :=
  inline_description { targets := [], pendingDescription := ['o', 'l', 'd'] } ['t', 'e', 's', 't']
    ['R', 'u', 'n', ' '] (by decide)

/-- C3: a line `name op value`, with `op` one of `=`, `:=`, `::=`, `?=`, `+=`, `!=`,
no colon in `name`, any run of blanks between `name` and `op` and any `value`, is not
a target line, and the loop adds no target for it. -/
theorem assignment_emits_no_target (st : ParseState) (name sp op value : Str)
    (hname : ':' ∉ name) (hsp : ∀ c ∈ sp, c = ' ' ∨ c = '\t') (hop : op ∈ assignmentOps) :
    isTarget (name ++ sp ++ op ++ value) = false ∧
    (parseLine st (name ++ sp ++ op ++ value)).targets = st.targets := by
  have hpre : ':' ∉ name ++ sp := by
    intro hm
    rcases List.mem_append.1 hm with e | e
    · exact hname e
    · rcases hsp _ e with e2 | e2 <;> exact absurd e2 (by decide)
  have key : isTarget (name ++ sp ++ op ++ value) = false := by
    simp only [assignmentOps, List.mem_cons, List.mem_singleton, List.not_mem_nil,
      or_false] at hop
    rcases hop with rfl | rfl | rfl | rfl | rfl | rfl
    · have := isTarget_eq_before_colon (name ++ sp) value hpre
      simpa using this
    · have := isTarget_colon_assign (name ++ sp) ('=' :: value) hpre (by simp [HasPrefix])
      simpa using this
    · have := isTarget_colon_assign (name ++ sp) (':' :: '=' :: value) hpre (by simp [HasPrefix])
      simpa using this
    · have h2 : ':' ∉ name ++ sp ++ ['?'] := by
        intro hm
        rcases List.mem_append.1 hm with e | e
        · exact hpre e
        · exact absurd (List.mem_singleton.1 e) (by decide)
      have := isTarget_eq_before_colon (name ++ sp ++ ['?']) value h2
      simpa using this
    · have h2 : ':' ∉ name ++ sp ++ ['+'] := by
        intro hm
        rcases List.mem_append.1 hm with e | e
        · exact hpre e
        · exact absurd (List.mem_singleton.1 e) (by decide)
      have := isTarget_eq_before_colon (name ++ sp ++ ['+']) value h2
      simpa using this
    · have h2 : ':' ∉ name ++ sp ++ ['!'] := by
        intro hm
        rcases List.mem_append.1 hm with e | e
        · exact hpre e
        · exact absurd (List.mem_singleton.1 e) (by decide)
      have := isTarget_eq_before_colon (name ++ sp ++ ['!']) value h2
      simpa using this
  exact ⟨key, parseLine_not_target st _ key⟩

theorem assignment_emits_no_target_witness :
    isTarget (['F', 'O', 'O'] ++ [' '] ++ [':', ':', '='] ++ [' ', 'a', ':', 'b']) = false ∧
    (parseLine initState
      (['F', 'O', 'O'] ++ [' '] ++ [':', ':', '='] ++ [' ', 'a', ':', 'b'])).targets
        = initState.targets :=
  assignment_emits_no_target initState ['F', 'O', 'O'] [' '] [':', ':', '='] [' ', 'a', ':', 'b']
    (by decide) (by decide) (by decide)

/-- C4: a target line whose extracted name is empty or starts with a dot adds no
target and clears the pending description, whatever it was; a target line that follows
it directly and contains no `##` gets the empty description. -/
theorem hidden_target_clears_pending (st : ParseState) (line next : Str)
    (ht : isTarget line = true)
    (hname : extractTargetName line = [] ∨ HasPrefix (extractTargetName line) ['.'] = true)
    (hnext : emitsTarget next = true) (hno : ¬ ['#', '#'] <:+: next) :
    parseLine st line = { targets := st.targets, pendingDescription := [] } ∧
    parseLine (parseLine st line) next =
      { targets := st.targets ++ [{ Name := extractTargetName next, Description := [] }],
        pendingDescription := [] } := by
  have hdoc : isDocLine line = false := hidden_not_docLine line ht hname
  have h1 : parseLine st line = { targets := st.targets, pendingDescription := [] } := by
    have hn : (extractTargetName line = [] || HasPrefix (extractTargetName line) ['.']) = true := by
      rcases hname with e | e
      · simp [e]
      · simp [e]
    unfold isDocLine at hdoc
    unfold parseLine
    simp only [hdoc, ht, hn, Bool.false_eq_true, if_false, if_true]
  refine ⟨h1, ?_⟩
  rw [h1, parseLine_emits _ _ hnext, (index_eq_neg_one_iff next ['#', '#']).2 hno]
  simp

theorem hidden_target_clears_pending_witness :
    parseLine { targets := [], pendingDescription := ['H'] } ['.', 'P', ':', ' ', 'b'] =
      { targets := [], pendingDescription := [] } ∧
    parseLine (parseLine { targets := [], pendingDescription := ['H'] } ['.', 'P', ':', ' ', 'b'])
        ['b', ':'] =
      { targets := [] ++ [{ Name := extractTargetName ['b', ':'], Description := [] }],
        pendingDescription := [] } :=
  hidden_target_clears_pending { targets := [], pendingDescription := ['H'] }
    ['.', 'P', ':', ' ', 'b'] ['b', ':'] (by decide) (by decide) (by decide) (by decide)

/-- C5: a line that is not a target line and whose trimmed form does not start with
`#` (the empty line included) clears the pending description and adds no target, so a
target line without `##` that follows it directly gets the empty description; a line
`cmt` that is not a target line and whose trimmed form starts with a single `#` leaves
the state unchanged. -/
theorem description_attaches_to_next_target (st : ParseState) (line next cmt : Str)
    (ht : isTarget line = false) (hc : HasPrefix (TrimSpace line) ['#'] = false)
    (hnext : emitsTarget next = true) (hno : ¬ ['#', '#'] <:+: next)
    (hcmt : HasPrefix (TrimSpace cmt) ['#'] = true) (hcd : isDocLine cmt = false)
    (hct : isTarget cmt = false) :
    parseLine st line = { targets := st.targets, pendingDescription := [] } ∧
    parseLine (parseLine st line) next =
      { targets := st.targets ++ [{ Name := extractTargetName next, Description := [] }],
        pendingDescription := [] } ∧
    parseLine st [] = { targets := st.targets, pendingDescription := [] } ∧
    parseLine st cmt = st := by
  have hdoc : HasPrefix (TrimSpace line) ['#', '#'] = false := by
    cases hx : TrimSpace line with
    | nil => simp [HasPrefix]
    | cons a l =>
      rw [hx] at hc
      simp only [HasPrefix, Bool.and_true, beq_eq_false_iff_ne, ne_eq] at hc
      simp [HasPrefix, hc]
  have h1 : parseLine st line = { targets := st.targets, pendingDescription := [] } := by
    unfold parseLine
    simp only [hdoc, ht, hc, Bool.false_eq_true, if_false, Bool.not_false, if_true]
  refine ⟨h1, ?_, ?_, ?_⟩
  · rw [h1, parseLine_emits _ _ hnext, (index_eq_neg_one_iff next ['#', '#']).2 hno]
    simp
  · have e1 : HasPrefix (TrimSpace []) ['#', '#'] = false := by decide
    have e2 : isTarget [] = false := by decide
    have e3 : HasPrefix (TrimSpace []) ['#'] = false := by decide
    unfold parseLine
    simp only [e1, e2, e3, Bool.false_eq_true, if_false, Bool.not_false, if_true]
  · unfold isDocLine at hcd
    unfold parseLine
    simp only [hcd, hct, hcmt, Bool.false_eq_true, if_false, Bool.not_true]

theorem description_attaches_to_next_target_witness :
    parseLine { targets := [], pendingDescription := ['D'] } ['e', 'c', 'h', 'o'] =
      { targets := [], pendingDescription := [] } ∧
    parseLine (parseLine { targets := [], pendingDescription := ['D'] } ['e', 'c', 'h', 'o'])
        ['b', ':'] =
      { targets := [] ++ [{ Name := extractTargetName ['b', ':'], Description := [] }],
        pendingDescription := [] } ∧
    parseLine { targets := [], pendingDescription := ['D'] } [] =
      { targets := [], pendingDescription := [] } ∧
    parseLine { targets := [], pendingDescription := ['D'] } ['#', ' ', 'x'] =
      { targets := [], pendingDescription := ['D'] } :=
  description_attaches_to_next_target { targets := [], pendingDescription := ['D'] }
    ['e', 'c', 'h', 'o'] ['b', ':'] ['#', ' ', 'x']
    (by decide) (by decide) (by decide) (by decide) (by decide) (by decide) (by decide)

/-- The text of the lines `build:`, 70000 letters `x`, `later:`: its second line is too
long for the scanner, which stops on it, so the parser returns the name `build` alone,
while the names of the lines of the text that are target lines are `build` and `later`. -/
theorem long_line_stops_scan :
    (ParseMakefile (longLineText 70000)).map Target.Name = [['b', 'u', 'i', 'l', 'd']] ∧
    ((textLines (longLineText 70000)).filter emitsTarget).map extractTargetName =
      [['b', 'u', 'i', 'l', 'd'], ['l', 'a', 't', 'e', 'r']] ∧
    scanTooLong (longLineText 70000) = true := by
  have e := scanFrom_longLineText 70000 (by decide)
  refine ⟨?_, ?_, (parse_of_scan _ _ _ e).2⟩
  · rw [(parse_of_scan _ _ _ e).1]
    decide
  · have hx : emitsTarget (dropCR (List.replicate 70000 'x')) = false := by
      apply emitsTarget_of_no_colon
      intro hm
      have := (List.mem_replicate.1 (mem_of_mem_dropCR _ _ hm)).2
      exact absurd this (by decide)
    have h1 : emitsTarget ['b', 'u', 'i', 'l', 'd', ':'] = true := by decide
    have h3 : emitsTarget ['l', 'a', 't', 'e', 'r', ':'] = true := by decide
    rw [textLines_longLineText, List.filter_cons_of_pos h1,
      List.filter_cons_of_neg (by rw [hx]; exact Bool.false_ne_true),
      List.filter_cons_of_pos h3]
    decide

/-- C6, as amended: for a text whose pieces between newlines are all shorter than the
65536 bytes of the scanner's buffer, the names the parser returns are, in order, the
extracted names of the lines of the text that are not `##` lines, are target lines and
have a name that is neither empty nor starts with a dot: one target per such line, none
removed as a duplicate, and no error; the empty text gives no target. -/
theorem names_in_source_order (text : Str)
    (hfit : ∀ l ∈ splitNL text, byteLen l < maxScanTokenSize) :
    (ParseMakefile text).map Target.Name =
        ((textLines text).filter emitsTarget).map extractTargetName ∧
    (ParseMakefile text).length = ((textLines text).filter emitsTarget).length ∧
    (∀ n, ((ParseMakefile text).map Target.Name).count n =
        ((textLines text).filter emitsTarget).countP (fun l => extractTargetName l == n)) ∧
    scanTooLong text = false ∧
    ParseMakefile [] = [] := by
  have hs := scanFrom_textLines text hfit
  have hl : scanLines text = textLines text := by rw [scanLines, hs]
  have h := foldl_parseLine_names (textLines text) initState
  have h1 : (ParseMakefile text).map Target.Name =
      ((textLines text).filter emitsTarget).map extractTargetName := by
    rw [ParseMakefile, hl]
    simpa [parseLines, initState] using h
  refine ⟨h1, ?_, ?_, ?_, by decide⟩
  · have := congrArg List.length h1
    simpa using this
  · intro n
    rw [h1, List.count, List.countP_map]
    rfl
  · rw [scanTooLong, hs]

theorem names_in_source_order_witness :
    (ParseMakefile ['a', ':', '\n', '.', 'x', ':', '\n', 'a', ':', ' ', 'b', '\r', '\n', 'c', ':']).map
        Target.Name =
      ((textLines ['a', ':', '\n', '.', 'x', ':', '\n', 'a', ':', ' ', 'b', '\r', '\n', 'c', ':']).filter
        emitsTarget).map extractTargetName :=
  (names_in_source_order
    ['a', ':', '\n', '.', 'x', ':', '\n', 'a', ':', ' ', 'b', '\r', '\n', 'c', ':']
    (by decide)).1

/-- C7: every target the parser returns has a name that is not empty and does not
start with a dot. -/
theorem target_name_invariant (text : Str) (t : Target) (ht : t ∈ ParseMakefile text) :
    t.Name ≠ [] ∧ t.Name.head? ≠ some '.' :=
  foldl_parseLine_inv (scanLines text) initState (by simp [initState]) t ht

theorem target_name_invariant_witness :
    ({ Name := ['b'], Description := [] } : Target).Name ≠ [] ∧
    ({ Name := ['b'], Description := [] } : Target).Name.head? ≠ some '.' :=
  target_name_invariant ['.', 'P', ':', '\n', 'b', ':'] { Name := ['b'], Description := [] }
    (by decide)

/-! ## Filter properties -/

theorem foldl_append_if (p : Target → Bool) (ts acc : List Target) :
    ts.foldl (fun result t => if p t then result ++ [t] else result) acc = acc ++ ts.filter p := by
  induction ts generalizing acc with
  | nil => simp
  | cons t ts ih =>
    rw [List.foldl_cons, ih]
    by_cases h : p t = true
    · simp [h]
    · simp [h]

theorem matchesFilter_iff (tbl : Char → Char) (q : Str) (t : Target) :
    matchesFilter tbl (ToLower tbl q) t = true ↔ MatchesQuery tbl q t := by
  simp [matchesFilter, MatchesQuery, contains_iff]

theorem applyFilter_eq_filter (tbl : Char → Char) (ts : List Target) (q : Str) (hq : q ≠ []) :
    applyFilter tbl ts q = ts.filter (fun t => decide (MatchesQuery tbl q t)) := by
  unfold applyFilter
  simp only [hq, if_false]
  rw [foldl_append_if (matchesFilter tbl (ToLower tbl q)) ts []]
  simp only [List.nil_append]
  apply List.filter_congr
  intro t _
  by_cases h : MatchesQuery tbl q t
  · simp [h, (matchesFilter_iff tbl q t).2 h]
  · have : matchesFilter tbl (ToLower tbl q) t = false := by
      simpa using (not_congr (matchesFilter_iff tbl q t)).2 h
    simp [h, this]

theorem applyFilter_sublist (tbl : Char → Char) (ts : List Target) (q : Str) :
    (applyFilter tbl ts q).Sublist ts := by
  by_cases hq : q = []
  · simp [applyFilter, hq]
  · rw [applyFilter_eq_filter tbl ts q hq]
    exact List.filter_sublist ts

/-- C8: `applyFilter` with the empty query returns the list unchanged; with a non-empty
query it is exactly the sub-sequence, in the original order, of the targets whose
lower-cased name or description contains the lower-cased query.  So the result is a
sublist of the input, every member matches, and no matching target is dropped. -/
theorem applyFilter_reference (tbl : Char → Char) (ts : List Target) (q : Str) :
    applyFilter tbl ts [] = ts ∧
    (q ≠ [] → applyFilter tbl ts q = ts.filter (fun t => decide (MatchesQuery tbl q t))) ∧
    (applyFilter tbl ts q).Sublist ts ∧
    (q ≠ [] → ∀ t, t ∈ applyFilter tbl ts q ↔ t ∈ ts ∧ MatchesQuery tbl q t) := by
  refine ⟨by simp [applyFilter], applyFilter_eq_filter tbl ts q, ?_, ?_⟩
  · by_cases hq : q = []
    · simp [applyFilter, hq]
    · rw [applyFilter_eq_filter tbl ts q hq]
      exact List.filter_sublist ts
  · intro hq t
    rw [applyFilter_eq_filter tbl ts q hq]
    simp [List.mem_filter]

theorem applyFilter_reference_witness :
    ['U', 'I'] ≠ [] ∧
    applyFilter id exampleTargets ['U', 'I'] =
      exampleTargets.filter (fun t => decide (MatchesQuery id ['U', 'I'] t)) ∧
    applyFilter id exampleTargets ['U', 'I'] = exampleTargets.take 1 :=
  ⟨by decide, (applyFilter_reference id exampleTargets ['U', 'I']).2.1 (by decide), by decide⟩

/-- C9: filtering twice with the same query gives the same list as filtering once. -/
theorem applyFilter_idempotent (tbl : Char → Char) (ts : List Target) (q : Str) :
    applyFilter tbl (applyFilter tbl ts q) q = applyFilter tbl ts q := by
  by_cases hq : q = []
  · simp [applyFilter, hq]
  · rw [applyFilter_eq_filter tbl ts q hq, applyFilter_eq_filter tbl _ q hq, List.filter_filter]
    simp

/-! ## Navigation properties -/

theorem moveUp_inv (maxVisible total cursor scroll : Int)
    (h : NavInv maxVisible total (cursor, scroll)) :
    NavInv maxVisible total (moveUp cursor scroll) := by
  unfold NavInv at h ⊢
  simp only at h
  by_cases h1 : cursor > 0
  · by_cases h2 : cursor - 1 < scroll
    · simp only [moveUp, h1, h2, if_true]; omega
    · simp only [moveUp, h1, h2, if_true, if_false]; omega
  · simp only [moveUp, h1, if_false]; omega

theorem moveDown_inv (maxVisible total cursor scroll : Int) (hmv : 1 ≤ maxVisible)
    (h : NavInv maxVisible total (cursor, scroll)) :
    NavInv maxVisible total (moveDown cursor scroll maxVisible total) := by
  unfold NavInv at h ⊢
  simp only at h
  by_cases h1 : cursor < total - 1
  · by_cases h2 : cursor + 1 ≥ scroll + maxVisible
    · simp only [moveDown, h1, h2, if_true]; omega
    · simp only [moveDown, h1, h2, if_true, if_false]; omega
  · simp only [moveDown, h1, if_false]; omega

theorem navigate_inv (maxVisible total : Int) (hmv : 1 ≤ maxVisible) (evs : List NavEvent)
    (s : Int × Int) (h : NavInv maxVisible total s) :
    NavInv maxVisible total (navigate maxVisible total s evs) := by
  induction evs generalizing s with
  | nil => exact h
  | cons e evs ih =>
    unfold navigate
    rw [List.foldl_cons]
    apply ih
    cases e with
    | up => exact moveUp_inv maxVisible total s.1 s.2 h
    | down => exact moveDown_inv maxVisible total s.1 s.2 hmv h

theorem wrapInt_eq (x : Int) (h1 : -9223372036854775808 ≤ x) (h2 : x ≤ 9223372036854775807) :
    wrapInt x = x := by
  unfold wrapInt; omega

theorem wrapInt_overflow (x : Int) (h1 : 9223372036854775807 < x)
    (h2 : x ≤ 18446744073709551614) : wrapInt x < 0 := by
  unfold wrapInt; omega

/-- In the 64-bit arithmetic `moveUp` computes what it computes over the integers. -/
theorem moveUpWrap_eq (cursor scroll : Int) (hc : cursor ≤ 9223372036854775807)
    (hs : scroll ≤ 9223372036854775807) : moveUpWrap cursor scroll = moveUp cursor scroll := by
  by_cases h1 : cursor > 0
  · have hw1 : wrapInt (cursor - 1) = cursor - 1 := wrapInt_eq _ (by omega) (by omega)
    by_cases h2 : cursor - 1 < scroll
    · have hw2 : wrapInt (scroll - 1) = scroll - 1 := wrapInt_eq _ (by omega) (by omega)
      simp only [moveUpWrap, moveUp, h1, if_true, hw1, h2, hw2]
    · simp only [moveUpWrap, moveUp, h1, if_true, hw1, h2, if_false]
  · simp only [moveUpWrap, moveUp, h1, if_false]

/-- In the 64-bit arithmetic `moveDown` computes what it computes over the integers when
`scroll + maxVisible` does not overflow. -/
theorem moveDownWrap_eq (cursor scroll maxVisible total : Int)
    (ht1 : 1 ≤ total) (ht2 : total ≤ 9223372036854775807)
    (hc : -9223372036854775808 ≤ cursor)
    (hs1 : -9223372036854775808 ≤ scroll) (hs2 : scroll < 9223372036854775807)
    (hm : 0 ≤ maxVisible) (ho : scroll + maxVisible ≤ 9223372036854775807) :
    moveDownWrap cursor scroll maxVisible total = moveDown cursor scroll maxVisible total := by
  have hw1 : wrapInt (total - 1) = total - 1 := wrapInt_eq _ (by omega) (by omega)
  have hw4 : wrapInt (scroll + maxVisible) = scroll + maxVisible :=
    wrapInt_eq _ (by omega) (by omega)
  have hw3 : wrapInt (scroll + 1) = scroll + 1 := wrapInt_eq _ (by omega) (by omega)
  by_cases h1 : cursor < total - 1
  · have hw2 : wrapInt (cursor + 1) = cursor + 1 := wrapInt_eq _ (by omega) (by omega)
    simp only [moveDownWrap, moveDown, hw1, h1, if_true, hw2, hw4, hw3]
  · simp only [moveDownWrap, moveDown, hw1, h1, if_false]

theorem moveDownWrap_inv (maxVisible total cursor scroll : Int)
    (ht : total ≤ 9223372036854775807) (hmv : 1 ≤ maxVisible)
    (hmv2 : maxVisible ≤ 9223372036854775807) (hs : -9223372036854775808 ≤ scroll)
    (h : NavInv maxVisible total (cursor, scroll)) :
    NavInv maxVisible total (moveDownWrap cursor scroll maxVisible total) ∧
    -9223372036854775808 ≤ (moveDownWrap cursor scroll maxVisible total).2 := by
  unfold NavInv at h ⊢
  simp only at h
  have hw1 : wrapInt (total - 1) = total - 1 := wrapInt_eq _ (by omega) (by omega)
  by_cases h1 : cursor < total - 1
  · have hw2 : wrapInt (cursor + 1) = cursor + 1 := wrapInt_eq _ (by omega) (by omega)
    have hw3 : wrapInt (scroll + 1) = scroll + 1 := wrapInt_eq _ (by omega) (by omega)
    by_cases ho : scroll + maxVisible ≤ 9223372036854775807
    · have hw4 : wrapInt (scroll + maxVisible) = scroll + maxVisible :=
        wrapInt_eq _ (by omega) ho
      by_cases h2 : cursor + 1 ≥ scroll + maxVisible
      · simp only [moveDownWrap, hw1, h1, if_true, hw2, hw4, h2, hw3]; omega
      · simp only [moveDownWrap, hw1, h1, if_true, hw2, hw4, h2, if_false]; omega
    · have hneg : wrapInt (scroll + maxVisible) < 0 :=
        wrapInt_overflow _ (by omega) (by omega)
      have h2 : cursor + 1 ≥ wrapInt (scroll + maxVisible) := by omega
      simp only [moveDownWrap, hw1, h1, if_true, hw2, h2, hw3]; omega
  · simp only [moveDownWrap, hw1, h1, if_false]; omega

theorem navigateWrap_inv (maxVisible total : Int) (ht : total ≤ 9223372036854775807)
    (hmv : 1 ≤ maxVisible) (hmv2 : maxVisible ≤ 9223372036854775807) (evs : List NavEvent)
    (s : Int × Int) (h : NavInv maxVisible total s) (hs : -9223372036854775808 ≤ s.2) :
    NavInv maxVisible total (navigateWrap maxVisible total s evs) := by
  induction evs generalizing s with
  | nil => exact h
  | cons e evs ih =>
    unfold navigateWrap
    rw [List.foldl_cons]
    cases e with
    | up =>
      have hb : s.1 ≤ 9223372036854775807 ∧ s.2 ≤ 9223372036854775807 := by
        unfold NavInv at h; omega
      have e : navStepWrap maxVisible total s NavEvent.up = moveUp s.1 s.2 :=
        moveUpWrap_eq s.1 s.2 hb.1 hb.2
      rw [e]
      apply ih _ (moveUp_inv maxVisible total s.1 s.2 h)
      unfold NavInv at h
      by_cases h1 : s.1 > 0
      · by_cases h2 : s.1 - 1 < s.2
        · simp only [moveUp, h1, h2, if_true]; omega
        · simp only [moveUp, h1, h2, if_true, if_false]; omega
      · simp only [moveUp, h1, if_false]; omega
    | down =>
      have := moveDownWrap_inv maxVisible total s.1 s.2 ht hmv hmv2 hs h
      exact ih _ this.1 this.2

/-- C10: for a visible list of length at least 1 and `maxVisible` at least 1, from a
state with `0 ≤ cursor < len(visible)` and `scroll ≤ cursor < scroll + maxVisible`, both
`moveUp` and `moveDown` return a state that satisfies the same bounds; hence they hold
after every sequence of up and down events from `cursor = 0`, `scroll = 0`.  The
functions are taken in the arithmetic of the 64-bit `int`, whose range the length of the
list, `maxVisible` and `scroll` are in: the bounds are kept also where
`scroll + maxVisible` overflows.  `moveUp` never overflows, `moveDown` does not when
`scroll + maxVisible` is in range. -/
theorem up_down_preserve_invariant (visible : List Target) (maxVisible cursor scroll : Int)
    (evs : List NavEvent) (hlen : 1 ≤ visible.length) (hmv : 1 ≤ maxVisible)
    (hint : (visible.length : Int) ≤ 9223372036854775807 ∧
      maxVisible ≤ 9223372036854775807 ∧ -9223372036854775808 ≤ scroll)
    (h : NavInv maxVisible visible.length (cursor, scroll)) :
    NavInv maxVisible visible.length (moveUpWrap cursor scroll) ∧
    NavInv maxVisible visible.length (moveDownWrap cursor scroll maxVisible visible.length) ∧
    NavInv maxVisible visible.length (navigateWrap maxVisible visible.length (0, 0) evs) ∧
    moveUpWrap cursor scroll = moveUp cursor scroll ∧
    (scroll + maxVisible ≤ 9223372036854775807 →
      moveDownWrap cursor scroll maxVisible visible.length =
        moveDown cursor scroll maxVisible visible.length) := by
  obtain ⟨hL, hmv2, hsc⟩ := hint
  have hb : cursor ≤ 9223372036854775807 ∧ scroll ≤ 9223372036854775807 ∧
      scroll < 9223372036854775807 := by
    unfold NavInv at h
    simp only at h
    omega
  have hup := moveUpWrap_eq cursor scroll hb.1 hb.2.1
  refine ⟨?_, (moveDownWrap_inv _ _ _ _ hL hmv hmv2 hsc h).1, ?_, hup, ?_⟩
  · rw [hup]; exact moveUp_inv _ _ _ _ h
  · apply navigateWrap_inv _ _ hL hmv hmv2
    · unfold NavInv
      simp only
      omega
    · simp
  · intro ho
    have hc0 : -9223372036854775808 ≤ cursor := by
      unfold NavInv at h
      simp only at h
      omega
    exact moveDownWrap_eq _ _ _ _ (by omega) hL hc0 hsc hb.2.2 (by omega) ho

theorem up_down_preserve_invariant_witness :
    NavInv 9223372036854775807 exampleTargets.length (moveUpWrap 1 1) ∧
    NavInv 9223372036854775807 exampleTargets.length
      (moveDownWrap 1 1 9223372036854775807 exampleTargets.length) ∧
    NavInv 9223372036854775807 exampleTargets.length
      (navigateWrap 9223372036854775807 exampleTargets.length (0, 0) [.down, .down, .down, .up]) :=
  have h := up_down_preserve_invariant exampleTargets 9223372036854775807 1 1
    [.down, .down, .down, .up] (by decide) (by decide) (by decide) (by unfold NavInv; decide)
  ⟨h.1, h.2.1, h.2.2.1⟩

/-! ## Key bindings -/

theorem isLetter_lt (b : Nat) (h : isLetter b = true) : b < 128 := by
  simp only [isLetter, Bool.or_eq_true, Bool.and_eq_true, decide_eq_true_eq] at h
  omega

theorem lor_32_of_letter : ∀ b, b < 128 → isLetter b = true → b ||| 0x20 = lowerByte b := by
  set_option maxRecDepth 100000 in decide

theorem eqCaseInsensitive_iff (a b : Nat) :
    eqCaseInsensitive a b = true ↔
      (a = b ∨ (isLetter a = true ∧ isLetter b = true ∧ lowerByte a = lowerByte b)) := by
  unfold eqCaseInsensitive
  by_cases h : (isLetter a && isLetter b) = true
  · have ha : isLetter a = true := by simp at h; exact h.1
    have hb : isLetter b = true := by simp at h; exact h.2
    simp only [h, if_true, beq_iff_eq]
    rw [lor_32_of_letter a (isLetter_lt a ha) ha, lor_32_of_letter b (isLetter_lt b hb) hb]
    constructor
    · intro e; exact Or.inr ⟨ha, hb, e⟩
    · rintro (e | ⟨_, _, e⟩)
      · rw [e]
      · exact e
  · simp only [h, Bool.false_eq_true, if_false, beq_iff_eq]
    constructor
    · intro e; exact Or.inl e
    · rintro (e | ⟨ha, hb, _⟩)
      · exact e
      · simp [ha, hb] at h

theorem eqCaseInsensitive_q (a : Nat) :
    eqCaseInsensitive a 113 = true ↔ (a = 113 ∨ a = 81) := by
  rw [eqCaseInsensitive_iff]
  constructor
  · rintro (e | ⟨ha, _, e⟩)
    · exact Or.inl e
    · simp only [isLetter, Bool.or_eq_true, Bool.and_eq_true, decide_eq_true_eq] at ha
      unfold lowerByte at e
      split at e <;> simp at e <;> omega
  · rintro (e | e)
    · exact Or.inl e
    · right; subst e; decide

/-- C13: the up and down keys of a profile.  Under Arrows no single byte is an up or
down key; under WASD the up keys are `w`, `W` (119, 87) and the down keys `s`, `S`
(115, 83); under Custom a byte is the up key exactly when it equals `CustomUpKey` or
both are ASCII letters equal after lower-casing, and likewise for down.  So `w` is up
and `s` is down under WASD, and `z` (122) is up and `s` is down under Custom with `z`
and `s`. -/
theorem profile_key_mapping (b u d : Nat) :
    isUpKey b { KeyScheme := KeyScheme.arrows, CustomUpKey := u, CustomDownKey := d } = false ∧
    isDownKey b { KeyScheme := KeyScheme.arrows, CustomUpKey := u, CustomDownKey := d } = false ∧
    (isUpKey b { KeyScheme := KeyScheme.wasd, CustomUpKey := u, CustomDownKey := d } = true ↔
      (b = 119 ∨ b = 87)) ∧
    (isDownKey b { KeyScheme := KeyScheme.wasd, CustomUpKey := u, CustomDownKey := d } = true ↔
      (b = 115 ∨ b = 83)) ∧
    (isUpKey b { KeyScheme := KeyScheme.custom, CustomUpKey := u, CustomDownKey := d } = true ↔
      (b = u ∨ (isLetter b = true ∧ isLetter u = true ∧ lowerByte b = lowerByte u))) ∧
    (isDownKey b { KeyScheme := KeyScheme.custom, CustomUpKey := u, CustomDownKey := d } = true ↔
      (b = d ∨ (isLetter b = true ∧ isLetter d = true ∧ lowerByte b = lowerByte d))) ∧
    isUpKey 119 { KeyScheme := KeyScheme.wasd, CustomUpKey := u, CustomDownKey := d } = true ∧
    isDownKey 115 { KeyScheme := KeyScheme.wasd, CustomUpKey := u, CustomDownKey := d } = true ∧
    isUpKey 122 { KeyScheme := KeyScheme.custom, CustomUpKey := 122, CustomDownKey := 115 } = true ∧
    isDownKey 115 { KeyScheme := KeyScheme.custom, CustomUpKey := 122, CustomDownKey := 115 } = true := by
  refine ⟨rfl, rfl, ?_, ?_, ?_, ?_, rfl, rfl, by decide, by decide⟩
  · simp [isUpKey]
  · simp [isDownKey]
  · simp only [isUpKey]; exact eqCaseInsensitive_iff b u
  · simp only [isDownKey]; exact eqCaseInsensitive_iff b d

theorem isQuitKey_iff (b u d : Nat) (ks : KeyScheme) :
    isQuitKey b { KeyScheme := ks, CustomUpKey := u, CustomDownKey := d } = true ↔
      (b = 3 ∨ ((b = 113 ∨ b = 81) ∧
        ¬ (ks = KeyScheme.custom ∧ ((u = 113 ∨ u = 81) ∨ (d = 113 ∨ d = 81))))) := by
  unfold isQuitKey
  by_cases h3 : b = 3
  · simp [h3]
  · by_cases hb : ks = KeyScheme.custom ∧ ((u = 113 ∨ u = 81) ∨ (d = 113 ∨ d = 81))
    · have : (decide (ks = KeyScheme.custom) &&
          (eqCaseInsensitive u 113 || eqCaseInsensitive d 113)) = true := by
        simp only [Bool.and_eq_true, decide_eq_true_eq, Bool.or_eq_true, eqCaseInsensitive_q]
        exact hb
      simp only [h3, if_false, this, if_true, Bool.false_eq_true, false_or, false_iff]
      intro hcon; exact hcon.2 hb
    · have : (decide (ks = KeyScheme.custom) &&
          (eqCaseInsensitive u 113 || eqCaseInsensitive d 113)) = false := by
        rw [Bool.eq_false_iff]
        simp only [ne_eq, Bool.and_eq_true, decide_eq_true_eq, Bool.or_eq_true,
          eqCaseInsensitive_q]
        exact hb
      simp only [h3, if_false, this, Bool.false_eq_true, Bool.or_eq_true, beq_iff_eq, false_or]
      tauto

/-- C14: `isQuitKey` holds exactly for Ctrl-C (3), and for `q` and `Q` (113, 81) unless
the scheme is Custom with `q` or `Q` as the up or the down key. -/
theorem quit_key_resolution (b u d : Nat) (ks : KeyScheme) :
    isQuitKey b { KeyScheme := ks, CustomUpKey := u, CustomDownKey := d } = true ↔
      (b = 3 ∨ ((b = 113 ∨ b = 81) ∧
        ¬ (ks = KeyScheme.custom ∧ ((u = 113 ∨ u = 81) ∨ (d = 113 ∨ d = 81))))) :=
  isQuitKey_iff b u d ks

/-! ## The key loop -/

theorem clampCursor_of_lt (c n : Int) (h : c < n) : clampCursor c n = c := by
  unfold clampCursor
  have : ¬ c ≥ n := by omega
  simp [this]

theorem clampCursor_zero : clampCursor 0 0 = 0 := by decide

theorem applyFilter_nil (tbl : Char → Char) (ts : List Target) : applyFilter tbl ts [] = ts := by
  simp [applyFilter]

theorem applyFilter_length_le (tbl : Char → Char) (ts : List Target) (q : Str) :
    (applyFilter tbl ts q).length ≤ ts.length := by
  by_cases hq : q = []
  · simp [applyFilter, hq]
  · rw [applyFilter_eq_filter tbl ts q hq]
    exact List.length_filter_le _ _

theorem isQuitKey_of_not_quit (b : Nat) (opts : Options) (h3 : b ≠ 3) (hq : b ≠ 113)
    (hQ : b ≠ 81) : isQuitKey b opts = false := by
  unfold isQuitKey
  simp only [h3, if_false]
  split
  · rfl
  · simp [hq, hQ]

theorem isQuitKey_ctrl_c (opts : Options) : isQuitKey 3 opts = true := by
  simp [isQuitKey]

/-- Under the invariant the clamp at the head of the loop changes nothing. -/
theorem renderView_of_inv (tbl : Char → Char) (targets : List Target) (s : MenuState)
    (h : MenuInv tbl targets s) : renderView tbl targets s = s := by
  obtain ⟨h1, h2, _⟩ := h
  unfold renderView
  by_cases hv : visibleOf tbl targets s = []
  · have hc := h2 hv
    rw [hv, hc]
    cases s
    simp only [List.length_nil, Nat.cast_zero, clampCursor_zero] at hc ⊢
    rw [hc]
  · rw [clampCursor_of_lt _ _ (h1 hv).2]

theorem loopBody_eq (tbl : Char → Char) (opts : Options) (targets : List Target)
    (s : MenuState) (key : List Nat) :
    loopBody tbl opts targets s (some key) =
      if key.length = 0 then Outcome.next (renderView tbl targets s)
      else if s.filtering then Outcome.next (filterKey (renderView tbl targets s) (key.getD 0 0))
      else browseKey opts (visibleOf tbl targets s) (renderView tbl targets s) key := by
  rfl

theorem browseKey_cases (opts : Options) (filtered : List Target) (s : MenuState)
    (key : List Nat) :
    browseKey opts filtered s key = Outcome.result { Target := none, Confirmed := false } ∨
    browseKey opts filtered s key = Outcome.next { s with filtering := true, filter := [] } ∨
    browseKey opts filtered s key = confirmKey filtered s ∨
    browseKey opts filtered s key = Outcome.next (stepUp s) ∨
    browseKey opts filtered s key = Outcome.next (stepDown filtered s) ∨
    browseKey opts filtered s key = Outcome.next s := by
  unfold browseKey
  simp only
  split_ifs <;> simp

theorem browseKey_arrow_up (opts : Options) (filtered : List Target) (s : MenuState)
    (rest : List Nat) :
    browseKey opts filtered s (27 :: 91 :: 65 :: rest) = Outcome.next (stepUp s) := by
  unfold browseKey
  simp [isQuitKey_of_not_quit 27 opts]

theorem browseKey_arrow_down (opts : Options) (filtered : List Target) (s : MenuState)
    (rest : List Nat) :
    browseKey opts filtered s (27 :: 91 :: 66 :: rest) = Outcome.next (stepDown filtered s) := by
  unfold browseKey
  simp [isQuitKey_of_not_quit 27 opts]

theorem browseKey_slash (opts : Options) (filtered : List Target) (s : MenuState)
    (rest : List Nat) :
    browseKey opts filtered s (47 :: rest) =
      Outcome.next { s with filtering := true, filter := [] } := by
  unfold browseKey
  simp [isQuitKey_of_not_quit 47 opts]

theorem browseKey_enter (opts : Options) (filtered : List Target) (s : MenuState)
    (rest : List Nat) :
    browseKey opts filtered s (13 :: rest) = confirmKey filtered s := by
  unfold browseKey
  simp [isQuitKey_of_not_quit 13 opts]

theorem browseKey_ctrl_c (opts : Options) (filtered : List Target) (s : MenuState)
    (rest : List Nat) :
    browseKey opts filtered s (3 :: rest) =
      Outcome.result { Target := none, Confirmed := false } := by
  unfold browseKey
  simp [isQuitKey_ctrl_c opts]

/-- The invariant in terms of the number of visible targets. -/
theorem menuInv_iff (tbl : Char → Char) (targets : List Target) (s : MenuState) :
    MenuInv tbl targets s ↔
      (0 ≤ s.scroll ∧ s.scroll ≤ s.cursor ∧ s.cursor < s.scroll + 15 ∧
        (s.cursor < ((visibleOf tbl targets s).length : Int) ∨
          ((visibleOf tbl targets s).length = 0 ∧ s.cursor = 0))) := by
  unfold MenuInv maxVisible
  by_cases hv : visibleOf tbl targets s = []
  · simp only [hv, ne_eq, not_true_eq_false, false_implies, true_implies, List.length_nil,
      Nat.cast_zero, true_and]
    constructor
    · rintro ⟨h1, h2, h3, h4⟩; exact ⟨h2, h3, h4, Or.inr h1⟩
    · rintro ⟨h2, h3, h4, h5⟩
      refine ⟨?_, h2, h3, h4⟩
      rcases h5 with h5 | h5
      · omega
      · exact h5
  · have hpos : 0 < (visibleOf tbl targets s).length := List.length_pos.2 hv
    simp only [ne_eq, hv, not_false_eq_true, true_implies, false_implies, true_and]
    constructor
    · rintro ⟨⟨h0, h1⟩, h2, h3, h4⟩; exact ⟨h2, h3, h4, Or.inl h1⟩
    · rintro ⟨h2, h3, h4, h5⟩
      refine ⟨⟨by omega, ?_⟩, h2, h3, h4⟩
      rcases h5 with h5 | h5
      · exact h5
      · omega

theorem stepUp_inv (tbl : Char → Char) (targets : List Target) (s : MenuState)
    (h : MenuInv tbl targets s) : MenuInv tbl targets (stepUp s) := by
  rw [menuInv_iff] at h ⊢
  have hv : visibleOf tbl targets (stepUp s) = visibleOf tbl targets s := rfl
  rw [hv]
  simp only [stepUp]
  by_cases h1 : s.cursor > 0
  · by_cases h2 : s.cursor - 1 < s.scroll
    · simp only [moveUp, h1, h2, if_true]; omega
    · simp only [moveUp, h1, h2, if_true, if_false]; omega
  · simp only [moveUp, h1, if_false]; omega

theorem stepDown_inv (tbl : Char → Char) (targets : List Target) (s : MenuState)
    (h : MenuInv tbl targets s) :
    MenuInv tbl targets (stepDown (visibleOf tbl targets s) s) := by
  rw [menuInv_iff] at h ⊢
  have hv : visibleOf tbl targets (stepDown (visibleOf tbl targets s) s)
      = visibleOf tbl targets s := rfl
  rw [hv]
  simp only [stepDown, maxVisible]
  by_cases h1 : s.cursor < ((visibleOf tbl targets s).length : Int) - 1
  · by_cases h2 : s.cursor + 1 ≥ s.scroll + 15
    · simp only [moveDown, h1, h2, if_true]; omega
    · simp only [moveDown, h1, h2, if_true, if_false]; omega
  · simp only [moveDown, h1, if_false]; omega

theorem filterKey_inv (tbl : Char → Char) (targets : List Target) (s : MenuState) (k : Nat) :
    MenuInv tbl targets (filterKey s k) := by
  rw [menuInv_iff]
  have hc : (filterKey s k).cursor = 0 := rfl
  have hs : (filterKey s k).scroll = 0 := rfl
  rw [hc, hs]
  omega

theorem menuInv_init (tbl : Char → Char) (targets : List Target) :
    MenuInv tbl targets initMenu :=
  filterKey_inv tbl targets initMenu 0

theorem slash_inv (tbl : Char → Char) (targets : List Target) (s : MenuState)
    (hne : targets ≠ []) (h : MenuInv tbl targets s) :
    MenuInv tbl targets { s with filtering := true, filter := [] } := by
  rw [menuInv_iff] at h ⊢
  have hlen := applyFilter_length_le tbl targets s.filter
  have hpos : 0 < targets.length := List.length_pos.2 hne
  simp only [visibleOf, applyFilter_nil] at h ⊢
  omega

theorem confirmKey_ok (tbl : Char → Char) (targets : List Target) (s : MenuState)
    (h : MenuInv tbl targets s) :
    (visibleOf tbl targets s = [] ∧ confirmKey (visibleOf tbl targets s) s = Outcome.next s) ∨
    (∃ t, 0 ≤ s.cursor ∧ (visibleOf tbl targets s).get? s.cursor.toNat = some t ∧
      confirmKey (visibleOf tbl targets s) s =
        Outcome.result { Target := some t, Confirmed := true }) := by
  rw [menuInv_iff] at h
  by_cases hv : visibleOf tbl targets s = []
  · left
    refine ⟨hv, ?_⟩
    simp [confirmKey, hv]
  · right
    have hpos : 0 < (visibleOf tbl targets s).length := List.length_pos.2 hv
    have hc0 : 0 ≤ s.cursor := by omega
    have hlt : s.cursor.toNat < (visibleOf tbl targets s).length := by omega
    refine ⟨(visibleOf tbl targets s).get ⟨s.cursor.toNat, hlt⟩, hc0, ?_, ?_⟩
    · exact List.get?_eq_get hlt
    · have hl : ¬ (visibleOf tbl targets s).length = 0 := by omega
      simp only [confirmKey, hl, if_false, hc0, if_true, List.get?_eq_get hlt]

/-- One iteration keeps the invariant and does not panic. -/
theorem loopBody_inv (tbl : Char → Char) (opts : Options) (targets : List Target)
    (s : MenuState) (input : Option (List Nat)) (hne : targets ≠ [])
    (h : MenuInv tbl targets s) :
    loopBody tbl opts targets s input ≠ Outcome.panic ∧
    ∀ s1, loopBody tbl opts targets s input = Outcome.next s1 → MenuInv tbl targets s1 := by
  cases input with
  | none => exact ⟨by simp [loopBody], by simp [loopBody]⟩
  | some key =>
    rw [loopBody_eq, renderView_of_inv tbl targets s h]
    by_cases hk : key.length = 0
    · simp only [hk, if_true]
      refine ⟨by simp, ?_⟩
      intro s1 e
      cases e
      exact h
    · simp only [hk, if_false]
      by_cases hf : s.filtering = true
      · simp only [hf, if_true]
        refine ⟨by simp, ?_⟩
        intro s1 e
        cases e
        exact filterKey_inv tbl targets s _
      · simp only [hf, Bool.false_eq_true, if_false]
        rcases browseKey_cases opts (visibleOf tbl targets s) s key with e | e | e | e | e | e
        · rw [e]; exact ⟨by simp, by simp⟩
        · rw [e]
          refine ⟨by simp, ?_⟩
          intro s1 e1
          cases e1
          exact slash_inv tbl targets s hne h
        · rw [e]
          rcases confirmKey_ok tbl targets s h with ⟨_, e2⟩ | ⟨t, _, _, e2⟩
          · rw [e2]
            refine ⟨by simp, ?_⟩
            intro s1 e1
            cases e1
            exact h
          · rw [e2]; exact ⟨by simp, by simp⟩
        · rw [e]
          refine ⟨by simp, ?_⟩
          intro s1 e1
          cases e1
          exact stepUp_inv tbl targets s h
        · rw [e]
          refine ⟨by simp, ?_⟩
          intro s1 e1
          cases e1
          exact stepDown_inv tbl targets s h
        · rw [e]
          refine ⟨by simp, ?_⟩
          intro s1 e1
          cases e1
          exact h

/-- The loop keeps the invariant and does not panic. -/
theorem runLoop_inv (tbl : Char → Char) (opts : Options) (targets : List Target)
    (hne : targets ≠ []) (inputs : List (Option (List Nat))) (s : MenuState)
    (h : MenuInv tbl targets s) :
    runLoop tbl opts targets s inputs ≠ Outcome.panic ∧
    ∀ s1, runLoop tbl opts targets s inputs = Outcome.next s1 → MenuInv tbl targets s1 := by
  induction inputs generalizing s with
  | nil =>
    refine ⟨by simp [runLoop], ?_⟩
    intro s1 e
    simp only [runLoop, Outcome.next.injEq] at e
    rw [← e]; exact h
  | cons i rest ih =>
    obtain ⟨hp, hn⟩ := loopBody_inv tbl opts targets s i hne h
    unfold runLoop
    cases hl : loopBody tbl opts targets s i with
    | next s2 => exact ih s2 (hn s2 hl)
    | result r => exact ⟨by simp, by simp⟩
    | panic => exact absurd hl hp

theorem reachable_inv (tbl : Char → Char) (opts : Options) (targets : List Target)
    (hne : targets ≠ []) (s : MenuState) (h : Reachable tbl opts targets s) :
    MenuInv tbl targets s := by
  obtain ⟨inputs, e⟩ := h
  exact (runLoop_inv tbl opts targets hne inputs initMenu (menuInv_init tbl targets)).2 s e

/-! ## Navigation through the key loop -/

theorem loopBody_arrow (tbl : Char → Char) (opts : Options) (targets : List Target)
    (s : MenuState) (e : NavEvent) (hb : s.filtering = false) (h : MenuInv tbl targets s) :
    loopBody tbl opts targets s (some (arrowKey e)) =
      Outcome.next { s with
        cursor := (navStep maxVisible (visibleOf tbl targets s).length (s.cursor, s.scroll) e).1,
        scroll := (navStep maxVisible (visibleOf tbl targets s).length (s.cursor, s.scroll) e).2 } := by
  rw [loopBody_eq, renderView_of_inv tbl targets s h]
  have hlen : ¬ (arrowKey e).length = 0 := by cases e <;> decide
  rw [if_neg hlen]
  obtain ⟨c, sc, f, fl⟩ := s
  simp only at hb
  subst hb
  simp only [Bool.false_eq_true, if_false]
  cases e with
  | up =>
    simp only [arrowKey]
    rw [browseKey_arrow_up]
    rfl
  | down =>
    simp only [arrowKey]
    rw [browseKey_arrow_down]
    rfl

/-- Arrow keys drive the loop as `navigate` says. -/
theorem runLoop_arrows (tbl : Char → Char) (opts : Options) (targets : List Target)
    (evs : List NavEvent) (s : MenuState) (hb : s.filtering = false)
    (h : MenuInv tbl targets s) :
    runLoop tbl opts targets s (evs.map (fun e => some (arrowKey e))) =
      Outcome.next { s with
        cursor := (navigate maxVisible (visibleOf tbl targets s).length (s.cursor, s.scroll) evs).1,
        scroll := (navigate maxVisible (visibleOf tbl targets s).length (s.cursor, s.scroll) evs).2 } := by
  induction evs generalizing s with
  | nil => simp [runLoop, navigate]
  | cons e evs ih =>
    have hstep := loopBody_arrow tbl opts targets s e hb h
    have hinv : MenuInv tbl targets { s with
        cursor := (navStep maxVisible (visibleOf tbl targets s).length (s.cursor, s.scroll) e).1,
        scroll := (navStep maxVisible (visibleOf tbl targets s).length (s.cursor, s.scroll) e).2 } := by
      cases e with
      | up => exact stepUp_inv tbl targets s h
      | down => exact stepDown_inv tbl targets s h
    simp only [List.map_cons, runLoop, hstep]
    have ih2 := ih { s with
        cursor := (navStep maxVisible (visibleOf tbl targets s).length (s.cursor, s.scroll) e).1,
        scroll := (navStep maxVisible (visibleOf tbl targets s).length (s.cursor, s.scroll) e).2 }
      hb hinv
    rw [ih2]
    simp only [navigate, List.foldl_cons, visibleOf]

/-- The closed form of `n` down events from the top. -/
theorem navigate_down (total : Int) (n : Nat) (ht : 1 ≤ total) :
    navigate 15 total (0, 0) (List.replicate n NavEvent.down) =
      (min (n : Int) (total - 1), max 0 (min (n : Int) (total - 1) - 14)) := by
  induction n with
  | zero =>
    simp only [navigate, List.replicate_zero, List.foldl_nil, Nat.cast_zero]
    have h1 : min (0 : Int) (total - 1) = 0 := by omega
    rw [h1]
    rfl
  | succ n ih =>
    unfold navigate at ih ⊢
    rw [List.replicate_succ', List.foldl_append, ih]
    simp only [List.foldl_cons, List.foldl_nil, navStep]
    by_cases h1 : min (n : Int) (total - 1) < total - 1
    · by_cases h2 : min (n : Int) (total - 1) + 1 ≥ max 0 (min (n : Int) (total - 1) - 14) + 15
      · simp only [moveDown, h1, h2, if_true]
        rw [Prod.mk.injEq]
        push_cast
        omega
      · simp only [moveDown, h1, h2, if_true, if_false]
        rw [Prod.mk.injEq]
        push_cast
        omega
    · simp only [moveDown, h1, if_false]
      rw [Prod.mk.injEq]
      push_cast
      omega

/-- C11: `n` down events from `cursor = 0`, `scroll = 0` on a visible list of length
`L ≥ 1`, with `maxVisible = 15`, leave `cursor = min(n, L-1)` and
`scroll = max(0, min(n, L-1) - 14)`, for `moveDown` applied `n` times and for the loop of
`Run` fed `n` arrow-down keys; 60 down events on three targets leave the cursor at 2. -/
theorem down_events_clamp (tbl : Char → Char) (opts : Options) (targets : List Target)
    (n : Nat) (hlen : 1 ≤ targets.length) :
    navigate maxVisible targets.length (0, 0) (List.replicate n NavEvent.down) =
      (min (n : Int) (targets.length - 1), max 0 (min (n : Int) (targets.length - 1) - 14)) ∧
    runLoop tbl opts targets initMenu (List.replicate n (some (arrowKey NavEvent.down))) =
      Outcome.next { cursor := min (n : Int) (targets.length - 1),
                     scroll := max 0 (min (n : Int) (targets.length - 1) - 14),
                     filter := [], filtering := false } ∧
    runLoop tbl opts exampleTargets initMenu (List.replicate 60 (some (arrowKey NavEvent.down))) =
      Outcome.next { cursor := 2, scroll := 0, filter := [], filtering := false } := by
  have hnav : ∀ (ts : List Target) (m : Nat), 1 ≤ ts.length →
      runLoop tbl opts ts initMenu (List.replicate m (some (arrowKey NavEvent.down))) =
        Outcome.next { cursor := min (m : Int) (ts.length - 1),
                       scroll := max 0 (min (m : Int) (ts.length - 1) - 14),
                       filter := [], filtering := false } := by
    intro ts m hts
    have h := runLoop_arrows tbl opts ts (List.replicate m NavEvent.down) initMenu rfl
      (menuInv_init tbl ts)
    rw [List.map_replicate] at h
    rw [h]
    have hv : visibleOf tbl ts initMenu = ts := applyFilter_nil tbl ts
    rw [hv]
    have hn := navigate_down ts.length m (by exact_mod_cast hts)
    simp only [maxVisible, initMenu]
    rw [hn]
  refine ⟨navigate_down targets.length n (by exact_mod_cast hlen), hnav targets n hlen, ?_⟩
  rw [hnav exampleTargets 60 (by decide)]
  decide

theorem down_events_clamp_witness :
    navigate maxVisible exampleTargets.length (0, 0) (List.replicate 20 NavEvent.down) =
      (min ((20 : Nat) : Int) (exampleTargets.length - 1),
        max 0 (min ((20 : Nat) : Int) (exampleTargets.length - 1) - 14)) :=
  (down_events_clamp id { KeyScheme := KeyScheme.arrows, CustomUpKey := 0, CustomDownKey := 0 }
    exampleTargets 20 (by decide)).1

/-! ## Filtering through the key loop -/

theorem filterKey_printable (s : MenuState) (b : Nat) (h1 : 32 ≤ b) (h2 : b ≤ 126) :
    filterKey s b =
      { cursor := 0, scroll := 0, filter := s.filter ++ [Char.ofNat b], filtering := s.filtering } := by
  have e1 : ¬ b = 27 := by omega
  have e2 : ¬ b = 13 := by omega
  have e3 : ¬ b = 127 := by omega
  have e4 : ¬ b = 8 := by omega
  have e5 : b < 127 := by omega
  simp [filterKey, e1, e2, e3, e4, e5, h1]

theorem filterKey_enter (s : MenuState) :
    filterKey s 13 = { cursor := 0, scroll := 0, filter := s.filter, filtering := false } := by
  simp [filterKey]

theorem loopBody_filtering (tbl : Char → Char) (opts : Options) (targets : List Target)
    (s : MenuState) (b : Nat) (rest : List Nat) (hf : s.filtering = true) :
    loopBody tbl opts targets s (some (b :: rest)) =
      Outcome.next (filterKey (renderView tbl targets s) b) := by
  rw [loopBody_eq]
  simp [hf]

/-- Typing a printable text and then Enter while filtering. -/
theorem runLoop_typed (tbl : Char → Char) (opts : Options) (targets : List Target)
    (bytes : List Nat) (s : MenuState) (hf : s.filtering = true)
    (hp : ∀ b ∈ bytes, 32 ≤ b ∧ b ≤ 126) :
    runLoop tbl opts targets s (typedKeys bytes ++ [some [13]]) =
      Outcome.next { cursor := 0, scroll := 0, filter := s.filter ++ queryOf bytes,
                     filtering := false } := by
  induction bytes generalizing s with
  | nil =>
    simp only [typedKeys, List.map_nil, List.nil_append, runLoop, queryOf, List.append_nil]
    rw [loopBody_filtering tbl opts targets s 13 [] hf, filterKey_enter]
    rfl
  | cons b bytes ih =>
    have hb := hp b (by simp)
    simp only [typedKeys, List.map_cons, List.cons_append, runLoop, List.append_eq]
    rw [loopBody_filtering tbl opts targets s b [] hf, filterKey_printable _ b hb.1 hb.2]
    simp only
    have := ih { cursor := 0, scroll := 0,
                 filter := (renderView tbl targets s).filter ++ [Char.ofNat b],
                 filtering := (renderView tbl targets s).filtering } hf
      (fun x hx => hp x (List.mem_cons_of_mem _ hx))
    simp only [typedKeys] at this
    rw [this]
    simp [queryOf, renderView]

theorem toLower_ascii (tbl : Char → Char) (s : Str) (h : ∀ c ∈ s, c.toNat < 128) :
    ToLower tbl s = ToLower id s := by
  unfold ToLower
  apply List.map_congr_left
  intro c hc
  simp [toLowerRune, h c hc]

/-- On ASCII targets and an ASCII query the filter does not depend on the case table
beyond ASCII. -/
theorem applyFilter_ascii (tbl : Char → Char) (ts : List Target) (q : Str)
    (hq : ∀ c ∈ q, c.toNat < 128)
    (ht : ∀ t ∈ ts, (∀ c ∈ t.Name, c.toNat < 128) ∧ (∀ c ∈ t.Description, c.toNat < 128)) :
    applyFilter tbl ts q = applyFilter id ts q := by
  by_cases hne : q = []
  · simp [applyFilter, hne]
  · rw [applyFilter_eq_filter tbl ts q hne, applyFilter_eq_filter id ts q hne]
    apply List.filter_congr
    intro t htm
    rw [decide_eq_decide]
    unfold MatchesQuery
    rw [toLower_ascii tbl q hq, toLower_ascii tbl t.Name (ht t htm).1,
      toLower_ascii tbl t.Description (ht t htm).2]

/-- C12: from any Browsing state the keys `/`, the bytes of a printable ASCII text one
per key event, Enter leave the loop in Browsing with the text as query and
`cursor = 0`, `scroll = 0`, so that the visible set is `applyFilter` of the targets and
the text; on `build`, `test`, `lint` the text `bui` leaves `build` alone. -/
theorem commit_filter (tbl : Char → Char) (opts : Options) (targets : List Target)
    (s : MenuState) (bytes : List Nat) (hb : s.filtering = false)
    (hp : ∀ b ∈ bytes, 32 ≤ b ∧ b ≤ 126) :
    runLoop tbl opts targets s (some [47] :: (typedKeys bytes ++ [some [13]])) =
      Outcome.next { cursor := 0, scroll := 0, filter := queryOf bytes, filtering := false } ∧
    visibleOf tbl targets { cursor := 0, scroll := 0, filter := queryOf bytes, filtering := false } =
      applyFilter tbl targets (queryOf bytes) ∧
    runLoop tbl opts exampleTargets initMenu
        (some [47] :: (typedKeys [98, 117, 105] ++ [some [13]])) =
      Outcome.next { cursor := 0, scroll := 0, filter := ['b', 'u', 'i'], filtering := false } ∧
    applyFilter tbl exampleTargets ['b', 'u', 'i'] = exampleTargets.take 1 := by
  have hrun : ∀ (ts : List Target) (st : MenuState) (bs : List Nat), st.filtering = false →
      (∀ b ∈ bs, 32 ≤ b ∧ b ≤ 126) →
      runLoop tbl opts ts st (some [47] :: (typedKeys bs ++ [some [13]])) =
        Outcome.next { cursor := 0, scroll := 0, filter := queryOf bs, filtering := false } := by
    intro ts st bs hst hbs
    have h1 : loopBody tbl opts ts st (some [47]) =
        Outcome.next { renderView tbl ts st with filtering := true, filter := [] } := by
      rw [loopBody_eq]
      simp only [List.length_cons, List.length_nil, hst, Bool.false_eq_true, if_false]
      rw [if_neg (by decide), browseKey_slash]
    rw [runLoop, h1]
    simp only
    rw [runLoop_typed tbl opts ts bs _ rfl hbs]
    simp
  refine ⟨hrun targets s bytes hb hp, rfl, ?_, ?_⟩
  · rw [hrun exampleTargets initMenu [98, 117, 105] rfl (by decide)]
    decide
  · rw [applyFilter_ascii tbl exampleTargets ['b', 'u', 'i'] (by decide) (by decide)]
    decide

theorem commit_filter_witness :
    runLoop id { KeyScheme := KeyScheme.wasd, CustomUpKey := 0, CustomDownKey := 0 } exampleTargets
        { cursor := 2, scroll := 0, filter := [], filtering := false }
        (some [47] :: (typedKeys [47, 113] ++ [some [13]])) =
      Outcome.next { cursor := 0, scroll := 0, filter := queryOf [47, 113], filtering := false } :=
  (commit_filter id { KeyScheme := KeyScheme.wasd, CustomUpKey := 0, CustomDownKey := 0 }
    exampleTargets { cursor := 2, scroll := 0, filter := [], filtering := false } [47, 113]
    rfl (by decide)).1

/-! ## Quitting, confirming and arrow keys -/

theorem loopBody_browsing (tbl : Char → Char) (opts : Options) (targets : List Target)
    (s : MenuState) (b : Nat) (rest : List Nat) (hb : s.filtering = false) :
    loopBody tbl opts targets s (some (b :: rest)) =
      browseKey opts (visibleOf tbl targets s) (renderView tbl targets s) (b :: rest) := by
  rw [loopBody_eq]
  simp [hb]

theorem browseKey_quit (opts : Options) (filtered : List Target) (s : MenuState)
    (b : Nat) (rest : List Nat) (h : isQuitKey b opts = true) :
    browseKey opts filtered s (b :: rest) =
      Outcome.result { Target := none, Confirmed := false } := by
  unfold browseKey
  simp [h]

/-- Under the Custom profile with `z` and `s` a bare `q` in Browsing ends the session: the
claim that it does not is false on the initial state. -/
theorem custom_zs_q_quits :
    loopBody id { KeyScheme := KeyScheme.custom, CustomUpKey := 122, CustomDownKey := 115 }
        exampleTargets initMenu (some [113]) =
      Outcome.result { Target := none, Confirmed := false } ∧
    ¬ ∃ s1, loopBody id { KeyScheme := KeyScheme.custom, CustomUpKey := 122, CustomDownKey := 115 }
        exampleTargets initMenu (some [113]) = Outcome.next s1 := by
  constructor
  · decide
  · rintro ⟨s1, h⟩
    have e : loopBody id { KeyScheme := KeyScheme.custom, CustomUpKey := 122, CustomDownKey := 115 }
        exampleTargets initMenu (some [113]) =
        Outcome.result { Target := none, Confirmed := false } := by decide
    rw [e] at h
    exact Outcome.noConfusion h

/-- C15, as amended: under the Custom profile with `z` and `s`, in Browsing, a bare `q`
(113) ends the session with `Confirmed = false`, and so does Ctrl-C (3).  Under every
profile and every pair of custom keys, a bare `q` in Browsing keeps the session running
exactly when the profile is Custom and its up or down key is `q` or `Q`, and otherwise
ends it with `Confirmed = false`; Ctrl-C ends it in Browsing under every profile. -/
theorem custom_quit_keys (tbl : Char → Char) (targets : List Target) (s : MenuState)
    (rest : List Nat) (ks : KeyScheme) (u d : Nat) (hb : s.filtering = false) :
    loopBody tbl { KeyScheme := KeyScheme.custom, CustomUpKey := 122, CustomDownKey := 115 }
        targets s (some (113 :: rest)) =
      Outcome.result { Target := none, Confirmed := false } ∧
    loopBody tbl { KeyScheme := KeyScheme.custom, CustomUpKey := 122, CustomDownKey := 115 }
        targets s (some (3 :: rest)) =
      Outcome.result { Target := none, Confirmed := false } ∧
    ((∃ s1, loopBody tbl { KeyScheme := ks, CustomUpKey := u, CustomDownKey := d }
        targets s (some (113 :: rest)) = Outcome.next s1) ↔
      (ks = KeyScheme.custom ∧ ((u = 113 ∨ u = 81) ∨ (d = 113 ∨ d = 81)))) ∧
    (¬ (ks = KeyScheme.custom ∧ ((u = 113 ∨ u = 81) ∨ (d = 113 ∨ d = 81))) →
      loopBody tbl { KeyScheme := ks, CustomUpKey := u, CustomDownKey := d }
        targets s (some (113 :: rest)) =
      Outcome.result { Target := none, Confirmed := false }) ∧
    loopBody tbl { KeyScheme := ks, CustomUpKey := u, CustomDownKey := d }
        targets s (some (3 :: rest)) =
      Outcome.result { Target := none, Confirmed := false } := by
  have hquit : ¬ (ks = KeyScheme.custom ∧ ((u = 113 ∨ u = 81) ∨ (d = 113 ∨ d = 81))) →
      loopBody tbl { KeyScheme := ks, CustomUpKey := u, CustomDownKey := d }
        targets s (some (113 :: rest)) =
      Outcome.result { Target := none, Confirmed := false } := by
    intro hn
    rw [loopBody_browsing _ _ _ _ _ _ hb]
    apply browseKey_quit
    rw [isQuitKey_iff]
    exact Or.inr ⟨Or.inl rfl, hn⟩
  refine ⟨?_, ?_, ⟨?_, ?_⟩, hquit, ?_⟩
  · rw [loopBody_browsing _ _ _ _ _ _ hb]
    exact browseKey_quit _ _ _ _ _ (by decide)
  · rw [loopBody_browsing _ _ _ _ _ _ hb]
    exact browseKey_ctrl_c _ _ _ _
  · rintro ⟨s1, h1⟩
    by_contra hn
    rw [hquit hn] at h1
    exact Outcome.noConfusion h1
  · intro hq
    rw [loopBody_browsing _ _ _ _ _ _ hb]
    have hnq : isQuitKey 113
        { KeyScheme := ks, CustomUpKey := u, CustomDownKey := d } = false := by
      rw [Bool.eq_false_iff, ne_eq, isQuitKey_iff]
      intro hcon
      rcases hcon with e | ⟨_, e⟩
      · exact absurd e (by decide)
      · exact e hq
    unfold browseKey
    simp only [List.getD_cons_zero, hnq, Bool.false_eq_true, if_false]
    rw [if_neg (by decide), if_neg (by decide)]
    split_ifs <;> exact ⟨_, rfl⟩
  · rw [loopBody_browsing _ _ _ _ _ _ hb]
    exact browseKey_ctrl_c _ _ _ _

theorem custom_quit_keys_witness :
    ((∃ s1, loopBody id { KeyScheme := KeyScheme.custom, CustomUpKey := 81, CustomDownKey := 115 }
        exampleTargets initMenu (some (113 :: [])) = Outcome.next s1) ↔
      (KeyScheme.custom = KeyScheme.custom ∧
        (((81 : Nat) = 113 ∨ (81 : Nat) = 81) ∨ ((115 : Nat) = 113 ∨ (115 : Nat) = 81)))) :=
  (custom_quit_keys id exampleTargets initMenu [] KeyScheme.custom 81 115 rfl).2.2.1

/-- C16, at the failing input: after `/` the loop is filtering, and there a Ctrl-C key
event (byte 3) leaves the session running, still filtering, instead of ending it. -/
theorem ctrl_c_ignored_while_filtering :
    runLoop id { KeyScheme := KeyScheme.arrows, CustomUpKey := 0, CustomDownKey := 0 }
        exampleTargets initMenu [some [47]] =
      Outcome.next { cursor := 0, scroll := 0, filter := [], filtering := true } ∧
    loopBody id { KeyScheme := KeyScheme.arrows, CustomUpKey := 0, CustomDownKey := 0 }
        exampleTargets { cursor := 0, scroll := 0, filter := [], filtering := true } (some [3]) =
      Outcome.next { cursor := 0, scroll := 0, filter := [], filtering := true } := by
  constructor <;> decide

/-- C17: in a reachable Browsing state, under every profile, Enter (13) returns the
visible target under the cursor with `Confirmed = true` when the visible set is not
empty, the cursor being a valid index, and changes nothing when it is empty. -/
theorem enter_confirms_cursor_row (tbl : Char → Char) (opts : Options) (targets : List Target)
    (s : MenuState) (rest : List Nat) (hne : targets ≠ [])
    (hr : Reachable tbl opts targets s) (hb : s.filtering = false) :
    (visibleOf tbl targets s ≠ [] →
      ∃ t, 0 ≤ s.cursor ∧ s.cursor < (visibleOf tbl targets s).length ∧
        (visibleOf tbl targets s).get? s.cursor.toNat = some t ∧
        loopBody tbl opts targets s (some (13 :: rest)) =
          Outcome.result { Target := some t, Confirmed := true }) ∧
    (visibleOf tbl targets s = [] →
      loopBody tbl opts targets s (some (13 :: rest)) = Outcome.next s) := by
  have hinv := reachable_inv tbl opts targets hne s hr
  have hbody : loopBody tbl opts targets s (some (13 :: rest)) =
      confirmKey (visibleOf tbl targets s) s := by
    rw [loopBody_browsing _ _ _ _ _ _ hb, renderView_of_inv tbl targets s hinv, browseKey_enter]
  rw [hbody]
  constructor
  · intro hv
    rcases confirmKey_ok tbl targets s hinv with ⟨e, _⟩ | ⟨t, h0, hget, e⟩
    · exact absurd e hv
    · exact ⟨t, h0, (hinv.1 hv).2, hget, e⟩
  · intro hv
    rcases confirmKey_ok tbl targets s hinv with ⟨_, e⟩ | ⟨t, _, hget, _⟩
    · exact e
    · rw [hv] at hget
      simp at hget

theorem enter_confirms_cursor_row_witness :
    loopBody id { KeyScheme := KeyScheme.arrows, CustomUpKey := 0, CustomDownKey := 0 }
        exampleTargets { cursor := 1, scroll := 0, filter := [], filtering := false }
        (some (13 :: [])) =
      Outcome.result { Target := exampleTargets.get? 1, Confirmed := true } := by
  obtain ⟨t, _, _, hget, e⟩ :=
    (enter_confirms_cursor_row id
      { KeyScheme := KeyScheme.arrows, CustomUpKey := 0, CustomDownKey := 0 } exampleTargets
      { cursor := 1, scroll := 0, filter := [], filtering := false } [] (by decide)
      ⟨[some (arrowKey NavEvent.down)], by decide⟩ rfl).1 (by decide)
  rw [e, ← hget]
  rfl

/-- C18, at the failing input: with `t` committed as query and the cursor moved to row
1, the `/` key clears the query and leaves the cursor at 1 instead of resetting it. -/
theorem slash_keeps_cursor :
    runLoop id { KeyScheme := KeyScheme.arrows, CustomUpKey := 0, CustomDownKey := 0 }
        exampleTargets initMenu [some [47], some [116], some [13], some [27, 91, 66]] =
      Outcome.next { cursor := 1, scroll := 0, filter := ['t'], filtering := false } ∧
    loopBody id { KeyScheme := KeyScheme.arrows, CustomUpKey := 0, CustomDownKey := 0 }
        exampleTargets { cursor := 1, scroll := 0, filter := ['t'], filtering := false }
        (some [47]) =
      Outcome.next { cursor := 1, scroll := 0, filter := [], filtering := true } := by
  constructor <;> decide

/-- C19: for a non-empty target list, every profile and every sequence of inputs from
the initial state, the loop never panics, and the state it reaches satisfies the
invariants of the specification as it is rendered: `0 ≤ cursor < len(visible)` when the
visible set is not empty, `cursor = 0` otherwise, and
`0 ≤ scroll ≤ cursor < scroll + maxVisible`; the clamp before rendering changes nothing. -/
theorem reachable_state_invariant (tbl : Char → Char) (opts : Options) (targets : List Target)
    (inputs : List (Option (List Nat))) (hne : targets ≠ []) :
    runLoop tbl opts targets initMenu inputs ≠ Outcome.panic ∧
    ∀ s, runLoop tbl opts targets initMenu inputs = Outcome.next s →
      MenuInv tbl targets (renderView tbl targets s) ∧ renderView tbl targets s = s := by
  obtain ⟨hp, hn⟩ := runLoop_inv tbl opts targets hne inputs initMenu (menuInv_init tbl targets)
  refine ⟨hp, ?_⟩
  intro s hs
  have hinv := hn s hs
  have hview := renderView_of_inv tbl targets s hinv
  rw [hview]
  exact ⟨hinv, rfl⟩

theorem reachable_state_invariant_witness :
    runLoop id { KeyScheme := KeyScheme.wasd, CustomUpKey := 0, CustomDownKey := 0 }
        exampleTargets initMenu [some [115], some [47], some [116], some [13], some [115]]
      ≠ Outcome.panic :=
  (reachable_state_invariant id { KeyScheme := KeyScheme.wasd, CustomUpKey := 0, CustomDownKey := 0 }
    exampleTargets [some [115], some [47], some [116], some [13], some [115]] (by decide)).1

/-- C20: in Browsing, under every options value, a key event that begins 27, 91, 65
does what `moveUp` does to the rendered cursor and the scroll, one that begins 27, 91,
66 what `moveDown` does with the number of visible targets, and the session goes on;
in a state that satisfies the invariants the rendered cursor is the cursor itself. -/
theorem arrow_keys_every_profile (tbl : Char → Char) (opts : Options) (targets : List Target)
    (s : MenuState) (rest : List Nat) (hb : s.filtering = false) :
    loopBody tbl opts targets s (some (27 :: 91 :: 65 :: rest)) =
      Outcome.next { s with
        cursor := (moveUp (renderView tbl targets s).cursor s.scroll).1,
        scroll := (moveUp (renderView tbl targets s).cursor s.scroll).2 } ∧
    loopBody tbl opts targets s (some (27 :: 91 :: 66 :: rest)) =
      Outcome.next { s with
        cursor := (moveDown (renderView tbl targets s).cursor s.scroll maxVisible
          (visibleOf tbl targets s).length).1,
        scroll := (moveDown (renderView tbl targets s).cursor s.scroll maxVisible
          (visibleOf tbl targets s).length).2 } ∧
    (MenuInv tbl targets s → (renderView tbl targets s).cursor = s.cursor) := by
  refine ⟨?_, ?_, ?_⟩
  · rw [loopBody_browsing _ _ _ _ _ _ hb, browseKey_arrow_up]
    rfl
  · rw [loopBody_browsing _ _ _ _ _ _ hb, browseKey_arrow_down]
    rfl
  · intro h
    rw [renderView_of_inv tbl targets s h]

theorem arrow_keys_every_profile_witness :
    loopBody id { KeyScheme := KeyScheme.custom, CustomUpKey := 27, CustomDownKey := 91 }
        exampleTargets { cursor := 1, scroll := 0, filter := [], filtering := false }
        (some (27 :: 91 :: 65 :: [])) =
      Outcome.next { ({ cursor := 1, scroll := 0, filter := [], filtering := false } : MenuState) with
        cursor := (moveUp (renderView id exampleTargets
          { cursor := 1, scroll := 0, filter := [], filtering := false }).cursor 0).1,
        scroll := (moveUp (renderView id exampleTargets
          { cursor := 1, scroll := 0, filter := [], filtering := false }).cursor 0).2 } :=
  (arrow_keys_every_profile id
    { KeyScheme := KeyScheme.custom, CustomUpKey := 27, CustomDownKey := 91 } exampleTargets
    { cursor := 1, scroll := 0, filter := [], filtering := false } [] rfl).1

/-! ## The parser on files and on comment lines -/

/-- C21, at the failing input: the file holds the lines `build:`, 70000 letters `x` and
`later:`.  It opens, the line `build:` is scanned, then the scanner stops on the second
line, too long for its buffer: `ParseMakefile` returns the error `bufio.ErrTooLong`
together with the target `build`, a non-nil error with a target sequence that is not
empty.  The same happens when a read fails after the line `build:`.  When the file does
not open, the error comes with no target. -/
theorem partial_result_with_error :
    ParseMakefileFrom (Source.readable (longLineText 70000) false) =
      ([{ Name := ['b', 'u', 'i', 'l', 'd'], Description := [] }], some ParseError.tooLong) ∧
    ParseMakefileFrom (Source.readable ['b', 'u', 'i', 'l', 'd', ':', '\n'] true) =
      ([{ Name := ['b', 'u', 'i', 'l', 'd'], Description := [] }], some ParseError.read) ∧
    ParseMakefileFrom Source.unopenable = ([], some ParseError.open) := by
  have e := scanFrom_longLineText 70000 (by decide)
  refine ⟨?_, by decide, rfl⟩
  rw [parseFrom_of_scan _ _ _ false e]
  decide

/-- C24, at the failing input: the target line `a##b:` has `##` only before its colon, yet
with `D` pending the target gets the description `b:`, the text after that `##`. -/
theorem hashes_before_colon_taken :
    isTarget ['a', '#', '#', 'b', ':'] = true ∧
    extractTargetName ['a', '#', '#', 'b', ':'] = ['a', '#', '#', 'b'] ∧
    parseLine { targets := [], pendingDescription := ['D'] } ['a', '#', '#', 'b', ':'] =
      { targets := [{ Name := ['a', '#', '#', 'b'], Description := ['b', ':'] }],
        pendingDescription := [] } := by
  refine ⟨?_, ?_, ?_⟩ <;> decide

/-- C28, at the failing input: the comment line `#build:` is taken for a target line and
the parser returns a target named `#build`. -/
theorem comment_line_becomes_target :
    isTarget ['#', 'b', 'u', 'i', 'l', 'd', ':'] = true ∧
    ParseMakefile ['#', 'b', 'u', 'i', 'l', 'd', ':', '\n'] =
      [{ Name := ['#', 'b', 'u', 'i', 'l', 'd'], Description := [] }] := by
  constructor <;> decide

/-! ## More on the key loop and the help line -/

/-- Arrow-down then `/` lead to Filtering with the cursor at 1; there the Tab key (byte 9),
which is no filter key, sets the cursor back to 0, so the state after the event is not
the state before it. -/
theorem control_byte_resets_cursor :
    runLoop id { KeyScheme := KeyScheme.arrows, CustomUpKey := 0, CustomDownKey := 0 }
        exampleTargets initMenu [some [27, 91, 66], some [47]] =
      Outcome.next { cursor := 1, scroll := 0, filter := [], filtering := true } ∧
    loopBody id { KeyScheme := KeyScheme.arrows, CustomUpKey := 0, CustomDownKey := 0 }
        exampleTargets { cursor := 1, scroll := 0, filter := [], filtering := true } (some [9]) =
      Outcome.next { cursor := 0, scroll := 0, filter := [], filtering := true } ∧
    loopBody id { KeyScheme := KeyScheme.arrows, CustomUpKey := 0, CustomDownKey := 0 }
        exampleTargets { cursor := 1, scroll := 0, filter := [], filtering := true } (some [9]) ≠
      Outcome.next { cursor := 1, scroll := 0, filter := [], filtering := true } := by
  refine ⟨?_, ?_, ?_⟩ <;> decide

/-- C25, as amended: while filtering, a key event whose first byte is neither 27, 13, 8,
127 nor in 32..126 leaves the query and the filtering flag as they are and sets cursor
and scroll to 0; so the state is unchanged when cursor and scroll are 0 before the
event. -/
theorem control_byte_while_filtering (tbl : Char → Char) (opts : Options)
    (targets : List Target) (s : MenuState) (k : Nat) (rest : List Nat)
    (hf : s.filtering = true) (h27 : k ≠ 27) (h13 : k ≠ 13) (h8 : k ≠ 8) (h127 : k ≠ 127)
    (hp : ¬ (32 ≤ k ∧ k ≤ 126)) :
    loopBody tbl opts targets s (some (k :: rest)) =
      Outcome.next { cursor := 0, scroll := 0, filter := s.filter, filtering := s.filtering } ∧
    (s.cursor = 0 → s.scroll = 0 →
      loopBody tbl opts targets s (some (k :: rest)) = Outcome.next s) := by
  have hstep : loopBody tbl opts targets s (some (k :: rest)) =
      Outcome.next { cursor := 0, scroll := 0, filter := s.filter, filtering := s.filtering } := by
    rw [loopBody_filtering tbl opts targets s k rest hf]
    have hlt : ¬ (32 ≤ k ∧ k < 127) := by omega
    simp [filterKey, renderView, h27, h13, h8, h127, hlt]
  refine ⟨hstep, ?_⟩
  intro hc hs
  rw [hstep]
  cases s
  simp only at hc hs
  rw [hc, hs]

theorem control_byte_while_filtering_witness :
    loopBody id { KeyScheme := KeyScheme.arrows, CustomUpKey := 0, CustomDownKey := 0 }
        exampleTargets { cursor := 1, scroll := 0, filter := ['t'], filtering := true }
        (some (9 :: [])) =
      Outcome.next { cursor := 0, scroll := 0, filter := ['t'], filtering := true } :=
  (control_byte_while_filtering id
    { KeyScheme := KeyScheme.arrows, CustomUpKey := 0, CustomDownKey := 0 } exampleTargets
    { cursor := 1, scroll := 0, filter := ['t'], filtering := true } 9 [] rfl
    (by decide) (by decide) (by decide) (by decide) (by decide)).1

/-- C27, at the failing input and in general: under Custom the hint is `Ctrl+C quit`
exactly when a custom key is `q` (113), while a bare `q` is no quit key exactly when a
custom key is `q` or `Q` (81); with `Q` as up key and `s` as down key the hint reads
`q quit` although `q` does not quit. -/
theorem quit_hint_misses_upper_case (u d : Nat) :
    (quitHint { KeyScheme := KeyScheme.custom, CustomUpKey := u, CustomDownKey := d } =
        ['C', 't', 'r', 'l', '+', 'C', ' ', 'q', 'u', 'i', 't'] ↔ (u = 113 ∨ d = 113)) ∧
    (isQuitKey 113 { KeyScheme := KeyScheme.custom, CustomUpKey := u, CustomDownKey := d } = false ↔
        ((u = 113 ∨ u = 81) ∨ (d = 113 ∨ d = 81))) ∧
    isQuitKey 113 { KeyScheme := KeyScheme.custom, CustomUpKey := 81, CustomDownKey := 115 } = false ∧
    helpLine { KeyScheme := KeyScheme.custom, CustomUpKey := 81, CustomDownKey := 115 } =
      HelpText.custom 81 115 ['q', ' ', 'q', 'u', 'i', 't'] := by
  refine ⟨?_, ?_, by decide, by decide⟩
  · unfold quitHint
    by_cases h : u = 113 ∨ d = 113
    · have : (decide (u = 113) || decide (d = 113)) = true := by simpa using h
      simp [this, h]
    · have : (decide (u = 113) || decide (d = 113)) = false := by
        rw [Bool.eq_false_iff]; simpa using h
      simp [this, h]
  · rw [Bool.eq_false_iff, ne_eq, isQuitKey_iff]
    constructor
    · intro h
      by_contra hc
      exact h (Or.inr ⟨Or.inl rfl, fun hh => hc hh.2⟩)
    · intro h hcon
      rcases hcon with e | ⟨_, e⟩
      · exact absurd e (by decide)
      · exact e ⟨rfl, h⟩

/-! ## Narrowing the filter -/

theorem matchesQuery_of_longer (tbl : Char → Char) (q : Str) (c : Char) (t : Target)
    (h : MatchesQuery tbl (q ++ [c]) t) : MatchesQuery tbl q t := by
  unfold MatchesQuery at h ⊢
  have hp : ToLower tbl q <:+: ToLower tbl (q ++ [c]) := by
    unfold ToLower
    rw [List.map_append]
    exact (List.prefix_append _ _).isInfix
  rcases h with h | h
  · exact Or.inl (hp.trans h)
  · exact Or.inr (hp.trans h)

theorem applyFilter_narrows (tbl : Char → Char) (ts : List Target) (q : Str) (c : Char) :
    (applyFilter tbl ts (q ++ [c])).Sublist (applyFilter tbl ts q) := by
  have hne : q ++ [c] ≠ [] := by simp
  by_cases hq : q = []
  · rw [hq, applyFilter_nil]
    exact applyFilter_sublist tbl ts ([] ++ [c])
  · rw [applyFilter_eq_filter tbl ts _ hne, applyFilter_eq_filter tbl ts q hq]
    apply List.monotone_filter_right
    intro t ht
    simp only [decide_eq_true_eq] at ht ⊢
    exact matchesQuery_of_longer tbl q c t ht

/-- C30: a query made longer by one character gives a sublist of what the query gave, so
every target visible under the longer query is visible under the shorter one; in the
loop, deleting the last character of the query (keys 127 and 8) keeps every visible
target visible. -/
theorem typing_narrows (tbl : Char → Char) (ts : List Target) (q : Str) (c : Char)
    (cur scr : Int) (fl : Bool) :
    (applyFilter tbl ts (q ++ [c])).Sublist (applyFilter tbl ts q) ∧
    (∀ t ∈ applyFilter tbl ts (q ++ [c]), t ∈ applyFilter tbl ts q) ∧
    (visibleOf tbl ts (MenuState.mk cur scr (q ++ [c]) fl)).Sublist
      (visibleOf tbl ts (filterKey (MenuState.mk cur scr (q ++ [c]) fl) 127)) ∧
    (visibleOf tbl ts (MenuState.mk cur scr (q ++ [c]) fl)).Sublist
      (visibleOf tbl ts (filterKey (MenuState.mk cur scr (q ++ [c]) fl) 8)) := by
  have h := applyFilter_narrows tbl ts q c
  have e1 : (filterKey (MenuState.mk cur scr (q ++ [c]) fl) 127).filter = q := by
    simp [filterKey]
  have e2 : (filterKey (MenuState.mk cur scr (q ++ [c]) fl) 8).filter = q := by
    simp [filterKey]
  refine ⟨h, fun t ht => h.subset ht, ?_, ?_⟩
  · simp only [visibleOf, e1]
    exact h
  · simp only [visibleOf, e2]
    exact h

/-! ## Target lines and the five conditions -/

theorem singleton_subword_iff (a : Char) (l : Str) : [a] <:+: l ↔ a ∈ l := by
  constructor
  · rintro ⟨s, t, e⟩
    rw [← e]; simp
  · intro h
    obtain ⟨s, t, e⟩ := List.append_of_mem h
    exact ⟨s, t, by rw [e]; simp⟩

theorem contains_char_iff (s : Str) (a : Char) : Contains s [a] = true ↔ a ∈ s := by
  rw [contains_iff, singleton_subword_iff]

/-- The code of `isTarget`, condition by condition. -/
theorem isTarget_iff (line : Str) :
    isTarget line = true ↔
      (line ≠ [] ∧ line.head? ≠ some ' ' ∧ line.head? ≠ some '\t') ∧
      0 < Index line [':'] ∧
      (HasPrefix (sliceFrom line (Index line [':'])) [':', '='] = false ∧
        HasPrefix (sliceFrom line (Index line [':'])) [':', ':', '='] = false) ∧
      Contains (sliceTo line (Index line [':'])) ['='] = false ∧
      (Contains (TrimSpace (sliceTo line (Index line [':']))) [' '] = false ∧
        Contains (TrimSpace (sliceTo line (Index line [':']))) ['\t'] = false) := by
  unfold isTarget
  simp only [Bool.or_eq_true, decide_eq_true_eq, List.length_eq_zero]
  constructor
  · intro h
    split_ifs at h with h1 h2 h3 h4 h5
    refine ⟨?_, by omega, ?_, by simpa using h4, ?_⟩
    · refine ⟨fun e => h1 (Or.inl (Or.inl e)), fun e => h1 (Or.inl (Or.inr e)),
        fun e => h1 (Or.inr e)⟩
    · constructor
      · simpa using fun e => h3 (Or.inl e)
      · simpa using fun e => h3 (Or.inr e)
    · constructor
      · simpa using fun e => h5 (Or.inl e)
      · simpa using fun e => h5 (Or.inr e)
  · rintro ⟨⟨a1, a2, a3⟩, b, ⟨c1, c2⟩, d, e1, e2⟩
    have h1 : ¬ ((line = [] ∨ line.head? = some ' ') ∨ line.head? = some '\t') := by
      rintro ((e | e) | e)
      · exact a1 e
      · exact a2 e
      · exact a3 e
    have h2 : ¬ Index line [':'] ≤ 0 := by omega
    simp [h1, h2, c1, c2, d, e1, e2]

/-- A line with a colon is the part before its first colon, the colon, and a rest; the
first colon sits at the length of the first part. -/
theorem split_at_colon (line : Str) (h : ':' ∈ line) :
    ∃ rest, line.dropWhile (fun c => c != ':') = ':' :: rest ∧
      line = line.takeWhile (fun c => c != ':') ++ ':' :: rest ∧
      ':' ∉ line.takeWhile (fun c => c != ':') ∧
      Index line [':'] = ((line.takeWhile (fun c => c != ':')).length : Int) := by
  have hsplit := List.takeWhile_append_dropWhile (fun c => c != ':') line
  have hno : ':' ∉ line.takeWhile (fun c => c != ':') := by
    intro hm
    have := List.mem_takeWhile_imp hm
    simp at this
  cases hd : line.dropWhile (fun c => c != ':') with
  | nil =>
    rw [hd, List.append_nil] at hsplit
    rw [← hsplit] at h
    exact absurd h hno
  | cons a rest =>
    have ha : a = ':' := by
      have := List.head?_dropWhile_not (fun c => c != ':') line
      rw [hd] at this
      simpa using this
    subst ha
    refine ⟨rest, rfl, ?_, hno, ?_⟩
    · rw [hd] at hsplit; exact hsplit.symm
    · have e : line = line.takeWhile (fun c => c != ':') ++ ':' :: ([] ++ rest) := by
        rw [hd] at hsplit; simpa using hsplit.symm
      have := index_first ':' [] (line.takeWhile (fun c => c != ':')) rest hno
      rw [← e] at this
      exact this

/-- The five conditions hold for the line `:` while `isTarget` rejects it: the claimed
equivalence fails there. -/
theorem colon_first_not_target :
    FiveConditions [':'] ∧ isTarget [':'] = false ∧
    ¬ (isTarget [':'] = true ↔ FiveConditions [':']) := by
  refine ⟨by decide, by decide, ?_⟩
  intro h
  have h1 : FiveConditions [':'] := by decide
  have h2 := h.2 h1
  exact absurd h2 (by decide)

/-- C23, as amended: `isTarget` holds exactly for the lines that meet the five conditions,
white space being a space or a tab, and whose first colon is not their first character. -/
theorem isTarget_five_conditions (line : Str) :
    isTarget line = true ↔ (FiveConditions line ∧ line.head? ≠ some ':') := by
  by_cases hc : ':' ∈ line
  · obtain ⟨rest, hdw, hline, hno, hidx⟩ := split_at_colon line hc
    have hto : sliceTo line ((line.takeWhile (fun c => c != ':')).length : Int)
        = line.takeWhile (fun c => c != ':') := by
      have := @List.take_left' Char (line.takeWhile (fun c => c != ':')) (':' :: rest) _ rfl
      rw [← hline] at this
      simpa [sliceTo] using this
    have hfrom : sliceFrom line ((line.takeWhile (fun c => c != ':')).length : Int)
        = ':' :: rest := by
      have := @List.drop_left' Char (line.takeWhile (fun c => c != ':')) (':' :: rest) _ rfl
      rw [← hline] at this
      simpa [sliceFrom] using this
    have hpos : (0 < ((line.takeWhile (fun c => c != ':')).length : Int)) ↔
        line.head? ≠ some ':' := by
      cases line with
      | nil => simp at hc
      | cons a l =>
        by_cases ha : a = ':'
        · subst ha; simp
        · have : (a != ':') = true := by simpa using ha
          simp [List.takeWhile_cons, this, ha]
    have hne : line ≠ [] := by
      intro e; rw [e] at hc; simp at hc
    rw [isTarget_iff, hidx, hto, hfrom, hpos]
    unfold FiveConditions
    rw [hdw]
    simp only [← hasPrefix_iff, Bool.not_eq_true]
    have c1 : Contains (line.takeWhile (fun c => c != ':')) ['='] = false ↔
        '=' ∉ line.takeWhile (fun c => c != ':') := by
      rw [← Bool.not_eq_true, contains_char_iff]
    have c2 : (Contains (TrimSpace (line.takeWhile (fun c => c != ':'))) [' '] = false ∧
        Contains (TrimSpace (line.takeWhile (fun c => c != ':'))) ['\t'] = false) ↔
        ∀ c ∈ TrimSpace (line.takeWhile (fun c => c != ':')), c ≠ ' ' ∧ c ≠ '\t' := by
      rw [← Bool.not_eq_true, contains_char_iff, ← Bool.not_eq_true, contains_char_iff]
      constructor
      · rintro ⟨h1, h2⟩ c hm
        exact ⟨fun e => h1 (e ▸ hm), fun e => h2 (e ▸ hm)⟩
      · intro h
        exact ⟨fun hm => (h _ hm).1 rfl, fun hm => (h _ hm).2 rfl⟩
    rw [c1, c2]
    constructor
    · rintro ⟨⟨_, a2, a3⟩, b, c, d, e⟩
      exact ⟨⟨⟨a2, a3⟩, hc, c, d, e⟩, b⟩
    · rintro ⟨⟨⟨a2, a3⟩, _, c, d, e⟩, b⟩
      exact ⟨⟨hne, a2, a3⟩, b, c, d, e⟩
  · have hidx : Index line [':'] = -1 := index_absent ':' [] line hc
    have h1 : ¬ isTarget line = true := by
      rw [isTarget_iff, hidx]
      rintro ⟨_, b, _⟩
      exact absurd b (by decide)
    have h2 : ¬ FiveConditions line := fun h => hc h.2.1
    constructor
    · intro h; exact absurd h h1
    · intro h; exact absurd h.1 h2

/-! ## The rendered frame -/

/-- The row loop prints the rows `i`, `i + 1`, ..., `n` of them, and counts them. -/
theorem renderRows_ok (targets : List Target) (cursor : Int) (n i : Nat)
    (st : List FrameLine × Int) (h : n ≠ 0 → i + n ≤ targets.length) :
    ∃ rows, renderRows targets cursor n (i : Int) st = some (st.1 ++ rows, st.2 + n) ∧
      rows.length = n ∧
      ∀ j, j < n → ∃ t, targets.get? (i + j) = some t ∧
        rows.get? j = some (FrameLine.row ((i + j : Nat) : Int) (((i + j : Nat) : Int) == cursor) t) := by
  induction n generalizing i st with
  | zero =>
    refine ⟨[], ?_, rfl, ?_⟩
    · simp [renderRows]
    · intro j hj; omega
  | succ n ih =>
    have hlen : i < targets.length := by have := h (by omega); omega
    obtain ⟨rows, hr, hl, hrows⟩ := ih (i + 1)
      (printLine st (FrameLine.row (i : Int) ((i : Int) == cursor) (targets.get ⟨i, hlen⟩)))
      (fun hn => by have := h (by omega); omega)
    refine ⟨FrameLine.row (i : Int) ((i : Int) == cursor) (targets.get ⟨i, hlen⟩) :: rows, ?_, ?_, ?_⟩
    · have h0 : (0 : Int) ≤ (i : Int) := by omega
      simp only [renderRows, h0, if_true, Int.toNat_ofNat, List.get?_eq_get hlen]
      have hr2 := hr
      simp only [printLine, Nat.cast_add, Nat.cast_one] at hr2 ⊢
      rw [hr2]
      simp only [List.append_assoc, List.singleton_append, Option.some.injEq, Prod.mk.injEq,
        true_and]
      omega
    · simp [hl]
    · intro j hj
      cases j with
      | zero =>
        exact ⟨targets.get ⟨i, hlen⟩, by simp [List.get?_eq_get hlen], by simp⟩
      | succ j =>
        obtain ⟨t, ht, hrow⟩ := hrows j (by omega)
        refine ⟨t, ?_, ?_⟩
        · have e : i + (j + 1) = i + 1 + j := by omega
          rw [e]; exact ht
        · have e : i + (j + 1) = i + 1 + j := by omega
          rw [e]
          simpa using hrow

/-- With `scroll = 1` and `maxVisible` the largest `int`, the sum `scroll + maxVisible`
overflows to a negative end index: on three targets `renderMenu` prints no row and
returns 3, where the formula of the claim gives two rows and 5 lines. -/
theorem overflowing_window_prints_no_row :
    renderMenu exampleTargets 0 1 9223372036854775807 [] false 0
        { KeyScheme := KeyScheme.arrows, CustomUpKey := 0, CustomDownKey := 0 } =
      some ([FrameLine.title,
          FrameLine.help { KeyScheme := KeyScheme.arrows, CustomUpKey := 0, CustomDownKey := 0 },
          FrameLine.blank], 3) ∧
    (3 + max 0 (min ((1 : Int) + 9223372036854775807) exampleTargets.length - 1) +
      (if (exampleTargets.length : Int) > 9223372036854775807 then 1 else 0) : Int) = 5 := by
  constructor <;> decide

/-- C26, as amended: for `scroll ≥ 0` and `maxVisible ≥ 1` whose sum is in the range of
`int`, and a cursor with `cursor + 1` in that range, `renderMenu` returns the number of
lines it printed: the title, the second line, the blank line, then the empty-state
message when there is no target, 4 lines in all, and otherwise the `r` rows of indices
`scroll` to `min(scroll + maxVisible, L) - 1`, with `r = max(0, min(scroll +
maxVisible, L) - scroll)`, followed by the position indicator `cursor + 1` of `L`
exactly when `L > maxVisible`: `3 + r + i` lines. -/
theorem rendered_frame_size (targets : List Target) (cursor scroll maxVisible : Int)
    (filter : Str) (filtering : Bool) (prevLines : Int) (opts : Options)
    (hs : 0 ≤ scroll) (hm : 1 ≤ maxVisible)
    (ho : scroll + maxVisible ≤ 9223372036854775807)
    (hc : -9223372036854775808 ≤ cursor + 1 ∧ cursor + 1 ≤ 9223372036854775807) :
    ∃ second rows,
      renderMenu targets cursor scroll maxVisible filter filtering prevLines opts =
        some ([FrameLine.title, second, FrameLine.blank] ++
            (if targets.length = 0 then [FrameLine.noMatch]
             else rows ++ (if (targets.length : Int) > maxVisible
               then [FrameLine.position (cursor + 1) targets.length] else [])),
          if targets.length = 0 then 4
          else 3 + max 0 (min (scroll + maxVisible) targets.length - scroll) +
            (if (targets.length : Int) > maxVisible then 1 else 0)) ∧
      (rows.length : Int) = max 0 (min (scroll + maxVisible) targets.length - scroll) ∧
      (∀ j, j < rows.length → ∃ t, targets.get? (scroll.toNat + j) = some t ∧
        rows.get? j = some (FrameLine.row (scroll + j) (scroll + j == cursor) t)) ∧
      (∀ lines count,
        renderMenu targets cursor scroll maxVisible filter filtering prevLines opts =
          some (lines, count) → count = lines.length) := by
  -- the second line
  obtain ⟨second, hsecond⟩ : ∃ second,
      (if filtering then printLine (printLine ([], 0) FrameLine.title) (FrameLine.filterInput filter)
       else if filter ≠ [] then
         printLine (printLine ([], 0) FrameLine.title) (FrameLine.filterShown filter)
       else printLine (printLine ([], 0) FrameLine.title) (FrameLine.help opts)) =
      ([FrameLine.title, second], 2) := by
    by_cases hf : filtering = true
    · exact ⟨FrameLine.filterInput filter, by simp [hf, printLine]⟩
    · by_cases hq : filter ≠ []
      · exact ⟨FrameLine.filterShown filter, by simp [hf, hq, printLine]⟩
      · exact ⟨FrameLine.help opts, by simp [hf, hq, printLine]⟩
  by_cases hL : targets.length = 0
  · refine ⟨second, [], ?_, ?_, ?_, ?_⟩
    · unfold renderMenu
      simp only [hsecond, hL, if_true]
      simp [printLine]
    · simp only [List.length_nil, Nat.cast_zero, hL]
      omega
    · intro j hj; simp at hj
    · intro lines count h
      unfold renderMenu at h
      simp only [hsecond, hL, if_true] at h
      simp only [printLine, Option.some.injEq, Prod.mk.injEq] at h
      obtain ⟨h1, h2⟩ := h
      rw [← h1, ← h2]; simp
  · -- the number of iterations of the row loop
    have hw : wrapInt (scroll + maxVisible) = scroll + maxVisible :=
      wrapInt_eq _ (by omega) ho
    have hwc : wrapInt (cursor + 1) = cursor + 1 := wrapInt_eq _ hc.1 hc.2
    have hend : (if scroll + maxVisible > (targets.length : Int) then (targets.length : Int)
        else scroll + maxVisible) = min (scroll + maxVisible) targets.length := by
      split <;> omega
    have hn : ((min (scroll + maxVisible) (targets.length : Int) - scroll).toNat : Int)
        = max 0 (min (scroll + maxVisible) targets.length - scroll) := by omega
    have hbound : (min (scroll + maxVisible) (targets.length : Int) - scroll).toNat ≠ 0 →
        scroll.toNat + (min (scroll + maxVisible) (targets.length : Int) - scroll).toNat
          ≤ targets.length := by
      intro _; omega
    obtain ⟨rows, hr, hl, hrows⟩ := renderRows_ok targets cursor
      (min (scroll + maxVisible) (targets.length : Int) - scroll).toNat scroll.toNat
      ([FrameLine.title, second, FrameLine.blank], 3) hbound
    have hsc : ((scroll.toNat : Nat) : Int) = scroll := by omega
    rw [hsc] at hr
    have hrender : renderMenu targets cursor scroll maxVisible filter filtering prevLines opts =
        some ([FrameLine.title, second, FrameLine.blank] ++
            (rows ++ (if (targets.length : Int) > maxVisible
               then [FrameLine.position (cursor + 1) targets.length] else [])),
          3 + max 0 (min (scroll + maxVisible) targets.length - scroll) +
            (if (targets.length : Int) > maxVisible then 1 else 0)) := by
      unfold renderMenu
      simp only [hsecond, hL, if_false, hw, hwc, hend]
      have e3 : printLine ([FrameLine.title, second], 2) FrameLine.blank =
          ([FrameLine.title, second, FrameLine.blank], 3) := by simp [printLine]
      rw [e3, hr]
      simp only
      by_cases hgt : (targets.length : Int) > maxVisible
      · simp only [hgt, if_true, printLine, Option.some.injEq, Prod.mk.injEq]
        constructor
        · simp
        · omega
      · simp only [hgt, if_false, Option.some.injEq, Prod.mk.injEq]
        constructor
        · simp
        · omega
    refine ⟨second, rows, ?_, ?_, ?_, ?_⟩
    · rw [hrender]; simp only [hL, if_false]
    · rw [hl]; exact hn
    · intro j hj
      rw [hl] at hj
      obtain ⟨t, ht, hrow⟩ := hrows j hj
      refine ⟨t, ht, ?_⟩
      rw [hrow]
      have e : ((scroll.toNat + j : Nat) : Int) = scroll + j := by omega
      rw [e]
    · intro lines count h
      rw [hrender] at h
      simp only [Option.some.injEq, Prod.mk.injEq] at h
      obtain ⟨h1, h2⟩ := h
      rw [← h1, ← h2]
      have hl2 : (rows.length : Int) = max 0 (min (scroll + maxVisible) targets.length - scroll) := by
        rw [hl]; exact hn
      by_cases hgt : (targets.length : Int) > maxVisible
      · simp only [hgt, if_true, List.length_append, List.length_cons, List.length_nil]
        push_cast
        omega
      · simp only [hgt, if_false, List.length_append, List.length_cons, List.length_nil]
        push_cast
        omega

theorem rendered_frame_size_witness :
    ∃ second rows,
      renderMenu exampleTargets 1 0 2 [] false 0
          { KeyScheme := KeyScheme.arrows, CustomUpKey := 0, CustomDownKey := 0 } =
        some ([FrameLine.title, second, FrameLine.blank] ++
            (if exampleTargets.length = 0 then [FrameLine.noMatch]
             else rows ++ (if (exampleTargets.length : Int) > 2
               then [FrameLine.position ((1 : Int) + 1) exampleTargets.length] else [])),
          if exampleTargets.length = 0 then (4 : Int)
          else 3 + max (0 : Int) (min ((0 : Int) + 2) exampleTargets.length - 0) +
            (if (exampleTargets.length : Int) > 2 then 1 else 0)) := by
  obtain ⟨second, rows, h, _⟩ := rendered_frame_size exampleTargets 1 0 2 [] false 0
    { KeyScheme := KeyScheme.arrows, CustomUpKey := 0, CustomDownKey := 0 }
    (by decide) (by decide) (by decide) (by decide)
  exact ⟨second, rows, h⟩

/-! ## Results of `Run` and of the fallback prompt -/

theorem confirmKey_result (filtered : List Target) (s : MenuState) (r : SelectionResult)
    (h : confirmKey filtered s = Outcome.result r) :
    ∃ t, t ∈ filtered ∧ r = { Target := some t, Confirmed := true } := by
  unfold confirmKey at h
  split_ifs at h with h1 h2
  cases hg : filtered.get? s.cursor.toNat with
  | none => rw [hg] at h; simp at h
  | some t =>
    rw [hg] at h
    simp only [Outcome.result.injEq] at h
    exact ⟨t, List.get?_mem hg, h.symm⟩

theorem browseKey_result (opts : Options) (filtered : List Target) (s : MenuState)
    (key : List Nat) (r : SelectionResult)
    (h : browseKey opts filtered s key = Outcome.result r) :
    r = { Target := none, Confirmed := false } ∨
    ∃ t, t ∈ filtered ∧ r = { Target := some t, Confirmed := true } := by
  rcases browseKey_cases opts filtered s key with e | e | e | e | e | e
  · rw [e] at h; simp only [Outcome.result.injEq] at h; exact Or.inl h.symm
  · rw [e] at h; simp at h
  · rw [e] at h; exact Or.inr (confirmKey_result filtered s r h)
  · rw [e] at h; simp at h
  · rw [e] at h; simp at h
  · rw [e] at h; simp at h

theorem loopBody_result (tbl : Char → Char) (opts : Options) (targets : List Target)
    (s : MenuState) (input : Option (List Nat)) (r : SelectionResult)
    (h : loopBody tbl opts targets s input = Outcome.result r) :
    r = { Target := none, Confirmed := false } ∨
    ∃ t, t ∈ visibleOf tbl targets s ∧ r = { Target := some t, Confirmed := true } := by
  cases input with
  | none =>
    simp only [loopBody, Outcome.result.injEq] at h
    exact Or.inl h.symm
  | some key =>
    rw [loopBody_eq] at h
    split_ifs at h with h1 h2
    exact browseKey_result opts _ _ key r h

theorem visible_subset (tbl : Char → Char) (targets : List Target) (s : MenuState) (t : Target)
    (h : t ∈ visibleOf tbl targets s) : t ∈ targets :=
  (applyFilter_sublist tbl targets s.filter).subset h

theorem runLoop_result (tbl : Char → Char) (opts : Options) (targets : List Target)
    (inputs : List (Option (List Nat))) (s : MenuState) (r : SelectionResult)
    (h : runLoop tbl opts targets s inputs = Outcome.result r) :
    r = { Target := none, Confirmed := false } ∨
    ∃ t, t ∈ targets ∧ r = { Target := some t, Confirmed := true } := by
  induction inputs generalizing s with
  | nil => simp [runLoop] at h
  | cons i rest ih =>
    unfold runLoop at h
    cases hl : loopBody tbl opts targets s i with
    | next s2 => rw [hl] at h; exact ih s2 h
    | result r2 =>
      rw [hl] at h
      simp only [Outcome.result.injEq] at h
      subst h
      rcases loopBody_result tbl opts targets s i r2 hl with e | ⟨t, ht, e⟩
      · exact Or.inl e
      · exact Or.inr ⟨t, visible_subset tbl targets s t ht, e⟩
    | panic => rw [hl] at h; simp at h

theorem fallbackStep_result (targets : List Target) (input : Str) (r : SelectionResult)
    (h : fallbackStep targets input = some r) :
    r = { Target := none, Confirmed := false } ∨
    ∃ t, t ∈ targets ∧ r = { Target := some t, Confirmed := true } := by
  unfold fallbackStep at h
  simp only at h
  split_ifs at h with h1
  · simp only [Option.some.injEq] at h
    exact Or.inl h.symm
  · cases hs : sscanInt (TrimSpace input) with
    | none => rw [hs] at h; simp at h
    | some idx =>
      rw [hs] at h
      simp only at h
      split_ifs at h with h2
      cases hg : targets.get? (idx - 1).toNat with
      | none => rw [hg] at h; simp at h
      | some t =>
        rw [hg] at h
        simp only [Option.some.injEq] at h
        exact Or.inr ⟨t, List.get?_mem hg, h.symm⟩

theorem runFallbackMenu_result (targets : List Target) (lines : List Str) (r : SelectionResult)
    (h : runFallbackMenu targets lines = some r) :
    r = { Target := none, Confirmed := false } ∨
    ∃ t, t ∈ targets ∧ r = { Target := some t, Confirmed := true } := by
  induction lines with
  | nil => simp [runFallbackMenu] at h
  | cons l rest ih =>
    unfold runFallbackMenu at h
    cases hf : fallbackStep targets l with
    | none => rw [hf] at h; exact ih h
    | some r2 =>
      rw [hf] at h
      simp only [Option.some.injEq] at h
      subst h
      exact fallbackStep_result targets l r2 hf

/-- C29: every result that `Run` returns, from the key loop or from the fallback prompt,
has `Confirmed = true` exactly when its `Target` is present, and a present target is
one of the input targets, for the key loop one of the visible targets; an empty target
list and a failed read of a key both give the result without target, not confirmed. -/
theorem selection_result_well_formed (tbl : Char → Char) (targets : List Target)
    (opts : Options) (rawOK : Bool) (keys : List (Option (List Nat))) (lines : List Str)
    (r : SelectionResult)
    (h : Run tbl targets opts rawOK keys lines = RunOutcome.returned r) :
    (r.Confirmed = true ↔ r.Target ≠ none) ∧
    (∀ t, r.Target = some t → t ∈ targets) ∧
    Run tbl [] opts rawOK keys lines =
      RunOutcome.returned { Target := none, Confirmed := false } ∧
    (∀ s, loopBody tbl opts targets s none =
      Outcome.result { Target := none, Confirmed := false }) ∧
    (∀ s input r1 t, loopBody tbl opts targets s input = Outcome.result r1 →
      r1.Target = some t → t ∈ visibleOf tbl targets s) ∧
    (∀ input r1, fallbackStep targets input = some r1 →
      (r1.Confirmed = true ↔ r1.Target ≠ none) ∧ ∀ t, r1.Target = some t → t ∈ targets) := by
  have key : r = { Target := none, Confirmed := false } ∨
      ∃ t, t ∈ targets ∧ r = { Target := some t, Confirmed := true } := by
    unfold Run at h
    by_cases h1 : targets.length = 0
    · simp only [h1, if_true, RunOutcome.returned.injEq] at h
      exact Or.inl h.symm
    · by_cases h2 : rawOK = true
      · simp only [h1, h2, if_false, if_true] at h
        cases hr : runLoop tbl (defaultScheme opts) targets initMenu keys with
        | next s2 => rw [hr] at h; simp at h
        | result r2 =>
          rw [hr] at h
          simp only [RunOutcome.returned.injEq] at h
          subst h
          exact runLoop_result tbl _ targets keys initMenu _ hr
        | panic => rw [hr] at h; simp at h
      · simp only [h1, h2, if_false, Bool.false_eq_true] at h
        cases hr : runFallbackMenu targets lines with
        | none => rw [hr] at h; simp at h
        | some r2 =>
          rw [hr] at h
          simp only [RunOutcome.returned.injEq] at h
          subst h
          exact runFallbackMenu_result targets lines _ hr
  refine ⟨?_, ?_, by simp [Run], fun s => rfl, ?_, ?_⟩
  · rcases key with e | ⟨t, _, e⟩ <;> rw [e] <;> simp
  · intro t ht
    rcases key with e | ⟨t2, ht2, e⟩
    · rw [e] at ht; simp at ht
    · rw [e] at ht
      simp only [Option.some.injEq] at ht
      rw [← ht]; exact ht2
  · intro s input r1 t h1 ht
    rcases loopBody_result tbl opts targets s input r1 h1 with e | ⟨t2, ht2, e⟩
    · rw [e] at ht; simp at ht
    · rw [e] at ht
      simp only [Option.some.injEq] at ht
      rw [← ht]; exact ht2
  · intro input r1 h1
    rcases fallbackStep_result targets input r1 h1 with e | ⟨t2, ht2, e⟩
    · rw [e]; simp
    · rw [e]
      refine ⟨by simp, ?_⟩
      intro t ht
      simp only [Option.some.injEq] at ht
      rw [← ht]; exact ht2

theorem selection_result_well_formed_witness :
    (({ Target := exampleTargets.get? 0, Confirmed := true } : SelectionResult).Confirmed = true ↔
      ({ Target := exampleTargets.get? 0, Confirmed := true } : SelectionResult).Target ≠ none) :=
  (selection_result_well_formed id exampleTargets
    { KeyScheme := KeyScheme.unset, CustomUpKey := 0, CustomDownKey := 0 } true [some [13]] []
    { Target := exampleTargets.get? 0, Confirmed := true } (by decide)).1

/-! ## The fallback prompt -/

theorem takeWhile_digits (ds rest : Str) (hd : ∀ c ∈ ds, isDigit c = true)
    (hr : ∀ c, rest.head? = some c → isDigit c = false) :
    (ds ++ rest).takeWhile isDigit = ds := by
  rw [List.takeWhile_append_of_pos hd]
  cases rest with
  | nil => simp
  | cons a l =>
    have := hr a rfl
    simp [List.takeWhile_cons, this]

theorem sscanInt_body (input : Str) (neg : Bool) (body : Str) (k : Int)
    (hs : splitSign input = (neg, body)) (h : sscanInt input = some k) :
    body.takeWhile isDigit ≠ [] ∧
    (∀ c ∈ body.takeWhile isDigit, isDigit c = true) ∧
    (∀ c, (body.dropWhile isDigit).head? = some c → isDigit c = false) ∧
    k = (if neg = true then - decimalValue (body.takeWhile isDigit)
         else decimalValue (body.takeWhile isDigit)) ∧
    -9223372036854775808 ≤ k ∧ k ≤ 9223372036854775807 := by
  unfold sscanInt at h
  rw [hs] at h
  simp only at h
  by_cases h1 : body.takeWhile isDigit = []
  · simp [h1] at h
  · simp only [h1, if_false] at h
    generalize hv : (if neg = true
      then - decimalValue (body.takeWhile isDigit)
      else decimalValue (body.takeWhile isDigit)) = v at h
    by_cases h3 : -9223372036854775808 ≤ v ∧ v ≤ 9223372036854775807
    · simp only [h3, and_self, if_true, Option.some.injEq] at h
      have hdig : ∀ c ∈ body.takeWhile isDigit, isDigit c = true := by
        intro c hc
        exact List.mem_takeWhile_imp hc
      have hrest : ∀ c, (body.dropWhile isDigit).head? = some c → isDigit c = false := by
        intro c hc
        have := List.head?_dropWhile_not isDigit body
        rw [hc] at this
        simpa using this
      refine ⟨h1, hdig, hrest, ?_, ?_, ?_⟩
      · rw [← h]
      · rw [← h]; exact h3.1
      · rw [← h]; exact h3.2
    · simp [h3] at h

/-- What the scan finds when it returns `k`: a sign, digits, and a rest that does not
start with a digit. -/
theorem sscanInt_shape (input : Str) (k : Int) (h : sscanInt input = some k) :
    StartsWithInteger input k := by
  cases input with
  | nil =>
    have := sscanInt_body [] false [] k rfl h
    simp at this
  | cons a l =>
    by_cases ha : a = '+'
    · have hs : splitSign (a :: l) = (false, l) := by simp [splitSign, ha]
      obtain ⟨h1, hdig, hrest, hk, hlo, hhi⟩ := sscanInt_body (a :: l) false l k hs h
      refine ⟨['+'], _, _, ?_, Or.inr (Or.inl rfl), h1, hdig, hrest, ?_, hlo, hhi⟩
      · rw [ha, List.append_assoc, List.takeWhile_append_dropWhile isDigit l]
        rfl
      · simpa using hk
    · by_cases hb : a = '-'
      · have hs : splitSign (a :: l) = (true, l) := by simp [splitSign, hb]
        obtain ⟨h1, hdig, hrest, hk, hlo, hhi⟩ := sscanInt_body (a :: l) true l k hs h
        refine ⟨['-'], _, _, ?_, Or.inr (Or.inr rfl), h1, hdig, hrest, ?_, hlo, hhi⟩
        · rw [hb, List.append_assoc, List.takeWhile_append_dropWhile isDigit l]
          rfl
        · simpa using hk
      · have hs : splitSign (a :: l) = (false, a :: l) := by simp [splitSign, ha, hb]
        obtain ⟨h1, hdig, hrest, hk, hlo, hhi⟩ := sscanInt_body (a :: l) false (a :: l) k hs h
        refine ⟨[], _, _, ?_, Or.inl rfl, h1, hdig, hrest, ?_, hlo, hhi⟩
        · rw [List.nil_append, List.takeWhile_append_dropWhile isDigit (a :: l)]
        · simpa using hk

/-- The scan returns `k` on every input of that shape. -/
theorem sscanInt_of_shape (input : Str) (k : Int) (h : StartsWithInteger input k) :
    sscanInt input = some k := by
  obtain ⟨sign, ds, rest, e, hsign, hne, hd, hr, hk, hlo, hhi⟩ := h
  have htok := takeWhile_digits ds rest hd hr
  have hfinish : ∀ (neg : Bool), (neg = true ↔ sign = ['-']) →
      splitSign input = (neg, ds ++ rest) → sscanInt input = some k := by
    intro neg hneg hs
    unfold sscanInt
    simp only [hs, htok, hne, if_false]
    have hv : (if neg = true then - decimalValue ds else decimalValue ds) = k := by
      rw [hk]
      by_cases hn : neg = true
      · simp [hn, hneg.1 hn]
      · have : ¬ sign = ['-'] := fun e2 => hn (hneg.2 e2)
        simp [hn, this]
    rw [hv]
    simp [hlo, hhi]
  rcases hsign with hs | hs | hs
  · subst hs
    cases ds with
    | nil => exact absurd rfl hne
    | cons d ds2 =>
      have hdd := hd d (by simp)
      have h1 : d ≠ '+' := by intro e2; rw [e2] at hdd; exact absurd hdd (by decide)
      have h2 : d ≠ '-' := by intro e2; rw [e2] at hdd; exact absurd hdd (by decide)
      apply hfinish false (by simp)
      rw [e]
      simp [splitSign, h1, h2]
  · subst hs
    apply hfinish false (by simp)
    rw [e]
    simp [splitSign]
  · subst hs
    apply hfinish true (by simp)
    rw [e]
    simp [splitSign]

theorem sscanInt_iff (input : Str) (k : Int) :
    sscanInt input = some k ↔ StartsWithInteger input k :=
  ⟨sscanInt_shape input k, sscanInt_of_shape input k⟩

theorem sscanInt_q : sscanInt ['q'] = none := by decide

/-- The scan of `%d` stops at an underscore, which it leaves unread: `2_` gives 2 and
`1_0` gives 1. -/
theorem sscanInt_stops_at_underscore :
    sscanInt ['2', '_'] = some 2 ∧ sscanInt ['1', '_', '0'] = some 1 := by
  constructor <;> decide

theorem fallbackStep_eq (targets : List Target) (input : Str) :
    fallbackStep targets input =
      if TrimSpace input = ['q'] then some { Target := none, Confirmed := false }
      else match sscanInt (TrimSpace input) with
        | some idx =>
          if idx ≥ 1 ∧ idx ≤ targets.length then
            match targets.get? (idx - 1).toNat with
            | some t => some { Target := some t, Confirmed := true }
            | none => none
          else none
        | none => none := rfl

/-- The line `2abc` is no integer, yet the fallback prompt returns the second target for
it: the claimed equivalence fails there. -/
theorem trailing_text_accepted :
    fallbackStep exampleTargets ['2', 'a', 'b', 'c', '\n'] =
      some { Target := exampleTargets.get? 1, Confirmed := true } ∧
    TrimSpace ['2', 'a', 'b', 'c', '\n'] = ['2', 'a', 'b', 'c'] ∧
    ¬ ∃ k, IsInteger ['2', 'a', 'b', 'c'] k := by
  refine ⟨by decide, by decide, ?_⟩
  rintro ⟨k, sign, ds, e, hs, _, hd, _⟩
  have hm : 'a' ∈ sign ++ ds := by rw [← e]; simp
  rcases List.mem_append.1 hm with h | h
  · rcases hs with hs | hs | hs <;> rw [hs] at h <;> simp at h
  · exact absurd (hd _ h) (by decide)

/-- C22, as amended: on `N` targets the fallback prompt returns the result without
target, not confirmed, exactly when the trimmed line is `q`; it returns `targets[k-1]`,
confirmed, exactly when the trimmed line starts with an integer `k`, `1 ≤ k ≤ N`, whatever
follows its digits, which covers every line that is such an integer; otherwise it
returns nothing and reads on. -/
theorem fallback_prompt (targets : List Target) (input : Str) :
    (fallbackStep targets input = some { Target := none, Confirmed := false } ↔
      TrimSpace input = ['q']) ∧
    (∀ t, fallbackStep targets input = some { Target := some t, Confirmed := true } ↔
      ∃ k, StartsWithInteger (TrimSpace input) k ∧ 1 ≤ k ∧ k ≤ targets.length ∧
        targets.get? (k - 1).toNat = some t) ∧
    (fallbackStep targets input = none ↔
      (TrimSpace input ≠ ['q'] ∧
        ¬ ∃ k, StartsWithInteger (TrimSpace input) k ∧ 1 ≤ k ∧ k ≤ targets.length)) ∧
    (∀ k, IsInteger (TrimSpace input) k → 1 ≤ k → k ≤ targets.length →
      k ≤ 9223372036854775807 →
      ∃ t, targets.get? (k - 1).toNat = some t ∧
        fallbackStep targets input = some { Target := some t, Confirmed := true }) := by
  -- the step in terms of the scan
  have hget : ∀ idx : Int, idx ≥ 1 ∧ idx ≤ targets.length →
      ∃ t, targets.get? (idx - 1).toNat = some t := by
    intro idx h
    have hlt : (idx - 1).toNat < targets.length := by omega
    exact ⟨targets.get ⟨_, hlt⟩, List.get?_eq_get hlt⟩
  have hstep : ∀ t, fallbackStep targets input = some { Target := some t, Confirmed := true } ↔
      ∃ k, sscanInt (TrimSpace input) = some k ∧ 1 ≤ k ∧ k ≤ targets.length ∧
        targets.get? (k - 1).toNat = some t := by
    intro t
    rw [fallbackStep_eq]
    by_cases hq : TrimSpace input = ['q']
    · simp only [hq, if_true, sscanInt_q]
      simp
    · simp only [hq, if_false]
      cases hs : sscanInt (TrimSpace input) with
      | none => simp
      | some idx =>
        simp only
        by_cases hr : idx ≥ 1 ∧ idx ≤ targets.length
        · obtain ⟨t0, ht0⟩ := hget idx hr
          simp only [hr, and_self, if_true, ht0, Option.some.injEq, SelectionResult.mk.injEq,
            and_true]
          constructor
          · intro e; exact ⟨idx, rfl, hr.1, hr.2, by rw [ht0, e]⟩
          · rintro ⟨k, e, _, _, hk⟩
            rw [← e, ht0] at hk
            exact Option.some.inj hk
        · simp only [hr, if_false]
          constructor
          · intro e; simp at e
          · rintro ⟨k, e, h1, h2, _⟩
            simp only [Option.some.injEq] at e
            rw [← e] at h1 h2
            exact absurd ⟨h1, h2⟩ hr
  have hnone : fallbackStep targets input = none ↔
      (TrimSpace input ≠ ['q'] ∧
        ¬ ∃ k, sscanInt (TrimSpace input) = some k ∧ 1 ≤ k ∧ k ≤ targets.length) := by
    rw [fallbackStep_eq]
    by_cases hq : TrimSpace input = ['q']
    · simp [hq]
    · simp only [hq, if_false, ne_eq, not_false_eq_true, true_and]
      cases hs : sscanInt (TrimSpace input) with
      | none => simp
      | some idx =>
        simp only
        by_cases hr : idx ≥ 1 ∧ idx ≤ targets.length
        · obtain ⟨t0, ht0⟩ := hget idx hr
          simp only [hr, and_self, if_true, ht0]
          constructor
          · intro e; simp at e
          · intro hcon; exact absurd ⟨idx, rfl, hr.1, hr.2⟩ hcon
        · simp only [hr, if_false, true_iff]
          rintro ⟨k, e, h1, h2⟩
          simp only [Option.some.injEq] at e
          rw [← e] at h1 h2
          exact hr ⟨h1, h2⟩
  refine ⟨?_, ?_, ?_, ?_⟩
  · rw [fallbackStep_eq]
    by_cases hq : TrimSpace input = ['q']
    · simp [hq]
    · simp only [hq, if_false, iff_false]
      cases hs : sscanInt (TrimSpace input) with
      | none => simp
      | some idx =>
        simp only
        by_cases hr : idx ≥ 1 ∧ idx ≤ targets.length
        · obtain ⟨t0, ht0⟩ := hget idx hr
          simp only [hr, and_self, if_true, ht0]
          simp
        · simp only [hr, if_false]
          simp
  · intro t
    rw [hstep t]
    simp only [sscanInt_iff]
  · rw [hnone]
    simp only [sscanInt_iff]
  · intro k hk h1 h2 h3
    obtain ⟨sign, ds, e, hsign, hne, hd, hv⟩ := hk
    have hstart : StartsWithInteger (TrimSpace input) k :=
      ⟨sign, ds, [], by simpa using e, hsign, hne, hd, by simp, hv, by omega, h3⟩
    obtain ⟨t, ht⟩ := hget k ⟨h1, h2⟩
    exact ⟨t, ht, (hstep t).2 ⟨k, (sscanInt_iff _ _).2 hstart, h1, h2, ht⟩⟩

theorem fallback_prompt_witness :
    (fallbackStep exampleTargets ['q', '\n'] = some { Target := none, Confirmed := false } ↔
      TrimSpace ['q', '\n'] = ['q']) :=
  (fallback_prompt exampleTargets ['q', '\n']).1

end Mk
